import Mathlib

/-!
# Gauge scenario executor: a shallow embedding

Source: `execution/scenarioExecutor.go` (package `execution`) and, for the
step-frequency forest, `graph.go` (package `main`).

The Go code mutates a result tree, a shared validation-error map and a shared
`ExecutionInfo` in place, and talks to three external parties: the Runner, the
event notifier and (in manual mode) the console.  Here all of that is explicit:

* `World` is the mutable state the executor can reach;
* `World.log` is the ordered trace of every externally visible action
  (published events, messages sent to the Runner together with the response,
  manual console sessions);
* a `Runner` is a deterministic oracle that answers a message given the whole
  trace so far, so a stateful runner is covered;
* Go pointers used as map keys (`*gauge.Scenario`, `*gauge.Step`) are the `ptr`
  fields: two objects are the same object iff their `ptr` agree;
* a Go run-time panic (index out of range, nil dereference) is an explicit
  exit: the state reached so far is kept, and deferred calls still run.

Execution times are not modelled.  Go's `int` is taken to be 64 bits wide.
-/

namespace Gauge

/-! ## Data model -/

/-- The Go type `gauge.Step`: `ptr` is the address of the object, `value` the
normalized identity text, `conceptSteps` the children of a concept invocation. -/
inductive Step where
  | mk (ptr : Nat) (lineNo : Int) (lineText : String) (value : String)
      (conceptSteps : List Step)

/-- Address of a step object. -/
def Step.ptr : Step → Nat
  | .mk p _ _ _ _ => p

/-- Field `LineNo`. -/
def Step.lineNo : Step → Int
  | .mk _ n _ _ _ => n

/-- Field `LineText`. -/
def Step.lineText : Step → String
  | .mk _ _ t _ _ => t

/-- Field `Value`. -/
def Step.value : Step → String
  | .mk _ _ _ v _ => v

/-- Field `ConceptSteps`. -/
def Step.conceptSteps : Step → List Step
  | .mk _ _ _ _ cs => cs

/-- The Go type `gauge.Heading`. -/
structure Heading where
  lineNo : Int
  value : String
  deriving DecidableEq, Repr

/-- The Go type `gauge.Scenario`: `ptr` is the address of the object. -/
structure Scenario where
  ptr : Nat
  heading : Heading
  steps : List Step

/-- The enum `gauge_messages.ProtoItem_ItemType`. -/
inductive ItemType where
  | Step
  | Context
  | Concept
  | Scenario
  | TableDrivenScenario
  | Comment
  | Table
  | Tags
  deriving DecidableEq, Repr

/-- The item kinds that carry neither a step nor a concept. -/
inductive OtherKind where
  | Context
  | Scenario
  | TableDrivenScenario
  | Comment
  | Table
  | Tags
  deriving DecidableEq, Repr

/-- The Go type `gauge_messages.ProtoExecutionResult` (the fields read here). -/
structure ProtoExecutionResult where
  failed : Bool
  recoverableError : Bool
  errorMessage : String
  message : List String
  deriving DecidableEq, Repr

/-- The Go type `gauge_messages.ProtoStepExecutionResult`. -/
structure ProtoStepExecutionResult where
  executionResult : Option ProtoExecutionResult
  skipped : Bool
  deriving DecidableEq, Repr

/-- A node of the result tree, `gauge_messages.ProtoItem`, as a tagged variant:
a `Step` item holds its `ProtoStep` (of which only `StepExecutionResult` is
used), a `Concept` item holds its `ProtoConcept` (child items `Steps` and
`ConceptExecutionResult`), every other kind holds neither. -/
inductive ProtoItem where
  | step (stepExecutionResult : Option ProtoStepExecutionResult)
  | concept (steps : List ProtoItem)
      (conceptExecutionResult : Option ProtoStepExecutionResult)
  | other (kind : OtherKind)

/-- The getter `GetItemType`. -/
def ProtoItem.GetItemType : ProtoItem → ItemType
  | .step _ => ItemType.Step
  | .concept _ _ => ItemType.Concept
  | .other OtherKind.Context => ItemType.Context
  | .other OtherKind.Scenario => ItemType.Scenario
  | .other OtherKind.TableDrivenScenario => ItemType.TableDrivenScenario
  | .other OtherKind.Comment => ItemType.Comment
  | .other OtherKind.Table => ItemType.Table
  | .other OtherKind.Tags => ItemType.Tags

/-- The test `GetItemType() == ProtoItem_Concept || GetItemType() == ProtoItem_Step`
that both walks apply to a node. -/
def ProtoItem.isExecutable (p : ProtoItem) : Bool :=
  p.GetItemType == ItemType.Concept || p.GetItemType == ItemType.Step

/-- The execution result attached to a node, if any: for a step the
`StepExecutionResult.ExecutionResult`, for a concept the
`ConceptExecutionResult.ExecutionResult`. -/
def ProtoItem.executionResult : ProtoItem → Option ProtoExecutionResult
  | .step res => res.bind ProtoStepExecutionResult.executionResult
  | .concept _ res => res.bind ProtoStepExecutionResult.executionResult
  | .other _ => none

/-- The enum `StepValidateResponse_ErrorType`. -/
inductive ErrorType where
  | STEP_IMPLEMENTATION_NOT_FOUND
  | DUPLICATE_STEP_IMPLEMENTATION
  deriving DecidableEq, Repr

/-- The Go type `validation.StepValidationError`, as built by
`validation.NewValidationError(step, message, fileName, errorType)`; of the
step only `LineNo` and `LineText` are set by the callers in this file. -/
structure StepValidationError where
  stepLineNo : Int
  stepLineText : String
  message : String
  fileName : String
  errorType : Option ErrorType
  deriving DecidableEq, Repr

/-- Modelled from the spec: the method `IsUnimplementedError` is not under src.
Spec 3 gives each validation error "a classification flag distinguishing step
has no implementation from all other validation failures": the error is an
"unimplemented step" error iff its error type is `STEP_IMPLEMENTATION_NOT_FOUND`.
An error built with a nil error type, as the two synthesized errors of this file
are, is not one (spec 7: a scenario without steps is a structural skip). -/
def StepValidationError.IsUnimplementedError (e : StepValidationError) : Bool :=
  e.errorType == some ErrorType.STEP_IMPLEMENTATION_NOT_FOUND

/-- Modelled from the spec: the method `Error()` of `StepValidationError` is not
under src.  The spec has the skip-reason list hold "all error messages" of the
scenario's validation errors, so the text of an error is its message. -/
def StepValidationError.Error (e : StepValidationError) : String :=
  e.message

/-- The Go type `validation.ValidationErrMaps`: two maps keyed by object
address. -/
structure ValidationErrMaps where
  scenarioErrs : Nat → Option (List StepValidationError)
  stepErrs : Nat → Option StepValidationError

/-- The map write `ScenarioErrs[scenario] = errs`. -/
def ValidationErrMaps.setScenarioErrs (m : ValidationErrMaps) (key : Nat)
    (errs : List StepValidationError) : ValidationErrMaps :=
  { m with scenarioErrs := fun k => if k = key then some errs else m.scenarioErrs k }

/-- The part of `gauge_messages.ExecutionInfo` used here: the current spec's
file name and failed flag, and the current scenario's failed flag. -/
structure ExecutionInfo where
  specFileName : String
  specIsFailed : Bool
  scenarioIsFailed : Bool
  deriving DecidableEq, Repr

/-- The Go type `result.ScenarioResult` with its `ProtoScenario`. -/
structure ScenarioResult where
  skipped : Bool
  skipErrors : List String
  failed : Bool
  contexts : List ProtoItem
  scenarioItems : List ProtoItem
  tearDownSteps : List ProtoItem
  preHookFailure : List String
  postHookFailure : List String

/-! ## The outside world -/

/-- The event kinds published by the scenario executor. -/
inductive EventKind where
  | ScenarioStart
  | ScenarioEnd
  | ConceptStart
  | ConceptEnd
  deriving DecidableEq, Repr

/-- The messages the executor sends to the Runner.  `ExecuteStep` names the
step by address and identity text. -/
inductive Message where
  | ScenarioDataStoreInit
  | ScenarioExecutionStarting
  | ScenarioExecutionEnding
  | ExecuteStep (stepPtr : Nat) (stepValue : String)
  deriving DecidableEq, Repr

/-- One externally visible action.  `event k subject` is `event.Notify` (the
subject is the address of the scenario or step the event is about),
`runnerCall m res` is `ExecuteAndGetStatus(m)` answered with `res`, and
`console stepPtr res` is one session of the manual console for a step, which
synthesized `res`. -/
inductive Action where
  | event (kind : EventKind) (subject : Option Nat)
  | runnerCall (m : Message) (res : ProtoExecutionResult)
  | console (stepPtr : Nat) (res : ProtoExecutionResult)
  deriving DecidableEq, Repr

/-- The Runner: answers a message, given everything that happened before. -/
abbrev Runner := List Action → Message → ProtoExecutionResult

/-- What `canExecuteManually` reads from the process: the value of the
environment variable `env.ManualExecutionEnabled`, the package variable
`InParallel`, and whether standard output is a terminal. -/
structure Env where
  manualExecutionEnabled : String
  inParallel : Bool
  stdoutIsTerminal : Bool
  deriving DecidableEq, Repr

/-- Everything the executor reads and writes: the trace, the shared error maps,
the shared execution info, the scenario result being filled, and the lines
still to be read from standard input (each without its newline). -/
structure World where
  log : List Action
  errMap : ValidationErrMaps
  currentExecutionInfo : ExecutionInfo
  scenarioResult : ScenarioResult
  stdin : List String

/-- The call `event.Notify(event.NewExecutionEvent(kind, ...))`. -/
def World.Notify (w : World) (kind : EventKind) (subject : Option Nat) : World :=
  { w with log := w.log ++ [Action.event kind subject] }

/-- The call `runner.ExecuteAndGetStatus(message)`. -/
def ExecuteAndGetStatus (r : Runner) (m : Message) (w : World) :
    ProtoExecutionResult × World :=
  (r w.log m, { w with log := w.log ++ [Action.runnerCall m (r w.log m)] })

/-- Modelled from the spec: the methods `SetFailure` and `GetFailed` of
`result.ScenarioResult` are not under src.  Spec 3: the scenario-level result
node holds "an overall failed flag"; `SetFailure` sets it, on the result held by
the world, and `GetFailed` reads it. -/
def World.SetFailure (w : World) : World :=
  { w with scenarioResult := { w.scenarioResult with failed := true } }

/-- How a walk over a list of result nodes is left: it reached the end of the
list, it returned early on a non-recoverable failure, or it panicked. -/
inductive Exit where
  | completed
  | halted
  | panicked
  deriving DecidableEq, Repr

/-! ## Scenario executor -/

/-- Source: `canExecuteManually`.  `strings.ToLower` acts on the letters
of "true" as ASCII lower-casing does. -/
def canExecuteManually (env : Env) : Bool :=
  let enabled := String.mk (env.manualExecutionEnabled.data.map Char.toLower) == "true"
  enabled && !env.inParallel && env.stdoutIsTerminal

/-- Modelled from the spec: `setSpecFailure` is not under src.  Spec 4.4: a
failed hook "marks the ExecutionInfo's current scenario (and spec) failed". -/
def setSpecFailure (ei : ExecutionInfo) : ExecutionInfo :=
  { ei with specIsFailed := true }

/-- Source: `setScenarioFailure`. -/
def setScenarioFailure (ei : ExecutionInfo) : ExecutionInfo :=
  { setSpecFailure ei with scenarioIsFailed := true }

/-- Source: `setSkipInfoInResult`. -/
def setSkipInfoInResult (scenario : Scenario) (w : World) : World :=
  { w with scenarioResult :=
      { w.scenarioResult with
          skipped := true
          skipErrors :=
            ((w.errMap.scenarioErrs scenario.ptr).getD []).map StepValidationError.Error } }

/-- Source: `scenarioExecutor.skipSceForError`.  The message is
`fmt.Sprintf("%s:%d No steps found in scenario", fileName, lineNo)`. -/
def skipSceForError (scenario : Scenario) (w : World) : World :=
  let errMsg := w.currentExecutionInfo.specFileName ++ ":" ++ toString scenario.heading.lineNo
    ++ " No steps found in scenario"
  let validationError : StepValidationError :=
    { stepLineNo := scenario.heading.lineNo
      stepLineText := scenario.heading.value
      message := errMsg
      fileName := w.currentExecutionInfo.specFileName
      errorType := none }
  { w with errMap := w.errMap.setScenarioErrs scenario.ptr [validationError] }

/-- Source: `scenarioExecutor.initScenarioDataStore`. -/
def initScenarioDataStore (r : Runner) (w : World) : ProtoExecutionResult × World :=
  ExecuteAndGetStatus r Message.ScenarioDataStoreInit w

/-- Source: `scenarioExecutor.handleScenarioDataStoreFailure`; `err` is the
text of the Go error. -/
def handleScenarioDataStoreFailure (scenario : Scenario) (err : String) (w : World) : World :=
  let validationError : StepValidationError :=
    { stepLineNo := scenario.heading.lineNo
      stepLineText := scenario.heading.value
      message := err
      fileName := w.currentExecutionInfo.specFileName
      errorType := none }
  setSkipInfoInResult scenario
    { w with errMap := w.errMap.setScenarioErrs scenario.ptr [validationError] }

/-- Modelled from the spec: `executeHook` is not under src.  Spec 4.4: the hook
message is sent "via the Runner contract"; the response is returned. -/
def executeHook (r : Runner) (m : Message) (w : World) : ProtoExecutionResult × World :=
  ExecuteAndGetStatus r m w

/-- Modelled from the spec: `handleHookFailure` with `result.AddPreHook` is not
under src.  Spec 2 and 4.1 step 6: a failed hook "marks the enclosing scope
failed and records hook-failure detail into the result". -/
def handleHookFailurePre (res : ProtoExecutionResult) (w : World) : World :=
  { w with scenarioResult :=
      { w.scenarioResult with
          failed := true
          preHookFailure := w.scenarioResult.preHookFailure ++ [res.errorMessage] } }

/-- Modelled from the spec: `handleHookFailure` with `result.AddPostHook` is not
under src; see `handleHookFailurePre`. -/
def handleHookFailurePost (res : ProtoExecutionResult) (w : World) : World :=
  { w with scenarioResult :=
      { w.scenarioResult with
          failed := true
          postHookFailure := w.scenarioResult.postHookFailure ++ [res.errorMessage] } }

/-- Source: `scenarioExecutor.notifyBeforeScenarioHook`. -/
def notifyBeforeScenarioHook (r : Runner) (w : World) : World :=
  let out := executeHook r Message.ScenarioExecutionStarting w
  if out.1.failed then
    handleHookFailurePre out.1
      { out.2 with currentExecutionInfo := setScenarioFailure out.2.currentExecutionInfo }
  else out.2

/-- Source: `scenarioExecutor.notifyAfterScenarioHook`. -/
def notifyAfterScenarioHook (r : Runner) (w : World) : World :=
  let out := executeHook r Message.ScenarioExecutionEnding w
  if out.1.failed then
    handleHookFailurePost out.1
      { out.2 with currentExecutionInfo := setScenarioFailure out.2.currentExecutionInfo }
  else out.2

/-! ### Step execution and concept results (not under src) -/

/-- Modelled from the spec: `stepExecutor.executeStep` and `result.StepResult`
are not under src.  Spec 4.2: a plain step is delegated "to step execution via
the Runner contract"; the value returned here is the `ProtoStepExecResult()` of
the step result, which wraps the Runner's response. -/
def executeStep (r : Runner) (item : Step) (w : World) : ProtoStepExecutionResult × World :=
  let out := ExecuteAndGetStatus r (Message.ExecuteStep item.ptr item.value) w
  ({ executionResult := some out.1, skipped := false }, out.2)

/-- The getter chain `GetExecutionResult().GetFailed()`; a nil result is not
failed. -/
def ProtoStepExecutionResult.GetFailed (res : ProtoStepExecutionResult) : Bool :=
  match res.executionResult with
  | some e => e.failed
  | none => false

/-- The getter chain `GetExecutionResult().GetRecoverableError()`. -/
def ProtoStepExecutionResult.GetRecoverableError (res : ProtoStepExecutionResult) : Bool :=
  match res.executionResult with
  | some e => e.recoverableError
  | none => false

/-- Modelled from the spec: `ConceptResult.UpdateConceptExecResult` is not under
src.  Spec 4.2: the concept's flags derive "from whichever child stopped it (or
from no failure if all children passed)", and "any child failure marks the
concept result failed".  The child that stopped the walk is the child whose
attached result is a non-recoverable failure; without one, the first failed
child gives the flags; without any failed child the concept passed. -/
def UpdateConceptExecResult (steps : List ProtoItem) : Option ProtoStepExecutionResult :=
  let results := steps.filterMap ProtoItem.executionResult
  match results.find? (fun e => e.failed && !e.recoverableError) with
  | some e => some { executionResult := some e, skipped := false }
  | none =>
    match results.find? (fun e => e.failed) with
    | some e => some { executionResult := some e, skipped := false }
    | none =>
      some { executionResult := some { failed := false, recoverableError := false,
                                       errorMessage := "", message := [] },
             skipped := false }

/-- Modelled from the spec: `ConceptResult.GetFailed` is not under src; it reads
the concept's aggregated failed flag. -/
def ConceptResultGetFailed (cer : Option ProtoStepExecutionResult) : Bool :=
  match cer with
  | some res => res.GetFailed
  | none => false

/-- Modelled from the spec: `ConceptResult.GetRecoverable` is not under src; it
reads the recoverable flag the concept derived from its children. -/
def ConceptResultGetRecoverable (cer : Option ProtoStepExecutionResult) : Bool :=
  match cer with
  | some res => res.GetRecoverableError
  | none => false

/-! ### The recursive walk -/

/-- What `executeItem` leaves behind: the node as mutated, the two returned
flags, the world, and whether the call panicked. -/
structure ItemOutcome where
  protoItem : ProtoItem
  failed : Bool
  recoverable : Bool
  world : World
  panicked : Bool

/-- What `executeConcept` leaves behind: the concept's child nodes as mutated,
its `ConceptExecutionResult`, the final value of `conceptStepIndex`, the world,
and how the loop was left. -/
structure ConceptOutcome where
  steps : List ProtoItem
  conceptExecutionResult : Option ProtoStepExecutionResult
  conceptStepIndex : Nat
  world : World
  exit : Exit

mutual
/-- Source: `scenarioExecutor.executeItem`.  The concept branch is the body of
`executeConcept` (see `executeItem_concept`): publish `ConceptStart`, run the
loop, and publish `ConceptEnd` by the deferred call on every exit. -/
def executeItem (r : Runner) (item : Step) : ProtoItem → World → ItemOutcome
  | .concept steps cer, w =>
    let out := executeConceptLoop r item.conceptSteps 0 [] cer steps
      (w.Notify EventKind.ConceptStart (some item.ptr))
    { protoItem := ProtoItem.concept out.steps out.conceptExecutionResult
      failed := ConceptResultGetFailed out.conceptExecutionResult
      recoverable := ConceptResultGetRecoverable out.conceptExecutionResult
      world := out.world.Notify EventKind.ConceptEnd none
      panicked := decide (out.exit = Exit.panicked) }
  | .step _, w =>
    let res := executeStep r item w
    { protoItem := ProtoItem.step (some res.1)
      failed := res.1.GetFailed
      recoverable := res.1.GetRecoverableError
      world := res.2
      panicked := false }
  | .other k, w =>
    { protoItem := ProtoItem.other k, failed := false, recoverable := false, world := w,
      panicked := false }
/-- Source: the `for` loop of `scenarioExecutor.executeConcept`.  `done` are the
child nodes already walked (as mutated), the list argument the nodes still to
walk, `cer` the concept's current `ConceptExecutionResult`. -/
def executeConceptLoop (r : Runner) (conceptSteps : List Step) (conceptStepIndex : Nat)
    (done : List ProtoItem) (cer : Option ProtoStepExecutionResult) :
    List ProtoItem → World → ConceptOutcome
  | [], w =>
    { steps := done, conceptExecutionResult := UpdateConceptExecResult done,
      conceptStepIndex := conceptStepIndex, world := w, exit := Exit.completed }
  | protoStep :: rest, w =>
    if protoStep.isExecutable then
      match conceptSteps[conceptStepIndex]? with
      | none =>
        { steps := done ++ protoStep :: rest, conceptExecutionResult := cer,
          conceptStepIndex := conceptStepIndex, world := w, exit := Exit.panicked }
      | some step =>
        let out := executeItem r step protoStep w
        if out.panicked then
          { steps := done ++ out.protoItem :: rest, conceptExecutionResult := cer,
            conceptStepIndex := conceptStepIndex, world := out.world, exit := Exit.panicked }
        else if out.failed then
          if out.recoverable then
            executeConceptLoop r conceptSteps (conceptStepIndex + 1) (done ++ [out.protoItem])
              (UpdateConceptExecResult (done ++ out.protoItem :: rest)) rest
              out.world.SetFailure
          else
            { steps := done ++ out.protoItem :: rest
              conceptExecutionResult := UpdateConceptExecResult (done ++ out.protoItem :: rest)
              conceptStepIndex := conceptStepIndex + 1
              world := out.world.SetFailure
              exit := Exit.halted }
        else
          executeConceptLoop r conceptSteps (conceptStepIndex + 1) (done ++ [out.protoItem])
            cer rest out.world
    else
      executeConceptLoop r conceptSteps conceptStepIndex (done ++ [protoStep]) cer rest w
end

/-- Source: `scenarioExecutor.executeConcept`, on the concept node with child
nodes `steps` and current result `cer`. -/
def executeConcept (r : Runner) (item : Step) (steps : List ProtoItem)
    (cer : Option ProtoStepExecutionResult) (w : World) : ConceptOutcome :=
  let out := executeConceptLoop r item.conceptSteps 0 [] cer steps
    (w.Notify EventKind.ConceptStart (some item.ptr))
  { out with world := out.world.Notify EventKind.ConceptEnd none }

/-! ### The manual console -/

/-- The table `space` of Go's package `fmt` (function `isSpace`), which
`fmt.Scanln` uses to delimit a word: U+0009 to U+000D, U+0020, U+0085, U+00A0,
U+1680, U+2000 to U+200A, U+2028, U+2029, U+202F, U+205F and U+3000. -/
def isSpace (r : Char) : Bool :=
  (decide (0x0009 ≤ r.toNat) && decide (r.toNat ≤ 0x000d)) || r.toNat == 0x0020 ||
  r.toNat == 0x0085 || r.toNat == 0x00a0 || r.toNat == 0x1680 ||
  (decide (0x2000 ≤ r.toNat) && decide (r.toNat ≤ 0x200a)) ||
  (decide (0x2028 ≤ r.toNat) && decide (r.toNat ≤ 0x2029)) ||
  r.toNat == 0x202f || r.toNat == 0x205f || r.toNat == 0x3000

/-- The word `fmt.Scanln` reads into a string from a line: leading space is
skipped (`SkipSpace`), then the characters up to the next space are taken
(`token(true, notSpace)`).  It is empty exactly when the line holds no word. -/
def firstField (line : String) : String :=
  String.mk ((line.data.dropWhile isSpace).takeWhile (fun c => !isSpace c))

/-- What `fmt.Scanln` finds on the line behind the word it read, once the space
that follows the word is skipped: nothing when the line ends there. -/
def afterField (line : String) : List Char :=
  ((line.data.dropWhile isSpace).dropWhile (fun c => !isSpace c)).dropWhile isSpace

/-- The call `fmt.Scanln(&input)` on standard input, which is read character by
character.  The elements of `stdin` are the lines still unread, each without
its newline; the first may be the unread rest of a line.  At end of input, or
on a line without a word (the newline is consumed, "unexpected newline"),
`input` keeps its value.  Otherwise `input` becomes the first word; when only
space follows the word the line is consumed, and when a further character
follows, that character is consumed too ("expected newline") and the rest of
the line stays unread. -/
def Scanln (input : String) (w : World) : String × World :=
  match w.stdin with
  | [] => (input, w)
  | line :: rest =>
    (if firstField line = "" then input else firstField line,
      { w with stdin :=
          match afterField line with
          | [] => rest
          | _ :: unread => String.mk unread :: rest })

/-- The line `bufio.ScanLines` hands out: the line without its newline and
without one trailing carriage return. -/
def dropCR (line : String) : String :=
  if line.data.getLast? = some (Char.ofNat 0x0D) then String.mk line.data.dropLast else line

/-- The scanner loop of the manual console: returns `messages` and the lines
left unread.  Every line read is appended to `messages` as read; the loop ends
after a line whose last byte is `0x1D`, or at end of input. -/
def readMessages : List String → List String × List String
  | [] => ([], [])
  | line :: rest =>
    if (dropCR line).data.getLast? = some (Char.ofNat 0x1D) then ([dropCR line], rest)
    else ((readMessages rest).1.cons (dropCR line), (readMessages rest).2)

/-- Source: the console session of the manual branch of
`scenarioExecutor.executeItems` (lines 159-183): the verdict prompt, the halt
prompt and the annotation lines.  Returns the synthesized `executionResult` and
the world after the session. -/
def manualConsole (item : Step) (w : World) : ProtoExecutionResult × World :=
  let verdict := Scanln "F" w
  let failed : Bool := verdict.1 == "F"
  let halt := if failed then Scanln verdict.1 verdict.2 else verdict
  let recoverable : Bool := failed && halt.1 == "Y"
  let read := readMessages halt.2.stdin
  let executionResult : ProtoExecutionResult :=
    { failed := failed, recoverableError := recoverable, errorMessage := "", message := read.1 }
  (executionResult,
    { halt.2 with
        stdin := read.2
        log := halt.2.log ++ [Action.console item.ptr executionResult] })

/-- Source: the manual branch of `scenarioExecutor.executeItems` (lines 159-185):
the console session followed by the assignment
`protoItem.GetStep().StepExecutionResult = ...`, which dereferences nil when the
node is not a step. -/
def executeManually (item : Step) (protoItem : ProtoItem) (w : World) : ItemOutcome :=
  let session := manualConsole item w
  match protoItem with
  | .step _ =>
    { protoItem := ProtoItem.step (some { executionResult := some session.1, skipped := false })
      failed := session.1.failed, recoverable := session.1.recoverableError
      world := session.2, panicked := false }
  | p =>
    { protoItem := p, failed := session.1.failed, recoverable := session.1.recoverableError
      world := session.2, panicked := true }

/-- The test `stepErr, ok := e.errMap.StepErrs[item]; ok && stepErr.IsUnimplementedError()`. -/
def hasUnimplementedError (w : World) (item : Step) : Bool :=
  match w.errMap.stepErrs item.ptr with
  | some stepErr => stepErr.IsUnimplementedError
  | none => false

/-- What `executeItems` leaves behind: the nodes as mutated, the final value of
`itemsIndex`, the world, and how the loop was left. -/
structure ItemsOutcome where
  protoItems : List ProtoItem
  itemsIndex : Nat
  world : World
  exit : Exit

/-- Source: `scenarioExecutor.executeItems`; `itemsIndex` is the loop variable of
that name. -/
def executeItems (env : Env) (r : Runner) (items : List Step) :
    Nat → List ProtoItem → World → ItemsOutcome
  | itemsIndex, [], w =>
    { protoItems := [], itemsIndex := itemsIndex, world := w, exit := Exit.completed }
  | itemsIndex, protoItem :: rest, w =>
    if protoItem.isExecutable then
      if canExecuteManually env then
        match items[itemsIndex]? with
        | none =>
          { protoItems := protoItem :: rest, itemsIndex := itemsIndex, world := w,
            exit := Exit.panicked }
        | some item =>
          let out :=
            if hasUnimplementedError w item then executeManually item protoItem w
            else executeItem r item protoItem w
          if out.panicked then
            { protoItems := out.protoItem :: rest, itemsIndex := itemsIndex,
              world := out.world, exit := Exit.panicked }
          else if out.failed then
            if !out.recoverable then
              { protoItems := out.protoItem :: rest, itemsIndex := itemsIndex + 1,
                world := out.world.SetFailure, exit := Exit.halted }
            else
              let tail := executeItems env r items (itemsIndex + 1) rest out.world.SetFailure
              { tail with protoItems := out.protoItem :: tail.protoItems }
          else
            let tail := executeItems env r items (itemsIndex + 1) rest out.world
            { tail with protoItems := out.protoItem :: tail.protoItems }
      else
        let tail := executeItems env r items itemsIndex rest w
        { tail with protoItems := protoItem :: tail.protoItems }
    else
      let tail := executeItems env r items itemsIndex rest w
      { tail with protoItems := protoItem :: tail.protoItems }

/-- The result tree after the walk: the three item lists of the scenario result
are the three segments of the walked list (the walk mutates the nodes that the
scenario result points to). -/
def World.storeItems (w : World) (protoItems : List ProtoItem) : World :=
  { w with scenarioResult :=
      { w.scenarioResult with
          contexts := protoItems.take w.scenarioResult.contexts.length
          scenarioItems := (protoItems.drop w.scenarioResult.contexts.length).take
            w.scenarioResult.scenarioItems.length
          tearDownSteps := protoItems.drop
            (w.scenarioResult.contexts.length + w.scenarioResult.scenarioItems.length) } }

/-- The validation gate of `execute` (lines 64-73): some validation error
recorded for the scenario is not an "unimplemented step" error. -/
def hasBlockingError (w : World) (scenario : Scenario) : Bool :=
  match w.errMap.scenarioErrs scenario.ptr with
  | some vErrs => vErrs.any (fun vErr => !vErr.IsUnimplementedError)
  | none => false

/-- Source: `scenarioExecutor.execute`.  Returns the world when the call is
left and whether it was left by a panic; the deferred `ScenarioEnd` is published
on every exit after the gate. -/
def execute (env : Env) (r : Runner) (scenario : Scenario) (contexts teardowns : List Step)
    (w : World) : World × Bool :=
  let w1 : World := { w with scenarioResult := { w.scenarioResult with skipped := false } }
  let w2 := if scenario.steps.length = 0 then skipSceForError scenario w1 else w1
  if hasBlockingError w2 scenario then
    (((setSkipInfoInResult scenario w2).Notify EventKind.ScenarioStart (some scenario.ptr)).Notify
      EventKind.ScenarioEnd (some scenario.ptr), false)
  else
    let w3 := w2.Notify EventKind.ScenarioStart (some scenario.ptr)
    let init := initScenarioDataStore r w3
    if init.1.failed then
      ((handleScenarioDataStoreFailure scenario
          ("Failed to initialize scenario datastore. Error: " ++ init.1.errorMessage)
          init.2).Notify EventKind.ScenarioEnd (some scenario.ptr), false)
    else
      let w4 := notifyBeforeScenarioHook r init.2
      if !w4.scenarioResult.failed then
        let out := executeItems env r (contexts ++ (scenario.steps ++ teardowns)) 0
          (w4.scenarioResult.contexts ++
            (w4.scenarioResult.scenarioItems ++ w4.scenarioResult.tearDownSteps)) w4
        let w5 := out.world.storeItems out.protoItems
        if out.exit = Exit.panicked then
          (w5.Notify EventKind.ScenarioEnd (some scenario.ptr), true)
        else
          ((notifyAfterScenarioHook r w5).Notify EventKind.ScenarioEnd (some scenario.ptr), false)
      else
        ((notifyAfterScenarioHook r w4).Notify EventKind.ScenarioEnd (some scenario.ptr), false)

/-! ## Vocabulary of the statements -/

/-- An action that only the walk over the result nodes performs: a concept
event, a step sent to the Runner, or a manual console session. -/
def Action.isItemAction : Action → Bool
  | .event EventKind.ConceptStart _ => true
  | .event EventKind.ConceptEnd _ => true
  | .runnerCall (Message.ExecuteStep _ _) _ => true
  | .console _ _ => true
  | _ => false

/-- A scenario-start or scenario-end event. -/
def Action.isScenarioEvent : Action → Bool
  | .event EventKind.ScenarioStart _ => true
  | .event EventKind.ScenarioEnd _ => true
  | _ => false

/-- A scenario-start event. -/
def Action.isScenarioStart : Action → Bool
  | .event EventKind.ScenarioStart _ => true
  | _ => false

/-- A scenario-end event. -/
def Action.isScenarioEnd : Action → Bool
  | .event EventKind.ScenarioEnd _ => true
  | _ => false

/-- An invocation of the before-scenario hook. -/
def Action.isBeforeHook : Action → Bool
  | .runnerCall Message.ScenarioExecutionStarting _ => true
  | _ => false

/-- An invocation of the after-scenario hook. -/
def Action.isAfterHook : Action → Bool
  | .runnerCall Message.ScenarioExecutionEnding _ => true
  | _ => false

/-- The execution of a step: by the Runner, or by a human at the console. -/
def Action.isStepExecution : Action → Bool
  | .runnerCall (Message.ExecuteStep _ _) _ => true
  | .console _ _ => true
  | _ => false

/-- The visit of a result node by the walk: the execution of a step node, or
the start of a concept node. -/
def Action.isVisit : Action → Bool
  | .event EventKind.ConceptStart _ => true
  | a => a.isStepExecution

/-- The execution of a step that failed non-recoverably. -/
def Action.isFatalStep : Action → Bool
  | .runnerCall (Message.ExecuteStep _ _) res => res.failed && !res.recoverableError
  | .console _ res => res.failed && !res.recoverableError
  | _ => false

mutual
/-- The result slots of a node in document order: a step node has its
`StepExecutionResult`; a concept node has its `ConceptExecutionResult` followed
by the slots of its child nodes; any other node has none. -/
def ProtoItem.resultSlots : ProtoItem → List (Option ProtoStepExecutionResult)
  | .step res => [res]
  | .concept steps cer => cer :: resultSlotsList steps
  | .other _ => []
/-- The result slots of a list of nodes, in document order. -/
def resultSlotsList : List ProtoItem → List (Option ProtoStepExecutionResult)
  | [] => []
  | p :: ps => p.resultSlots ++ resultSlotsList ps
end

/-- In the trace `d`, nothing that follows a non-recoverably failed step
execution is the visit of a result node. -/
def stopsAtFatal : List Action → Bool
  | [] => true
  | a :: rest => (!a.isFatalStep || rest.all (fun b => !b.isVisit)) && stopsAtFatal rest

/-- The three item lists of the scenario result, flattened as `execute` walks
them. -/
def ScenarioResult.allItems (s : ScenarioResult) : List ProtoItem :=
  s.contexts ++ (s.scenarioItems ++ s.tearDownSteps)

/-- The trace `d` of a walk over nodes whose result slots were `before` and are
now `after`: the walk keeps the number of slots, visits at most that many
nodes, and leaves every slot beyond the visited ones as it was. -/
def SlotsTrace (d : List Action) (before after : List (Option ProtoStepExecutionResult)) : Prop :=
  after.length = before.length ∧ d.countP Action.isVisit ≤ before.length ∧
  after.drop (d.countP Action.isVisit) = before.drop (d.countP Action.isVisit)

/-- The contract of `executeItem` on node `p` from world `w`, in terms of its
trace. -/
def ItemTrace (p : ProtoItem) (w : World) (o : ItemOutcome) : Prop :=
  ∃ d, o.world.log = w.log ++ d ∧ stopsAtFatal d = true ∧
    (d.any Action.isFatalStep = true →
      o.panicked = false ∧ o.failed = true ∧ o.recoverable = false) ∧
    SlotsTrace d p.resultSlots o.protoItem.resultSlots ∧
    (o.panicked = false → ¬(o.failed = true ∧ o.recoverable = false) →
      d.countP Action.isVisit = p.resultSlots.length)

/-- The contract of the loop of `executeConcept` on the nodes `rest`, in terms
of its trace. -/
def LoopTrace (done rest : List ProtoItem) (w : World) (o : ConceptOutcome) : Prop :=
  ∃ d rest', o.world.log = w.log ++ d ∧ o.steps = done ++ rest' ∧ stopsAtFatal d = true ∧
    (d.any Action.isFatalStep = true → o.exit = Exit.halted) ∧
    (o.exit = Exit.halted →
      ConceptResultGetFailed o.conceptExecutionResult = true ∧
      ConceptResultGetRecoverable o.conceptExecutionResult = false) ∧
    SlotsTrace d (resultSlotsList rest) (resultSlotsList rest') ∧
    (o.exit = Exit.completed → d.countP Action.isVisit = (resultSlotsList rest).length)

/-- The contract of one dispatch of `executeItems` (manual console or
`executeItem`) on node `p` from world `w`, in terms of its trace. -/
def DispatchTrace (p : ProtoItem) (w : World) (o : ItemOutcome) : Prop :=
  ∃ d, o.world.log = w.log ++ d ∧ stopsAtFatal d = true ∧
    (d.any Action.isFatalStep = true →
      o.panicked = true ∨ (o.failed = true ∧ o.recoverable = false)) ∧
    SlotsTrace d p.resultSlots o.protoItem.resultSlots ∧
    (o.panicked = false → ¬(o.failed = true ∧ o.recoverable = false) →
      d.countP Action.isVisit = p.resultSlots.length)

/-- The contract of `executeItems` on the nodes `ps` from world `w`, in terms of
its trace. -/
def ItemsTrace (ps : List ProtoItem) (w : World) (o : ItemsOutcome) : Prop :=
  ∃ d, o.world.log = w.log ++ d ∧ stopsAtFatal d = true ∧
    (d.any Action.isFatalStep = true → o.exit ≠ Exit.completed) ∧
    SlotsTrace d (resultSlotsList ps) (resultSlotsList o.protoItems)

/-- What the walk over the result nodes may do to the world: append item
actions to the trace, consume console input, and set the failed flag of the
scenario result.  Everything else is left as it was. -/
def Walked (w w' : World) : Prop :=
  (∃ d, w'.log = w.log ++ d ∧ ∀ a ∈ d, Action.isItemAction a = true) ∧
  w'.errMap = w.errMap ∧
  w'.currentExecutionInfo = w.currentExecutionInfo ∧
  w'.scenarioResult.skipped = w.scenarioResult.skipped ∧
  w'.scenarioResult.skipErrors = w.scenarioResult.skipErrors ∧
  w'.scenarioResult.contexts = w.scenarioResult.contexts ∧
  w'.scenarioResult.scenarioItems = w.scenarioResult.scenarioItems ∧
  w'.scenarioResult.tearDownSteps = w.scenarioResult.tearDownSteps ∧
  w'.scenarioResult.preHookFailure = w.scenarioResult.preHookFailure ∧
  w'.scenarioResult.postHookFailure = w.scenarioResult.postHookFailure ∧
  (w.scenarioResult.failed = true → w'.scenarioResult.failed = true)

/-- The scenario passes the gate of `execute` (lines 61-73): it has a body
step and none of its recorded validation errors is other than "unimplemented
step". -/
def passesGate (w : World) (scenario : Scenario) : Prop :=
  scenario.steps ≠ [] ∧ hasBlockingError w scenario = false

/-- The Runner's response to the data-store-init message of a call of
`execute` that starts in `w` and passes the gate. -/
def initResponse (r : Runner) (scenario : Scenario) (w : World) : ProtoExecutionResult :=
  r (w.log ++ [Action.event EventKind.ScenarioStart (some scenario.ptr)])
    Message.ScenarioDataStoreInit

/-- The Runner's response to the before-scenario hook of a call of `execute`
that starts in `w` and passes the gate and the data-store init. -/
def beforeHookResponse (r : Runner) (scenario : Scenario) (w : World) : ProtoExecutionResult :=
  r (w.log ++ [Action.event EventKind.ScenarioStart (some scenario.ptr),
      Action.runnerCall Message.ScenarioDataStoreInit (initResponse r scenario w)])
    Message.ScenarioExecutionStarting

/-- The world in which `execute` reaches its validation gate (line 64): the
skipped flag is cleared, and a scenario without body steps has had its error
list replaced by the synthesized "No steps found" error. -/
def gateWorld (scenario : Scenario) (w : World) : World :=
  if scenario.steps.length = 0 then
    skipSceForError scenario
      { w with scenarioResult := { w.scenarioResult with skipped := false } }
  else { w with scenarioResult := { w.scenarioResult with skipped := false } }

/-- Lines 84-93 of `execute`: what follows the before-scenario hook, from the
world `w4` the hook left. -/
def executeAfterBeforeHook (env : Env) (r : Runner) (scenario : Scenario)
    (contexts teardowns : List Step) (w4 : World) : World × Bool :=
  if !w4.scenarioResult.failed then
    let out := executeItems env r (contexts ++ (scenario.steps ++ teardowns)) 0
      (w4.scenarioResult.contexts ++
        (w4.scenarioResult.scenarioItems ++ w4.scenarioResult.tearDownSteps)) w4
    let w5 := out.world.storeItems out.protoItems
    if out.exit = Exit.panicked then
      (w5.Notify EventKind.ScenarioEnd (some scenario.ptr), true)
    else
      ((notifyAfterScenarioHook r w5).Notify EventKind.ScenarioEnd (some scenario.ptr), false)
  else
    ((notifyAfterScenarioHook r w4).Notify EventKind.ScenarioEnd (some scenario.ptr), false)

/-! ## Concrete inputs -/

/-- A plain step `A` at address 1. -/
def exStepA : Step := Step.mk 1 3 "* step A" "step A" []

/-- A plain step `B` at address 2. -/
def exStepB : Step := Step.mk 2 4 "* step B" "step B" []

/-- A plain step `D` at address 3. -/
def exStepD : Step := Step.mk 3 5 "* step D" "step D" []

/-- A concept invocation at address 5 whose children are `A` and `B`. -/
def exConceptAB : Step := Step.mk 5 6 "* concept AB" "concept AB" [exStepA, exStepB]

/-- A concept invocation at address 6 whose children are `B`, `A` and `D`. -/
def exConceptBAD : Step := Step.mk 6 8 "* concept BAD" "concept BAD" [exStepB, exStepA, exStepD]

/-- A scenario at address 10 with body `[A, B]`. -/
def exScenario : Scenario :=
  { ptr := 10, heading := { lineNo := 2, value := "scenario" }, steps := [exStepA, exStepB] }

/-- A scenario at address 11 without body steps. -/
def exScenarioEmpty : Scenario :=
  { ptr := 11, heading := { lineNo := 7, value := "empty" }, steps := [] }

/-- A scenario at address 12 with body `[concept AB, D]`. -/
def exScenarioNested : Scenario :=
  { ptr := 12, heading := { lineNo := 9, value := "nested" }, steps := [exConceptAB, exStepD] }

/-- A run eligible for manual override. -/
def exEnvManual : Env :=
  { manualExecutionEnabled := "TRUE", inParallel := false, stdoutIsTerminal := true }

/-- An ordinary run: manual execution is not enabled. -/
def exEnvPlain : Env :=
  { manualExecutionEnabled := "", inParallel := false, stdoutIsTerminal := false }

/-- A passing response. -/
def exPassed : ProtoExecutionResult :=
  { failed := false, recoverableError := false, errorMessage := "", message := [] }

/-- A failed response with a recoverable error. -/
def exRecoverable : ProtoExecutionResult :=
  { failed := true, recoverableError := true, errorMessage := "A failed", message := [] }

/-- A failed response with a non-recoverable error. -/
def exFatal : ProtoExecutionResult :=
  { failed := true, recoverableError := false, errorMessage := "A failed", message := [] }

/-- A failed response with the message "disk full". -/
def exDiskFull : ProtoExecutionResult :=
  { failed := true, recoverableError := false, errorMessage := "disk full", message := [] }

/-- A Runner for which step `A` fails recoverably and everything else passes. -/
def exRunnerRecoverable : Runner := fun _ m =>
  match m with
  | Message.ExecuteStep 1 _ => exRecoverable
  | _ => exPassed

/-- A Runner for which step `A` fails non-recoverably and everything else
passes. -/
def exRunnerFatal : Runner := fun _ m =>
  match m with
  | Message.ExecuteStep 1 _ => exFatal
  | _ => exPassed

/-- A Runner whose scenario-data-store init fails with "disk full". -/
def exRunnerDiskFull : Runner := fun _ m =>
  match m with
  | Message.ScenarioDataStoreInit => exDiskFull
  | _ => exPassed

/-- A Runner whose before-scenario hook fails. -/
def exRunnerHookFails : Runner := fun _ m =>
  match m with
  | Message.ScenarioExecutionStarting => exFatal
  | _ => exPassed

/-- A fresh world: empty trace, no validation errors, and a result tree of two
step nodes without results. -/
def exWorld : World :=
  { log := []
    errMap := { scenarioErrs := fun _ => none, stepErrs := fun _ => none }
    currentExecutionInfo :=
      { specFileName := "a.spec", specIsFailed := false, scenarioIsFailed := false }
    scenarioResult :=
      { skipped := false, skipErrors := [], failed := false, contexts := [],
        scenarioItems := [ProtoItem.step none, ProtoItem.step none], tearDownSteps := [],
        preHookFailure := [], postHookFailure := [] }
    stdin := [] }

/-- A fresh world whose result tree is a concept node with two step children,
followed by a step node. -/
def exWorldNested : World :=
  { exWorld with
      scenarioResult :=
        { exWorld.scenarioResult with
            scenarioItems :=
              [ProtoItem.concept [ProtoItem.step none, ProtoItem.step none] none,
               ProtoItem.step none] } }

/-- A validation error that is not an "unimplemented step" error. -/
def exDuplicate : StepValidationError :=
  { stepLineNo := 3, stepLineText := "* step A", message := "Duplicate step implementation",
    fileName := "a.spec", errorType := some ErrorType.DUPLICATE_STEP_IMPLEMENTATION }

/-- An "unimplemented step" validation error. -/
def exUnimplemented : StepValidationError :=
  { stepLineNo := 4, stepLineText := "* step B", message := "Step implementation not found",
    fileName := "a.spec", errorType := some ErrorType.STEP_IMPLEMENTATION_NOT_FOUND }

/-- The fresh world with `errs` recorded for the scenarios at addresses 10 and
11. -/
def exWorldErrs (errs : List StepValidationError) : World :=
  { exWorld with
      errMap := { scenarioErrs := fun k => if k = 10 ∨ k = 11 then some errs else none,
                  stepErrs := fun _ => none } }

/-- The fresh world of a manual run: step `A` (address 1) has an "unimplemented
step" validation error, and the human will type `F`, `Y`, and the one
annotation line `done` closed by the terminator byte. -/
def exWorldManual : World :=
  { exWorld with
      errMap := { scenarioErrs := fun _ => none,
                  stepErrs := fun k => if k = 1 then some exUnimplemented else none }
      stdin := ["F", "Y", "done\x1d"] }

/-- The world of `exWorldManual` with the result tree of `exWorldNested`. -/
def exWorldManualNested : World :=
  { exWorldManual with scenarioResult := exWorldNested.scenarioResult }

/-- A second step object, at address 7, with the identity text of `A`. -/
def exStepATwin : Step := Step.mk 7 11 "* step A" "step A" []

/-- The nesting depth of concepts after the trace `d`, starting at depth `n`:
a concept-start opens a level, a concept-end closes one, and `none` means that
a concept-end came with no concept open. -/
def conceptDepth : List Action → Nat → Option Nat
  | [], n => some n
  | Action.event EventKind.ConceptStart _ :: rest, n => conceptDepth rest (n + 1)
  | Action.event EventKind.ConceptEnd _ :: _, 0 => none
  | Action.event EventKind.ConceptEnd _ :: rest, n + 1 => conceptDepth rest n
  | _ :: rest, n => conceptDepth rest n

/-- The concept events of the trace `d` are well nested: every concept-end
closes the concept-start opened last, and none is left open. -/
def Balanced (d : List Action) : Prop :=
  ∀ n, conceptDepth d n = some n

/-- A concept-start event. -/
def Action.isConceptStart : Action → Bool
  | .event EventKind.ConceptStart _ => true
  | _ => false

/-- A concept-end event. -/
def Action.isConceptEnd : Action → Bool
  | .event EventKind.ConceptEnd _ => true
  | _ => false

/-- The execution of a step that reported a failure, recoverable or not. -/
def Action.isFailedStep : Action → Bool
  | .runnerCall (Message.ExecuteStep _ _) res => res.failed
  | .console _ res => res.failed
  | _ => false

/-- The contract of a walk from world `w` to world `w'` that is left with
`stop`, for nesting and failure marking: its trace is well nested, the failed
flag of the scenario result is never cleared, and after a failed step either
the flag is set or `stop` holds. -/
def WalkInv (w w' : World) (stop : Prop) : Prop :=
  ∃ d, w'.log = w.log ++ d ∧ Balanced d ∧
    (w.scenarioResult.failed = true → w'.scenarioResult.failed = true) ∧
    (d.any Action.isFailedStep = true → stop ∨ w'.scenarioResult.failed = true)

/-- The world of `exWorld` with a result tree of three step nodes, one more than
the scenario `[A, B]` has Steps. -/
def exWorldThreeNodes : World :=
  { exWorld with
      scenarioResult := { exWorld.scenarioResult with
        scenarioItems := [ProtoItem.step none, ProtoItem.step none, ProtoItem.step none] } }

/-! ### The pairing of nodes and Steps -/

/-- The number of executable nodes (kind step or concept) in a list of result
nodes. -/
def execCount (nodes : List ProtoItem) : Nat :=
  (nodes.filter ProtoItem.isExecutable).length

/-- Source: the dispatch of one executable node by `executeItems` (lines
158-188): the manual console when the Step has an "unimplemented step" error,
`executeItem` otherwise. -/
def dispatchItem (r : Runner) (item : Step) (protoItem : ProtoItem) (w : World) : ItemOutcome :=
  if hasUnimplementedError w item then executeManually item protoItem w
  else executeItem r item protoItem w

/-! ## The step-frequency graph (`graph.go`)

The forest is a Go slice of `node` values whose children are slices again, and
`start` mutates it in place.  Here a forest is a list and every in-place write
is a functional update of the element written to. -/

/-- The Go type `node` of `graph.go`: a node of the step-frequency forest. -/
inductive node where
  | mk (stepText : String) (parsedStepText : String) (nodes : List node) (duplicates : Int)

/-- Field `stepText`. -/
def node.stepText : node → String
  | .mk t _ _ _ => t

/-- Field `parsedStepText`, the key of the node among its siblings. -/
def node.parsedStepText : node → String
  | .mk _ k _ _ => k

/-- Field `nodes`, the children. -/
def node.nodes : node → List node
  | .mk _ _ ch _ => ch

/-- Field `duplicates`. -/
def node.duplicates : node → Int
  | .mk _ _ _ d => d

/-- The largest value of Go's `int`, which is 64 bits wide on the platforms Gauge
is built for. -/
def maxInt : Int := 9223372036854775807

/-- The smallest value of Go's `int`. -/
def minInt : Int := -9223372036854775808

/-- Go's `x++` on an `int`: the sum wraps around in two's complement. -/
def incrInt (x : Int) : Int :=
  (x + 1 + 9223372036854775808) % 18446744073709551616 - 9223372036854775808

/-- The statement `n.duplicates++` on a node. -/
def node.incDuplicates (n : node) : node :=
  node.mk n.stepText n.parsedStepText n.nodes (incrInt n.duplicates)

/-- The assignment `n.nodes = children` on a node. -/
def node.setNodes (n : node) (children : List node) : node :=
  node.mk n.stepText n.parsedStepText children n.duplicates

/-- The loop of `indexOf` from position `i` on. -/
def indexOfFrom (i : Nat) : List node → String → Int
  | [], _ => -1
  | n :: rest, text => if n.parsedStepText = text then (i : Int) else indexOfFrom (i + 1) rest text

/-- Source: `indexOf` of `graph.go`: the position of the first node with the
given key, or `-1`. -/
def indexOf (nodes : List node) (text : String) : Int :=
  indexOfFrom 0 nodes text

/-- Source: the body of `createGraphFor`, where `rest` are the Steps
`steps[stepsIndex:]`: the guard `stepsIndex >= len(steps)` is `rest = []`, and the
test `stepsIndex < len(steps) - 1` is that a further Step follows the current
one.  The slices are mutated in place in Go: the children written by the
recursive call are the children of `nodes[nodeIndex]` afterwards, although the
value the call returns is dropped.  `none` is the panic of an index out of
range. -/
def createGraphForRest : List Step → Nat → List node → Option (List node)
  | [], _, nodes => some nodes
  | step :: rest, nodeIndex, nodes =>
    match nodes[nodeIndex]? with
    | none => none
    | some parent =>
      let nIndex := indexOf parent.nodes step.value
      if nIndex < 0 then
        let children := parent.nodes ++ [node.mk step.lineText step.value [] 1]
        match rest with
        | [] => some (nodes.set nodeIndex (parent.setNodes children))
        | _ :: _ =>
          match createGraphForRest rest (children.length - 1) children with
          | none => none
          | some children1 => some (nodes.set nodeIndex (parent.setNodes children1))
      else
        match parent.nodes[nIndex.toNat]? with
        | none => none
        | some child =>
          let children := parent.nodes.set nIndex.toNat child.incDuplicates
          match rest with
          | [] => some (nodes.set nodeIndex (parent.setNodes children))
          | _ :: _ =>
            match createGraphForRest rest nIndex.toNat children with
            | none => none
            | some children1 => some (nodes.set nodeIndex (parent.setNodes children1))

/-- Source: `createGraphFor` of `graph.go`. -/
def createGraphFor (stepsIndex : Nat) (steps : List Step) (nodeIndex : Nat)
    (nodes : List node) : Option (List node) :=
  createGraphForRest (steps.drop stepsIndex) nodeIndex nodes

/-- Source: `start` of `graph.go`; `none` is the panic of an index out of range
(`steps[0]` on an empty list). -/
def start (nodes : List node) (steps : List Step) : Option (List node) :=
  match steps with
  | [] => none
  | step0 :: _ =>
    let index := indexOf nodes step0.value
    if index < 0 then
      let nodes1 := nodes ++ [node.mk step0.lineText step0.value [] 1]
      createGraphFor 1 steps (nodes1.length - 1) nodes1
    else
      match nodes[index.toNat]? with
      | none => none
      | some n => createGraphFor 1 steps index.toNat (nodes.set index.toNat n.incDuplicates)

/-- The first node of a sibling list with the given key. -/
def findNode : List node → String → Option node
  | [], _ => none
  | n :: rest, key => if n.parsedStepText = key then some n else findNode rest key

/-- The node a key path leads to: the first key selects a top-level node, each
further key a child of the node reached. -/
def nodeAt : List node → List String → Option node
  | _, [] => none
  | nodes, key :: keys =>
    match findNode nodes key with
    | none => none
    | some n =>
      match keys with
      | [] => some n
      | _ :: _ => nodeAt n.nodes keys

mutual
/-- Sibling keys are pairwise distinct at every level below a node. -/
def node.distinctKeys : node → Prop
  | .mk _ _ ch _ => distinctKeysList ch
/-- Sibling keys are pairwise distinct at every level of a forest. -/
def distinctKeysList : List node → Prop
  | [] => True
  | n :: rest =>
    (∀ m ∈ rest, m.parsedStepText ≠ n.parsedStepText) ∧ n.distinctKeys ∧ distinctKeysList rest
end

/-- Replace the first node with key `key` by `f` of it, or append `f none` when
there is none. -/
def upsert (f : Option node → node) (key : String) : List node → List node
  | [] => [f none]
  | n :: rest => if n.parsedStepText = key then f (some n) :: rest else n :: upsert f key rest

/-- The insertion of the path of a Step list into a forest, as a function of
the forest: the node with the first Step's key is counted once more, or created
with count one, and the remaining Steps are inserted below it. -/
def insertPath : List node → List Step → List node
  | nodes, [] => nodes
  | nodes, step :: rest =>
    upsert (fun o =>
      match o with
      | none => node.mk step.lineText step.value (insertPath [] rest) 1
      | some n => node.mk n.stepText n.parsedStepText (insertPath n.nodes rest)
          (incrInt n.duplicates)) step.value nodes

/-! ### Concrete forests -/

/-- A forest with the paths `A` (three times), `A, B` (twice) and `D` (once). -/
def exForest : List node :=
  [node.mk "* step A" "step A" [node.mk "* step B" "step B" [] 2] 3,
   node.mk "* step D" "step D" [] 1]

/-- A forest of one node whose count is the largest `int`. -/
def exForestFull : List node :=
  [node.mk "* step A" "step A" [] maxInt]

/-! ## Theorems -/

/-! ### What the walk leaves untouched -/

theorem Walked_refl (w : World) : Walked w w :=
  ⟨⟨[], by simp, by simp⟩, rfl, rfl, rfl, rfl, rfl, rfl, rfl, rfl, rfl, id⟩

theorem Walked_trans {a b c : World} (h1 : Walked a b) (h2 : Walked b c) : Walked a c := by
  obtain ⟨⟨d1, hl1, hd1⟩, e1, i1, s1, k1, c1, t1, u1, p1, q1, f1⟩ := h1
  obtain ⟨⟨d2, hl2, hd2⟩, e2, i2, s2, k2, c2, t2, u2, p2, q2, f2⟩ := h2
  refine ⟨⟨d1 ++ d2, by rw [hl2, hl1, List.append_assoc], ?_⟩, e2.trans e1, i2.trans i1,
    s2.trans s1, k2.trans k1, c2.trans c1, t2.trans t1, u2.trans u1, p2.trans p1, q2.trans q1,
    fun h => f2 (f1 h)⟩
  intro a ha
  rcases List.mem_append.mp ha with h | h
  · exact hd1 a h
  · exact hd2 a h

theorem Walked_append {w w' : World} (d : List Action) (hd : ∀ a ∈ d, Action.isItemAction a = true)
    (hlog : w'.log = w.log ++ d) (he : w'.errMap = w.errMap)
    (hi : w'.currentExecutionInfo = w.currentExecutionInfo)
    (hs : w'.scenarioResult = w.scenarioResult) : Walked w w' :=
  ⟨⟨d, hlog, hd⟩, he, hi, by rw [hs], by rw [hs], by rw [hs], by rw [hs], by rw [hs], by rw [hs],
    by rw [hs], by rw [hs]; exact id⟩

theorem Walked_conceptStart (w : World) (p : Option Nat) :
    Walked w (w.Notify EventKind.ConceptStart p) :=
  Walked_append [Action.event EventKind.ConceptStart p] (by simp [Action.isItemAction]) rfl rfl rfl rfl

theorem Walked_conceptEnd (w : World) (p : Option Nat) :
    Walked w (w.Notify EventKind.ConceptEnd p) :=
  Walked_append [Action.event EventKind.ConceptEnd p] (by simp [Action.isItemAction]) rfl rfl rfl rfl

theorem Walked_executeStep (r : Runner) (item : Step) (w : World) :
    Walked w (executeStep r item w).2 :=
  Walked_append [Action.runnerCall (Message.ExecuteStep item.ptr item.value)
      (r w.log (Message.ExecuteStep item.ptr item.value))]
    (by simp [Action.isItemAction]) rfl rfl rfl rfl

theorem Walked_setFailure (w : World) : Walked w w.SetFailure :=
  ⟨⟨[], by simp [World.SetFailure], by simp⟩, rfl, rfl, rfl, rfl, rfl, rfl, rfl, rfl, rfl,
    fun _ => rfl⟩

theorem executeItem_walked (r : Runner) (item : Step) (p : ProtoItem) (w : World) :
    Walked w (executeItem r item p w).world := by
  refine @executeItem.induct r (fun item p w => Walked w (executeItem r item p w).world)
    (fun cs idx done cer rest w => Walked w (executeConceptLoop r cs idx done cer rest w).world)
    ?_ ?_ ?_ ?_ ?_ ?_ ?_ ?_ ?_ ?_ item p w
  · intro item steps cer w ih
    simp only [executeItem]
    exact Walked_trans (Walked_trans (Walked_conceptStart w _) ih) (Walked_conceptEnd _ _)
  · intro item res w
    simp only [executeItem]
    exact Walked_executeStep r item w
  · intro item k w
    simp only [executeItem]
    exact Walked_refl w
  · intro cs idx done cer w
    simp only [executeConceptLoop]
    exact Walked_refl w
  · intro cs idx done cer p rest w hx hnone
    simp only [executeConceptLoop, hx, hnone, if_true]
    exact Walked_refl w
  · intro cs idx done cer p rest w hx step hsome out hp ih
    simp only [executeConceptLoop, hx, hsome, if_true]
    simp only [out] at hp
    simp only [hp, if_true]
    exact ih
  · intro cs idx done cer p rest w hx step hsome out hp hf hr ih1 ih2
    simp only [executeConceptLoop, hx, hsome, if_true]
    simp only [out] at hp hf hr ih2
    simp only [hp, hf, hr, if_true, if_false]
    exact Walked_trans (Walked_trans ih1 (Walked_setFailure _)) ih2
  · intro cs idx done cer p rest w hx step hsome out hp hf hr ih1
    simp only [executeConceptLoop, hx, hsome, if_true]
    simp only [out] at hp hf hr
    simp only [hp, hf, hr, if_true, if_false]
    exact Walked_trans ih1 (Walked_setFailure _)
  · intro cs idx done cer p rest w hx step hsome out hp hf ih1 ih2
    simp only [executeConceptLoop, hx, hsome, if_true]
    simp only [out] at hp hf ih2
    simp only [hp, hf, if_true, if_false]
    exact Walked_trans ih1 ih2
  · intro cs idx done cer p rest w hx ih
    simp only [executeConceptLoop, hx, if_false]
    exact ih

theorem Scanln_frame (s : String) (w : World) :
    (Scanln s w).2.log = w.log ∧ (Scanln s w).2.errMap = w.errMap ∧
    (Scanln s w).2.currentExecutionInfo = w.currentExecutionInfo ∧
    (Scanln s w).2.scenarioResult = w.scenarioResult := by
  unfold Scanln
  cases w.stdin <;> simp

theorem manualConsole_frame (item : Step) (w : World) :
    (manualConsole item w).2.log = w.log ++ [Action.console item.ptr (manualConsole item w).1] ∧
    (manualConsole item w).2.errMap = w.errMap ∧
    (manualConsole item w).2.currentExecutionInfo = w.currentExecutionInfo ∧
    (manualConsole item w).2.scenarioResult = w.scenarioResult := by
  obtain ⟨a1, a2, a3, a4⟩ := Scanln_frame "F" w
  obtain ⟨b1, b2, b3, b4⟩ := Scanln_frame (Scanln "F" w).1 (Scanln "F" w).2
  by_cases h : (Scanln "F" w).1 = "F"
  · simp [manualConsole, h, a1, a2, a3, a4, b1, b2, b3, b4] at *
    simp [a1, a2, a3, a4, b1, b2, b3, b4]
  · simp [manualConsole, h, a1, a2, a3, a4]

theorem executeManually_world (item : Step) (p : ProtoItem) (w : World) :
    (executeManually item p w).world = (manualConsole item w).2 := by
  cases p <;> rfl

theorem Walked_executeManually (item : Step) (p : ProtoItem) (w : World) :
    Walked w (executeManually item p w).world := by
  rw [executeManually_world]
  obtain ⟨a1, a2, a3, a4⟩ := manualConsole_frame item w
  exact Walked_append [_] (by simp [Action.isItemAction]) a1 a2 a3 a4

theorem executeItems_walked (env : Env) (r : Runner) (items : List Step) (idx : Nat)
    (ps : List ProtoItem) (w : World) : Walked w (executeItems env r items idx ps w).world := by
  have hd : ∀ (item : Step) (p : ProtoItem) (w : World), Walked w
      (if hasUnimplementedError w item = true then executeManually item p w
        else executeItem r item p w).world := by
    intro item p w
    split
    · exact Walked_executeManually item p w
    · exact executeItem_walked r item p w
  refine @executeItems.induct env r items
    (fun idx ps w => Walked w (executeItems env r items idx ps w).world)
    ?_ ?_ ?_ ?_ ?_ ?_ ?_ ?_ idx ps w
  · intro idx w
    simp only [executeItems]
    exact Walked_refl w
  · intro idx p rest w hx hm hnone
    simp only [executeItems, hx, hm, hnone, if_true]
    exact Walked_refl w
  · intro idx p rest w hx hm step hsome out hp
    simp only [executeItems, hx, hm, hsome, if_true]
    simp only [out] at hp
    simp only [hp, if_true]
    exact hd step p w
  · intro idx p rest w hx hm step hsome out hp hf hr
    simp only [executeItems, hx, hm, hsome, if_true]
    simp only [out] at hp hf hr
    simp only [hp, hf, hr, if_true, if_false]
    exact Walked_trans (hd step p w) (Walked_setFailure _)
  · intro idx p rest w hx hm step hsome out hp hf hr ih
    simp only [executeItems, hx, hm, hsome, if_true]
    simp only [out] at hp hf hr ih
    simp only [hp, hf, hr, if_true, if_false]
    exact Walked_trans (Walked_trans (hd step p w) (Walked_setFailure _)) ih
  · intro idx p rest w hx hm step hsome out hp hf ih
    simp only [executeItems, hx, hm, hsome, if_true]
    simp only [out] at hp hf ih
    simp only [hp, hf, if_true, if_false]
    exact Walked_trans (hd step p w) ih
  · intro idx p rest w hx hm ih
    simp only [executeItems, hx, hm, if_true, if_false]
    exact ih
  · intro idx p rest w hx ih
    simp only [executeItems, hx, if_false]
    exact ih

/-! ### The scenario executor, path by path -/

theorem execute_eq (env : Env) (r : Runner) (scenario : Scenario)
    (contexts teardowns : List Step) (w : World) :
    execute env r scenario contexts teardowns w =
      if hasBlockingError (gateWorld scenario w) scenario then
        (((setSkipInfoInResult scenario (gateWorld scenario w)).Notify EventKind.ScenarioStart
          (some scenario.ptr)).Notify EventKind.ScenarioEnd (some scenario.ptr), false)
      else if (initScenarioDataStore r ((gateWorld scenario w).Notify EventKind.ScenarioStart
          (some scenario.ptr))).1.failed then
        ((handleScenarioDataStoreFailure scenario
          ("Failed to initialize scenario datastore. Error: " ++
            (initScenarioDataStore r ((gateWorld scenario w).Notify EventKind.ScenarioStart
              (some scenario.ptr))).1.errorMessage)
          (initScenarioDataStore r ((gateWorld scenario w).Notify EventKind.ScenarioStart
              (some scenario.ptr))).2).Notify EventKind.ScenarioEnd (some scenario.ptr), false)
      else
        executeAfterBeforeHook env r scenario contexts teardowns
          (notifyBeforeScenarioHook r (initScenarioDataStore r
            ((gateWorld scenario w).Notify EventKind.ScenarioStart (some scenario.ptr))).2) := by
  rfl

theorem gateWorld_of_nil (scenario : Scenario) (w : World) (h : scenario.steps = []) :
    gateWorld scenario w = skipSceForError scenario
      { w with scenarioResult := { w.scenarioResult with skipped := false } } := by
  simp [gateWorld, h]

theorem gateWorld_of_ne_nil (scenario : Scenario) (w : World) (h : scenario.steps ≠ []) :
    gateWorld scenario w =
      { w with scenarioResult := { w.scenarioResult with skipped := false } } := by
  simp [gateWorld, h]

theorem hasBlockingError_skipSceForError (scenario : Scenario) (w : World) :
    hasBlockingError (skipSceForError scenario w) scenario = true := by
  simp [hasBlockingError, skipSceForError, ValidationErrMaps.setScenarioErrs,
    StepValidationError.IsUnimplementedError]

theorem hasBlockingError_congr (w w' : World) (scenario : Scenario)
    (h : w'.errMap = w.errMap) : hasBlockingError w' scenario = hasBlockingError w scenario := by
  simp [hasBlockingError, h]

theorem hasBlockingError_of_mem (w : World) (scenario : Scenario)
    (errs : List StepValidationError) (herrs : w.errMap.scenarioErrs scenario.ptr = some errs)
    (e : StepValidationError) (he : e ∈ errs) (hb : e.IsUnimplementedError = false) :
    hasBlockingError w scenario = true := by
  simp only [hasBlockingError, herrs, List.any_eq_true]
  exact ⟨e, he, by simp [hb]⟩

/-- Claim C5: for every scenario with zero body steps, whatever the contexts,
teardowns and validation errors already recorded, `execute` marks the result
skipped, leaves the failed flags of the result and of the execution info as they
were, and its whole trace is the scenario-start and the scenario-end event: no
before-hook, no after-hook, no step. -/
theorem execute_zero_steps (env : Env) (r : Runner) (scenario : Scenario)
    (contexts teardowns : List Step) (w : World) (h : scenario.steps = []) :
    (execute env r scenario contexts teardowns w).1.scenarioResult.skipped = true ∧
    (execute env r scenario contexts teardowns w).1.scenarioResult.failed
      = w.scenarioResult.failed ∧
    (execute env r scenario contexts teardowns w).1.currentExecutionInfo
      = w.currentExecutionInfo ∧
    (execute env r scenario contexts teardowns w).1.log
      = w.log ++ [Action.event EventKind.ScenarioStart (some scenario.ptr),
                  Action.event EventKind.ScenarioEnd (some scenario.ptr)] ∧
    (execute env r scenario contexts teardowns w).2 = false := by
  rw [execute_eq, gateWorld_of_nil scenario w h, hasBlockingError_skipSceForError, if_pos rfl]
  simp [setSkipInfoInResult, World.Notify, skipSceForError]

/-- Claim C6, as amended: for every scenario that has at least one validation
error that is not an "unimplemented step" error, `execute` marks the result
skipped and invokes no hook and no step (its trace is the two scenario events);
the skip reasons are the messages, in order, of the errors recorded for the
scenario when `execute` returns.  For a scenario with a body step these are the
errors recorded before the call, so the list has their length; for a scenario
without body steps it is the single synthesized "No steps found" message. -/
theorem execute_blocking (env : Env) (r : Runner) (scenario : Scenario)
    (contexts teardowns : List Step) (w : World) (errs : List StepValidationError)
    (herrs : w.errMap.scenarioErrs scenario.ptr = some errs)
    (e : StepValidationError) (he : e ∈ errs) (hb : e.IsUnimplementedError = false) :
    (execute env r scenario contexts teardowns w).1.scenarioResult.skipped = true ∧
    (execute env r scenario contexts teardowns w).1.scenarioResult.skipErrors
      = (((execute env r scenario contexts teardowns w).1.errMap.scenarioErrs
            scenario.ptr).getD []).map StepValidationError.Error ∧
    (scenario.steps ≠ [] →
      (execute env r scenario contexts teardowns w).1.errMap.scenarioErrs scenario.ptr
          = some errs ∧
      (execute env r scenario contexts teardowns w).1.scenarioResult.skipErrors
          = errs.map StepValidationError.Error ∧
      (execute env r scenario contexts teardowns w).1.scenarioResult.skipErrors.length
          = errs.length) ∧
    (scenario.steps = [] →
      (execute env r scenario contexts teardowns w).1.scenarioResult.skipErrors
          = [w.currentExecutionInfo.specFileName ++ ":" ++ toString scenario.heading.lineNo
              ++ " No steps found in scenario"]) ∧
    (execute env r scenario contexts teardowns w).1.log
      = w.log ++ [Action.event EventKind.ScenarioStart (some scenario.ptr),
                  Action.event EventKind.ScenarioEnd (some scenario.ptr)] ∧
    (execute env r scenario contexts teardowns w).2 = false := by
  by_cases hs : scenario.steps = []
  · rw [execute_eq, gateWorld_of_nil scenario w hs, hasBlockingError_skipSceForError, if_pos rfl]
    simp [setSkipInfoInResult, World.Notify, skipSceForError, hs,
      ValidationErrMaps.setScenarioErrs, StepValidationError.Error]
  · have hblock : hasBlockingError
        { w with scenarioResult := { w.scenarioResult with skipped := false } } scenario = true :=
      hasBlockingError_of_mem _ scenario errs herrs e he hb
    rw [execute_eq, gateWorld_of_ne_nil scenario w hs, hblock, if_pos rfl]
    simp [setSkipInfoInResult, World.Notify, herrs, hs]

theorem storeItems_frame (w : World) (l : List ProtoItem) :
    (w.storeItems l).log = w.log ∧ (w.storeItems l).errMap = w.errMap ∧
    (w.storeItems l).currentExecutionInfo = w.currentExecutionInfo ∧
    (w.storeItems l).scenarioResult.skipped = w.scenarioResult.skipped ∧
    (w.storeItems l).scenarioResult.skipErrors = w.scenarioResult.skipErrors ∧
    (w.storeItems l).scenarioResult.failed = w.scenarioResult.failed :=
  ⟨rfl, rfl, rfl, rfl, rfl, rfl⟩

theorem notifyBeforeScenarioHook_spec (r : Runner) (w : World) :
    (notifyBeforeScenarioHook r w).log
      = w.log ++ [Action.runnerCall Message.ScenarioExecutionStarting
          (r w.log Message.ScenarioExecutionStarting)] ∧
    (notifyBeforeScenarioHook r w).errMap = w.errMap ∧
    (notifyBeforeScenarioHook r w).stdin = w.stdin ∧
    (notifyBeforeScenarioHook r w).scenarioResult.skipped = w.scenarioResult.skipped ∧
    (notifyBeforeScenarioHook r w).scenarioResult.skipErrors = w.scenarioResult.skipErrors ∧
    (notifyBeforeScenarioHook r w).scenarioResult.contexts = w.scenarioResult.contexts ∧
    (notifyBeforeScenarioHook r w).scenarioResult.scenarioItems
      = w.scenarioResult.scenarioItems ∧
    (notifyBeforeScenarioHook r w).scenarioResult.tearDownSteps
      = w.scenarioResult.tearDownSteps ∧
    ((r w.log Message.ScenarioExecutionStarting).failed = true →
      (notifyBeforeScenarioHook r w).scenarioResult.failed = true ∧
      (notifyBeforeScenarioHook r w).currentExecutionInfo.scenarioIsFailed = true) ∧
    ((r w.log Message.ScenarioExecutionStarting).failed = false →
      (notifyBeforeScenarioHook r w).scenarioResult.failed = w.scenarioResult.failed ∧
      (notifyBeforeScenarioHook r w).currentExecutionInfo = w.currentExecutionInfo) := by
  by_cases h : (r w.log Message.ScenarioExecutionStarting).failed = true
  · simp [notifyBeforeScenarioHook, executeHook, ExecuteAndGetStatus, h, handleHookFailurePre,
      setScenarioFailure]
  · simp [notifyBeforeScenarioHook, executeHook, ExecuteAndGetStatus, h]

theorem notifyAfterScenarioHook_spec (r : Runner) (w : World) :
    (notifyAfterScenarioHook r w).log
      = w.log ++ [Action.runnerCall Message.ScenarioExecutionEnding
          (r w.log Message.ScenarioExecutionEnding)] ∧
    (notifyAfterScenarioHook r w).errMap = w.errMap ∧
    (notifyAfterScenarioHook r w).scenarioResult.skipped = w.scenarioResult.skipped ∧
    (notifyAfterScenarioHook r w).scenarioResult.skipErrors = w.scenarioResult.skipErrors ∧
    (notifyAfterScenarioHook r w).scenarioResult.contexts = w.scenarioResult.contexts ∧
    (notifyAfterScenarioHook r w).scenarioResult.scenarioItems
      = w.scenarioResult.scenarioItems ∧
    (notifyAfterScenarioHook r w).scenarioResult.tearDownSteps
      = w.scenarioResult.tearDownSteps ∧
    (w.scenarioResult.failed = true →
      (notifyAfterScenarioHook r w).scenarioResult.failed = true) ∧
    (w.currentExecutionInfo.scenarioIsFailed = true →
      (notifyAfterScenarioHook r w).currentExecutionInfo.scenarioIsFailed = true) := by
  by_cases h : (r w.log Message.ScenarioExecutionEnding).failed = true
  · simp [notifyAfterScenarioHook, executeHook, ExecuteAndGetStatus, h, handleHookFailurePost,
      setScenarioFailure]
  · simp [notifyAfterScenarioHook, executeHook, ExecuteAndGetStatus, h]

/-- What lines 84-93 of `execute` do to the world the before-hook left: the
trace grows by item actions, then (unless the walk panicked) the one call of
the after-scenario hook, then the scenario-end event. -/
theorem executeAfterBeforeHook_spec (env : Env) (r : Runner) (scenario : Scenario)
    (contexts teardowns : List Step) (w4 : World) :
    ∃ (d hook : List Action),
      (executeAfterBeforeHook env r scenario contexts teardowns w4).1.log
        = w4.log ++ (d ++ (hook ++ [Action.event EventKind.ScenarioEnd (some scenario.ptr)])) ∧
      (∀ a ∈ d, Action.isItemAction a = true) ∧
      (w4.scenarioResult.failed = true → d = []) ∧
      ((executeAfterBeforeHook env r scenario contexts teardowns w4).2 = true → hook = []) ∧
      ((executeAfterBeforeHook env r scenario contexts teardowns w4).2 = false →
        ∃ res, hook = [Action.runnerCall Message.ScenarioExecutionEnding res]) ∧
      (executeAfterBeforeHook env r scenario contexts teardowns w4).1.errMap = w4.errMap ∧
      (executeAfterBeforeHook env r scenario contexts teardowns w4).1.scenarioResult.skipped
        = w4.scenarioResult.skipped ∧
      (executeAfterBeforeHook env r scenario contexts teardowns w4).1.scenarioResult.skipErrors
        = w4.scenarioResult.skipErrors ∧
      (w4.scenarioResult.failed = true →
        (executeAfterBeforeHook env r scenario contexts teardowns w4).1.scenarioResult.failed
          = true ∧
        (executeAfterBeforeHook env r scenario contexts teardowns w4).2 = false ∧
        (executeAfterBeforeHook env r scenario contexts teardowns w4).1.scenarioResult.contexts
          = w4.scenarioResult.contexts ∧
        (executeAfterBeforeHook env r scenario contexts teardowns
          w4).1.scenarioResult.scenarioItems = w4.scenarioResult.scenarioItems ∧
        (executeAfterBeforeHook env r scenario contexts teardowns
          w4).1.scenarioResult.tearDownSteps = w4.scenarioResult.tearDownSteps) ∧
      (w4.currentExecutionInfo.scenarioIsFailed = true →
        (executeAfterBeforeHook env r scenario contexts teardowns
          w4).1.currentExecutionInfo.scenarioIsFailed = true) := by
  by_cases hf : w4.scenarioResult.failed = true
  · obtain ⟨a1, a2, a3, a4, a5, a6, a7, a8, a9⟩ := notifyAfterScenarioHook_spec r w4
    refine ⟨[], [Action.runnerCall Message.ScenarioExecutionEnding
      (r w4.log Message.ScenarioExecutionEnding)], ?_⟩
    simp [executeAfterBeforeHook, hf, World.Notify, a1, a2, a3, a4, a5, a6, a7, a8 hf]
    exact a9
  · have hw := executeItems_walked env r (contexts ++ (scenario.steps ++ teardowns)) 0
        (w4.scenarioResult.contexts ++
          (w4.scenarioResult.scenarioItems ++ w4.scenarioResult.tearDownSteps)) w4
    have hdef : executeAfterBeforeHook env r scenario contexts teardowns w4 =
        if (executeItems env r (contexts ++ (scenario.steps ++ teardowns)) 0
          (w4.scenarioResult.contexts ++
            (w4.scenarioResult.scenarioItems ++ w4.scenarioResult.tearDownSteps)) w4).exit
            = Exit.panicked then
          (((executeItems env r (contexts ++ (scenario.steps ++ teardowns)) 0
          (w4.scenarioResult.contexts ++
            (w4.scenarioResult.scenarioItems ++ w4.scenarioResult.tearDownSteps))
            w4).world.storeItems (executeItems env r (contexts ++ (scenario.steps ++ teardowns)) 0
          (w4.scenarioResult.contexts ++
            (w4.scenarioResult.scenarioItems ++ w4.scenarioResult.tearDownSteps))
            w4).protoItems).Notify EventKind.ScenarioEnd (some scenario.ptr), true)
        else
          ((notifyAfterScenarioHook r ((executeItems env r
            (contexts ++ (scenario.steps ++ teardowns)) 0
          (w4.scenarioResult.contexts ++
            (w4.scenarioResult.scenarioItems ++ w4.scenarioResult.tearDownSteps))
            w4).world.storeItems (executeItems env r (contexts ++ (scenario.steps ++ teardowns)) 0
          (w4.scenarioResult.contexts ++
            (w4.scenarioResult.scenarioItems ++ w4.scenarioResult.tearDownSteps))
            w4).protoItems)).Notify EventKind.ScenarioEnd (some scenario.ptr), false) := by
      simp [executeAfterBeforeHook, hf]
    rw [hdef]
    generalize executeItems env r (contexts ++ (scenario.steps ++ teardowns)) 0
        (w4.scenarioResult.contexts ++
          (w4.scenarioResult.scenarioItems ++ w4.scenarioResult.tearDownSteps)) w4 = out at hw
    obtain ⟨⟨d, hd1, hd2⟩, e1, e2, e3, e4, e5, e6, e7, e8, e9, e10⟩ := hw
    by_cases hp : out.exit = Exit.panicked
    · refine ⟨d, [], ?_⟩
      simp [hf, hp, World.Notify, World.storeItems, hd1, e1, e2, e3, e4]
      exact hd2
    · obtain ⟨a1, a2, a3, a4, a5, a6, a7, a8, a9⟩ := notifyAfterScenarioHook_spec r
        (out.world.storeItems out.protoItems)
      refine ⟨d, [Action.runnerCall Message.ScenarioExecutionEnding
        (r (w4.log ++ d) Message.ScenarioExecutionEnding)], ?_⟩
      obtain ⟨s1, s2, s3, s4, s5, s6⟩ := storeItems_frame out.world out.protoItems
      rw [s1] at a1
      rw [s2] at a2
      rw [s4] at a3
      rw [s5] at a4
      rw [s3] at a9
      simp [hf, hp, World.Notify, a1, a2, a3, a4, hd1, e1, e3, e4]
      refine ⟨hd2, ?_⟩
      intro h
      exact a9 (by rw [e2]; exact h)

theorem isScenarioEvent_of_isItemAction (a : Action) (h : a.isItemAction = true) :
    a.isScenarioEvent = false := by
  cases a with
  | event k s => cases k <;> simp_all [Action.isItemAction, Action.isScenarioEvent]
  | runnerCall m res => rfl
  | console p res => rfl

theorem isAfterHook_of_isItemAction (a : Action) (h : a.isItemAction = true) :
    a.isAfterHook = false := by
  cases a with
  | event k s => rfl
  | runnerCall m res => cases m <;> simp_all [Action.isItemAction, Action.isAfterHook]
  | console p res => rfl

theorem countP_isAfterHook_of_isItemAction (d : List Action)
    (h : ∀ a ∈ d, a.isItemAction = true) : d.countP Action.isAfterHook = 0 := by
  rw [List.countP_eq_zero]
  intro a ha
  simp [isAfterHook_of_isItemAction a (h a ha)]

theorem gateWorld_passes (scenario : Scenario) (w : World) (h : passesGate w scenario) :
    gateWorld scenario w
      = { w with scenarioResult := { w.scenarioResult with skipped := false } } ∧
    hasBlockingError (gateWorld scenario w) scenario = false := by
  have h1 := gateWorld_of_ne_nil scenario w h.1
  refine ⟨h1, ?_⟩
  rw [h1]
  exact (hasBlockingError_congr w _ scenario rfl).trans h.2

/-- The shape of a call of `execute` that passes the gate. -/
theorem execute_of_passesGate (env : Env) (r : Runner) (scenario : Scenario)
    (contexts teardowns : List Step) (w : World) (h : passesGate w scenario) :
    execute env r scenario contexts teardowns w =
      if (initResponse r scenario w).failed then
        ((handleScenarioDataStoreFailure scenario
          ("Failed to initialize scenario datastore. Error: " ++
            (initResponse r scenario w).errorMessage)
          { w with
              scenarioResult := { w.scenarioResult with skipped := false }
              log := w.log ++ [Action.event EventKind.ScenarioStart (some scenario.ptr),
                Action.runnerCall Message.ScenarioDataStoreInit (initResponse r scenario w)] }).Notify
            EventKind.ScenarioEnd (some scenario.ptr), false)
      else
        executeAfterBeforeHook env r scenario contexts teardowns
          (notifyBeforeScenarioHook r
            { w with
              scenarioResult := { w.scenarioResult with skipped := false }
              log := w.log ++ [Action.event EventKind.ScenarioStart (some scenario.ptr),
                Action.runnerCall Message.ScenarioDataStoreInit (initResponse r scenario w)] }) := by
  obtain ⟨h1, h2⟩ := gateWorld_passes scenario w h
  rw [execute_eq, h2, h1]
  simp [initScenarioDataStore, ExecuteAndGetStatus, World.Notify, initResponse]

/-- Claim C8: for every scenario that passes the validation gate, if the
Runner's data-store-init response is failed with error message `m`, then
`execute` marks the scenario skipped, its skip-reason list is the one string
"Failed to initialize scenario datastore. Error: " followed by `m` (a string
ending in `m`), and its whole trace is scenario-start, the init message and
scenario-end: no before-hook, no step, no after-hook. -/
theorem execute_datastore_failure (env : Env) (r : Runner) (scenario : Scenario)
    (contexts teardowns : List Step) (w : World) (m : String)
    (hgate : passesGate w scenario)
    (hfail : (initResponse r scenario w).failed = true)
    (hm : (initResponse r scenario w).errorMessage = m) :
    (execute env r scenario contexts teardowns w).1.scenarioResult.skipped = true ∧
    (execute env r scenario contexts teardowns w).1.scenarioResult.skipErrors
      = ["Failed to initialize scenario datastore. Error: " ++ m] ∧
    (∃ reason ∈ (execute env r scenario contexts teardowns w).1.scenarioResult.skipErrors,
      ∃ front : String, reason = front ++ m) ∧
    (execute env r scenario contexts teardowns w).1.log
      = w.log ++ [Action.event EventKind.ScenarioStart (some scenario.ptr),
                  Action.runnerCall Message.ScenarioDataStoreInit (initResponse r scenario w),
                  Action.event EventKind.ScenarioEnd (some scenario.ptr)] ∧
    (execute env r scenario contexts teardowns w).2 = false := by
  rw [execute_of_passesGate env r scenario contexts teardowns w hgate, if_pos hfail]
  simp [handleScenarioDataStoreFailure, setSkipInfoInResult, World.Notify,
    ValidationErrMaps.setScenarioErrs, StepValidationError.Error, hm]
  exact ⟨"Failed to initialize scenario datastore. Error: ", rfl⟩

/-- Claim C7, as amended: for every scenario with at least one body step whose
recorded validation errors are exclusively "unimplemented step" errors, if the
data-store init does not fail, then the skipped flag is false when `execute`
is left and the before-scenario hook is invoked right after the init. -/
theorem execute_unimplemented_only (env : Env) (r : Runner) (scenario : Scenario)
    (contexts teardowns : List Step) (w : World)
    (hsteps : scenario.steps ≠ [])
    (hunimpl : ∀ errs, w.errMap.scenarioErrs scenario.ptr = some errs →
      ∀ e ∈ errs, e.IsUnimplementedError = true)
    (hinit : (initResponse r scenario w).failed = false) :
    (execute env r scenario contexts teardowns w).1.scenarioResult.skipped = false ∧
    ∃ later : List Action,
      (execute env r scenario contexts teardowns w).1.log
        = w.log ++ [Action.event EventKind.ScenarioStart (some scenario.ptr),
            Action.runnerCall Message.ScenarioDataStoreInit (initResponse r scenario w),
            Action.runnerCall Message.ScenarioExecutionStarting
              (beforeHookResponse r scenario w)] ++ later := by
  have hgate : passesGate w scenario := by
    refine ⟨hsteps, ?_⟩
    unfold hasBlockingError
    cases herr : w.errMap.scenarioErrs scenario.ptr with
    | none => rfl
    | some errs =>
      simp only [List.any_eq_false]
      intro e he
      simp [hunimpl errs herr e he]
  rw [execute_of_passesGate env r scenario contexts teardowns w hgate]
  simp only [hinit, Bool.false_eq_true, if_false]
  obtain ⟨b1, b2, b3, b4, b5, b6, b7, b8, b9, b10⟩ := notifyBeforeScenarioHook_spec r
    { w with
        scenarioResult := { w.scenarioResult with skipped := false }
        log := w.log ++ [Action.event EventKind.ScenarioStart (some scenario.ptr),
          Action.runnerCall Message.ScenarioDataStoreInit (initResponse r scenario w)] }
  obtain ⟨d, hook, c1, c2, c3, c4, c5, c6, c7, c8, c9, c10⟩ :=
    executeAfterBeforeHook_spec env r scenario contexts teardowns
      (notifyBeforeScenarioHook r
        { w with
          scenarioResult := { w.scenarioResult with skipped := false }
          log := w.log ++ [Action.event EventKind.ScenarioStart (some scenario.ptr),
            Action.runnerCall Message.ScenarioDataStoreInit (initResponse r scenario w)] })
  refine ⟨by rw [c7, b4], d ++ (hook ++ [Action.event EventKind.ScenarioEnd (some scenario.ptr)]),
    ?_⟩
  rw [c1, b1]
  simp [beforeHookResponse]

/-- The trace of every call of `execute` is scenario-start, then actions none
of which is a scenario event, then scenario-end. -/
theorem execute_scenario_events_shape (env : Env) (r : Runner) (scenario : Scenario)
    (contexts teardowns : List Step) (w : World) :
    ∃ mid : List Action,
      (execute env r scenario contexts teardowns w).1.log
        = w.log ++ (Action.event EventKind.ScenarioStart (some scenario.ptr) ::
            (mid ++ [Action.event EventKind.ScenarioEnd (some scenario.ptr)])) ∧
      ∀ a ∈ mid, a.isScenarioEvent = false := by
  have hlog : (gateWorld scenario w).log = w.log := by
    unfold gateWorld
    split <;> rfl
  rw [execute_eq]
  by_cases hb : hasBlockingError (gateWorld scenario w) scenario = true
  · rw [if_pos hb]
    exact ⟨[], by simp [setSkipInfoInResult, World.Notify, hlog], by simp⟩
  · rw [if_neg hb]
    by_cases hi : (initScenarioDataStore r ((gateWorld scenario w).Notify EventKind.ScenarioStart
          (some scenario.ptr))).1.failed = true
    · rw [if_pos hi]
      refine ⟨[Action.runnerCall Message.ScenarioDataStoreInit
        (r (w.log ++ [Action.event EventKind.ScenarioStart (some scenario.ptr)])
          Message.ScenarioDataStoreInit)], ?_, ?_⟩
      · simp [handleScenarioDataStoreFailure, setSkipInfoInResult, World.Notify,
          initScenarioDataStore, ExecuteAndGetStatus, hlog]
      · simp [Action.isScenarioEvent]
    · rw [if_neg hi]
      obtain ⟨b1, -⟩ := notifyBeforeScenarioHook_spec r (initScenarioDataStore r
        ((gateWorld scenario w).Notify EventKind.ScenarioStart (some scenario.ptr))).2
      obtain ⟨d, hook, c1, c2, c3, c4, c5, -⟩ :=
        executeAfterBeforeHook_spec env r scenario contexts teardowns
          (notifyBeforeScenarioHook r (initScenarioDataStore r
            ((gateWorld scenario w).Notify EventKind.ScenarioStart (some scenario.ptr))).2)
      refine ⟨[Action.runnerCall Message.ScenarioDataStoreInit
        (r (w.log ++ [Action.event EventKind.ScenarioStart (some scenario.ptr)])
          Message.ScenarioDataStoreInit),
        Action.runnerCall Message.ScenarioExecutionStarting
          (r (initScenarioDataStore r ((gateWorld scenario w).Notify EventKind.ScenarioStart
            (some scenario.ptr))).2.log Message.ScenarioExecutionStarting)] ++ (d ++ hook), ?_, ?_⟩
      · rw [c1, b1]
        simp [initScenarioDataStore, ExecuteAndGetStatus, World.Notify, hlog]
      · intro a ha
        simp only [List.mem_append, List.mem_cons, List.mem_singleton, List.not_mem_nil,
          or_false] at ha
        rcases ha with (rfl | rfl) | ha | ha
        · rfl
        · rfl
        · exact isScenarioEvent_of_isItemAction a (c2 a ha)
        · cases hx : (executeAfterBeforeHook env r scenario contexts teardowns
            (notifyBeforeScenarioHook r (initScenarioDataStore r
              ((gateWorld scenario w).Notify EventKind.ScenarioStart (some scenario.ptr))).2)).2
          · obtain ⟨res, hres⟩ := c5 hx
            rw [hres] at ha
            simp only [List.mem_singleton] at ha
            rw [ha]
            rfl
          · rw [c4 hx] at ha
            simp at ha

/-- Claim C9, as amended: for every call of `execute` that passes the validation
gate and the data-store init and returns, the after-scenario hook is invoked
exactly once; and if the before-scenario hook's response is failed, the scenario result
and the current scenario of the execution info are marked failed, no context,
body or teardown item is executed (the trace has no item action and the three
item lists are as they were), and the one after-hook invocation still happens. -/
theorem execute_after_hook_once (env : Env) (r : Runner) (scenario : Scenario)
    (contexts teardowns : List Step) (w : World)
    (hgate : passesGate w scenario)
    (hinit : (initResponse r scenario w).failed = false)
    (hret : (execute env r scenario contexts teardowns w).2 = false) :
    ∃ d : List Action,
      (execute env r scenario contexts teardowns w).1.log = w.log ++ d ∧
      d.countP Action.isAfterHook = 1 ∧
      ((beforeHookResponse r scenario w).failed = true →
        (execute env r scenario contexts teardowns w).1.scenarioResult.failed = true ∧
        (execute env r scenario contexts teardowns w).1.currentExecutionInfo.scenarioIsFailed
          = true ∧
        (∀ a ∈ d, a.isItemAction = false) ∧
        (execute env r scenario contexts teardowns w).1.scenarioResult.contexts
          = w.scenarioResult.contexts ∧
        (execute env r scenario contexts teardowns w).1.scenarioResult.scenarioItems
          = w.scenarioResult.scenarioItems ∧
        (execute env r scenario contexts teardowns w).1.scenarioResult.tearDownSteps
          = w.scenarioResult.tearDownSteps) := by
  rw [execute_of_passesGate env r scenario contexts teardowns w hgate] at hret ⊢
  simp only [hinit, Bool.false_eq_true, if_false] at hret ⊢
  obtain ⟨b1, b2, b3, b4, b5, b6, b7, b8, b9, b10⟩ := notifyBeforeScenarioHook_spec r
    { w with
        scenarioResult := { w.scenarioResult with skipped := false }
        log := w.log ++ [Action.event EventKind.ScenarioStart (some scenario.ptr),
          Action.runnerCall Message.ScenarioDataStoreInit (initResponse r scenario w)] }
  obtain ⟨d, hook, c1, c2, c3, c4, c5, c6, c7, c8, c9, c10⟩ :=
    executeAfterBeforeHook_spec env r scenario contexts teardowns
      (notifyBeforeScenarioHook r
        { w with
          scenarioResult := { w.scenarioResult with skipped := false }
          log := w.log ++ [Action.event EventKind.ScenarioStart (some scenario.ptr),
            Action.runnerCall Message.ScenarioDataStoreInit (initResponse r scenario w)] })
  obtain ⟨res, hres⟩ := c5 hret
  refine ⟨[Action.event EventKind.ScenarioStart (some scenario.ptr),
      Action.runnerCall Message.ScenarioDataStoreInit (initResponse r scenario w),
      Action.runnerCall Message.ScenarioExecutionStarting (beforeHookResponse r scenario w)]
      ++ (d ++ (hook ++ [Action.event EventKind.ScenarioEnd (some scenario.ptr)])), ?_, ?_, ?_⟩
  · rw [c1, b1]
    simp [beforeHookResponse]
  · rw [hres]
    simp [List.countP_cons, List.countP_append, Action.isAfterHook,
      countP_isAfterHook_of_isItemAction d c2]
  · intro hbf
    have hbf2 : (r ({ w with
        scenarioResult := { w.scenarioResult with skipped := false }
        log := w.log ++ [Action.event EventKind.ScenarioStart (some scenario.ptr),
          Action.runnerCall Message.ScenarioDataStoreInit (initResponse r scenario w)] } : World).log
        Message.ScenarioExecutionStarting).failed = true := hbf
    obtain ⟨f1, f2⟩ := b9 hbf2
    obtain ⟨g1, g2, g3, g4, g5⟩ := c9 f1
    refine ⟨g1, c10 f2, ?_, g3.trans b6, g4.trans b7, g5.trans b8⟩
    rw [c3 f1, hres]
    intro a ha
    simp only [List.nil_append, List.mem_append, List.mem_cons, List.mem_singleton,
      List.not_mem_nil, or_false] at ha
    rcases ha with (rfl | rfl | rfl) | rfl | rfl <;> rfl


/-! ### Concepts -/

theorem executeItem_concept (r : Runner) (item : Step) (steps : List ProtoItem)
    (cer : Option ProtoStepExecutionResult) (w : World) :
    executeItem r item (ProtoItem.concept steps cer) w =
      { protoItem := ProtoItem.concept (executeConcept r item steps cer w).steps
          (executeConcept r item steps cer w).conceptExecutionResult
        failed := ConceptResultGetFailed (executeConcept r item steps cer w).conceptExecutionResult
        recoverable :=
          ConceptResultGetRecoverable (executeConcept r item steps cer w).conceptExecutionResult
        world := (executeConcept r item steps cer w).world
        panicked := decide ((executeConcept r item steps cer w).exit = Exit.panicked) } := by
  simp [executeItem, executeConcept]

/-- The flags `executeItem` returns are the flags of the result it attached to
the node. -/
theorem executeItem_flags (r : Runner) (item : Step) (p : ProtoItem) (w : World)
    (hf : (executeItem r item p w).failed = true) :
    ∃ e, (executeItem r item p w).protoItem.executionResult = some e ∧ e.failed = true ∧
      e.recoverableError = (executeItem r item p w).recoverable := by
  cases p with
  | step res =>
    simp only [executeItem] at hf ⊢
    simp only [executeStep, ProtoStepExecutionResult.GetFailed] at hf
    exact ⟨_, rfl, hf, rfl⟩
  | concept steps cer =>
    simp only [executeItem] at hf ⊢
    generalize (executeConceptLoop r item.conceptSteps 0 [] cer steps
      (w.Notify EventKind.ConceptStart (some item.ptr))).conceptExecutionResult = c at hf ⊢
    cases c with
    | none => simp [ConceptResultGetFailed] at hf
    | some res =>
      cases hres : res.executionResult with
      | none => simp [ConceptResultGetFailed, ProtoStepExecutionResult.GetFailed, hres] at hf
      | some e =>
        simp only [ConceptResultGetFailed, ProtoStepExecutionResult.GetFailed, hres] at hf
        exact ⟨e, by simp [ProtoItem.executionResult, hres], hf,
          by simp [ConceptResultGetRecoverable, ProtoStepExecutionResult.GetRecoverableError, hres]⟩
  | other k => simp [executeItem] at hf

theorem UpdateConceptExecResult_fatal (steps : List ProtoItem) (x : ProtoItem) (hx : x ∈ steps)
    (e : ProtoExecutionResult) (he : x.executionResult = some e) (hf : e.failed = true)
    (hr : e.recoverableError = false) :
    ConceptResultGetFailed (UpdateConceptExecResult steps) = true ∧
    ConceptResultGetRecoverable (UpdateConceptExecResult steps) = false := by
  have hmem : e ∈ steps.filterMap ProtoItem.executionResult :=
    List.mem_filterMap.mpr ⟨x, hx, he⟩
  cases hfind : (steps.filterMap ProtoItem.executionResult).find?
      (fun e => e.failed && !e.recoverableError) with
  | none =>
    have := List.find?_eq_none.mp hfind e hmem
    simp [hf, hr] at this
  | some e' =>
    have h := List.find?_some hfind
    simp only [Bool.and_eq_true, Bool.not_eq_true'] at h
    have hu : UpdateConceptExecResult steps
        = some { executionResult := some e', skipped := false } := by
      simp only [UpdateConceptExecResult, hfind]
    rw [hu]
    simp [ConceptResultGetFailed, ConceptResultGetRecoverable,
      ProtoStepExecutionResult.GetFailed, ProtoStepExecutionResult.GetRecoverableError, h.1, h.2]

/-- Walking `front ++ rest` when the walk of `front` alone runs to its end: the
loop reaches `rest` with the nodes, index and world that the walk of `front`
left (only the running concept result may differ). -/
theorem executeConceptLoop_append (r : Runner) (cs : List Step) (front rest : List ProtoItem) :
    ∀ (idx : Nat) (done : List ProtoItem) (cer cerA : Option ProtoStepExecutionResult)
      (w : World),
      (executeConceptLoop r cs idx done cerA front w).exit = Exit.completed →
      ∃ cer', executeConceptLoop r cs idx done cer (front ++ rest) w =
        executeConceptLoop r cs (executeConceptLoop r cs idx done cerA front w).conceptStepIndex
          (executeConceptLoop r cs idx done cerA front w).steps cer' rest
          (executeConceptLoop r cs idx done cerA front w).world := by
  induction front with
  | nil =>
    intro idx done cer cerA w _
    exact ⟨cer, by simp [executeConceptLoop]⟩
  | cons p ps ih =>
    intro idx done cer cerA w h
    by_cases hx : p.isExecutable = true
    · cases hs : cs[idx]? with
      | none => simp [executeConceptLoop, hx, hs] at h
      | some st =>
        simp only [executeConceptLoop, hx, hs, if_true, List.cons_append] at h ⊢
        by_cases hp : (executeItem r st p w).panicked = true
        · simp [hp] at h
        · simp only [hp, Bool.false_eq_true, if_false] at h ⊢
          by_cases hf : (executeItem r st p w).failed = true
          · simp only [hf, if_true] at h ⊢
            by_cases hr : (executeItem r st p w).recoverable = true
            · simp only [hr, if_true] at h ⊢
              exact ih _ _ _ _ _ h
            · simp [hr] at h
          · simp only [hf, Bool.false_eq_true, if_false] at h ⊢
            exact ih _ _ _ _ _ h
    · simp only [executeConceptLoop, hx, Bool.false_eq_true, if_false, List.cons_append] at h ⊢
      exact ih _ _ _ _ _ h

/-- A walk that runs to its end has advanced `conceptStepIndex` once per
executable node, and returns as many nodes as it was given. -/
theorem executeConceptLoop_completed_index (r : Runner) (cs : List Step)
    (front : List ProtoItem) :
    ∀ (idx : Nat) (done : List ProtoItem) (cer : Option ProtoStepExecutionResult) (w : World),
      (executeConceptLoop r cs idx done cer front w).exit = Exit.completed →
      (executeConceptLoop r cs idx done cer front w).conceptStepIndex
        = idx + (front.filter ProtoItem.isExecutable).length := by
  induction front with
  | nil =>
    intro idx done cer w _
    simp [executeConceptLoop]
  | cons p ps ih =>
    intro idx done cer w h
    by_cases hx : p.isExecutable = true
    · cases hs : cs[idx]? with
      | none => simp [executeConceptLoop, hx, hs] at h
      | some st =>
        simp only [executeConceptLoop, hx, hs, if_true, List.filter_cons_of_pos,
          List.length_cons] at h ⊢
        by_cases hp : (executeItem r st p w).panicked = true
        · simp [hp] at h
        · simp only [hp, Bool.false_eq_true, if_false] at h ⊢
          by_cases hf : (executeItem r st p w).failed = true
          · simp only [hf, if_true] at h ⊢
            by_cases hr : (executeItem r st p w).recoverable = true
            · simp only [hr, if_true] at h ⊢
              rw [ih _ _ _ _ h]
              omega
            · simp [hr] at h
          · simp only [hf, Bool.false_eq_true, if_false] at h ⊢
            rw [ih _ _ _ _ h]
            omega
    · simp only [executeConceptLoop, hx, Bool.false_eq_true, if_false] at h ⊢
      rw [ih _ _ _ _ h]
      simp [hx]

/-- Claim C4: let a concept's child nodes be `front ++ child :: back`, where the
walk of `front` runs to its end (no earlier child fails non-recoverably) and the
executable node `child`, the k-th executable child with
k = (number of executable nodes in `front`) + 1, fails non-recoverably when its
turn comes.  Then `executeConcept` executes exactly the children 1..k: it leaves
the loop with `conceptStepIndex = k`, the world is the one reached right after
child k (plus the failure mark and the concept-end event), the nodes `back` of
the children k+1..N are returned untouched, and the returned concept result has
its failed flag set. -/
theorem executeConcept_fatal_child (r : Runner) (item st : Step)
    (front : List ProtoItem) (child : ProtoItem) (back : List ProtoItem)
    (cer : Option ProtoStepExecutionResult) (w : World)
    (hexec : child.isExecutable = true)
    (hfront : (executeConceptLoop r item.conceptSteps 0 [] cer front
      (w.Notify EventKind.ConceptStart (some item.ptr))).exit = Exit.completed)
    (hstep : item.conceptSteps[(front.filter ProtoItem.isExecutable).length]? = some st)
    (hfailed : (executeItem r st child (executeConceptLoop r item.conceptSteps 0 [] cer front
      (w.Notify EventKind.ConceptStart (some item.ptr))).world).failed = true)
    (hfatal : (executeItem r st child (executeConceptLoop r item.conceptSteps 0 [] cer front
      (w.Notify EventKind.ConceptStart (some item.ptr))).world).recoverable = false)
    (hreturns : (executeItem r st child (executeConceptLoop r item.conceptSteps 0 [] cer front
      (w.Notify EventKind.ConceptStart (some item.ptr))).world).panicked = false) :
    (executeConcept r item (front ++ child :: back) cer w).steps
      = (executeConceptLoop r item.conceptSteps 0 [] cer front
          (w.Notify EventKind.ConceptStart (some item.ptr))).steps ++
        (executeItem r st child (executeConceptLoop r item.conceptSteps 0 [] cer front
          (w.Notify EventKind.ConceptStart (some item.ptr))).world).protoItem :: back ∧
    (executeConcept r item (front ++ child :: back) cer w).conceptStepIndex
      = (front.filter ProtoItem.isExecutable).length + 1 ∧
    (executeConcept r item (front ++ child :: back) cer w).world
      = ((executeItem r st child (executeConceptLoop r item.conceptSteps 0 [] cer front
          (w.Notify EventKind.ConceptStart (some item.ptr))).world).world.SetFailure).Notify
            EventKind.ConceptEnd none ∧
    (executeConcept r item (front ++ child :: back) cer w).exit = Exit.halted ∧
    ConceptResultGetFailed
      (executeConcept r item (front ++ child :: back) cer w).conceptExecutionResult = true := by
  obtain ⟨cer', happ⟩ := executeConceptLoop_append r item.conceptSteps front (child :: back)
    0 [] cer cer (w.Notify EventKind.ConceptStart (some item.ptr)) hfront
  have hidx := executeConceptLoop_completed_index r item.conceptSteps front 0 [] cer
    (w.Notify EventKind.ConceptStart (some item.ptr)) hfront
  rw [Nat.zero_add] at hidx
  obtain ⟨e, he1, he2, he3⟩ := executeItem_flags r st child _ hfailed
  rw [hfatal] at he3
  have hupd := UpdateConceptExecResult_fatal
    ((executeConceptLoop r item.conceptSteps 0 [] cer front
          (w.Notify EventKind.ConceptStart (some item.ptr))).steps ++
        (executeItem r st child (executeConceptLoop r item.conceptSteps 0 [] cer front
          (w.Notify EventKind.ConceptStart (some item.ptr))).world).protoItem :: back)
    _ (by simp) e he1 he2 he3
  simp only [executeConcept, happ, hidx]
  simp only [executeConceptLoop, hexec, hstep, hreturns, hfailed, hfatal, if_true,
    Bool.false_eq_true, if_false]
  exact ⟨trivial, trivial, trivial, trivial, hupd.1⟩


/-! ### Traces of the walk -/

theorem resultSlotsList_nil : resultSlotsList [] = [] := rfl

theorem resultSlotsList_cons (p : ProtoItem) (ps : List ProtoItem) :
    resultSlotsList (p :: ps) = p.resultSlots ++ resultSlotsList ps := rfl

theorem resultSlots_step (res : Option ProtoStepExecutionResult) :
    (ProtoItem.step res).resultSlots = [res] := rfl

theorem resultSlots_concept (steps : List ProtoItem) (cer : Option ProtoStepExecutionResult) :
    (ProtoItem.concept steps cer).resultSlots = cer :: resultSlotsList steps := rfl

theorem resultSlots_other (k : OtherKind) : (ProtoItem.other k).resultSlots = [] := rfl

theorem resultSlotsList_append (a b : List ProtoItem) :
    resultSlotsList (a ++ b) = resultSlotsList a ++ resultSlotsList b := by
  induction a with
  | nil => rfl
  | cons p ps ih =>
    rw [List.cons_append, resultSlotsList_cons, resultSlotsList_cons, ih, List.append_assoc]

theorem resultSlots_of_not_executable (p : ProtoItem) (h : ¬ p.isExecutable = true) :
    p.resultSlots = [] := by
  cases p with
  | step res => simp [ProtoItem.isExecutable, ProtoItem.GetItemType] at h
  | concept steps cer => simp [ProtoItem.isExecutable, ProtoItem.GetItemType] at h
  | other k => rfl

theorem stopsAtFatal_cons (a : Action) (rest : List Action) :
    stopsAtFatal (a :: rest) =
      ((!a.isFatalStep || rest.all (fun b => !b.isVisit)) && stopsAtFatal rest) := rfl

theorem stopsAtFatal_append (a b : List Action) :
    stopsAtFatal (a ++ b) =
      (stopsAtFatal a && stopsAtFatal b &&
        (!a.any Action.isFatalStep || b.all (fun x => !x.isVisit))) := by
  induction a with
  | nil => simp [stopsAtFatal]
  | cons x xs ih =>
    rw [List.cons_append, stopsAtFatal_cons, stopsAtFatal_cons, ih, List.all_append,
      List.any_cons]
    generalize x.isFatalStep = b1
    generalize stopsAtFatal xs = b2
    generalize stopsAtFatal b = b3
    generalize List.all b (fun x => !x.isVisit) = b4
    generalize List.all xs (fun x => !x.isVisit) = b5
    generalize List.any xs Action.isFatalStep = b6
    cases b1 <;> cases b2 <;> cases b3 <;> cases b4 <;> cases b5 <;> cases b6 <;> rfl

theorem stopsAtFatal_of_no_fatal (d : List Action) (h : d.any Action.isFatalStep = false) :
    stopsAtFatal d = true := by
  induction d with
  | nil => rfl
  | cons x xs ih =>
    simp only [List.any_cons, Bool.or_eq_false_iff] at h
    simp [stopsAtFatal_cons, h.1, ih h.2]

theorem SlotsTrace_refl (s : List (Option ProtoStepExecutionResult)) : SlotsTrace [] s s :=
  ⟨rfl, by simp, rfl⟩

theorem SlotsTrace_append_stop {d : List Action}
    {b1 a1 : List (Option ProtoStepExecutionResult)} (b2 : List (Option ProtoStepExecutionResult))
    (h : SlotsTrace d b1 a1) : SlotsTrace d (b1 ++ b2) (a1 ++ b2) := by
  obtain ⟨h1, h2, h3⟩ := h
  refine ⟨by simp [h1], by simp; omega, ?_⟩
  rw [List.drop_append_of_le_length (by omega), List.drop_append_of_le_length h2, h3]

theorem SlotsTrace_append_full {d1 d2 : List Action}
    {b1 a1 b2 a2 : List (Option ProtoStepExecutionResult)}
    (h : SlotsTrace d1 b1 a1) (hfull : d1.countP Action.isVisit = b1.length)
    (h' : SlotsTrace d2 b2 a2) : SlotsTrace (d1 ++ d2) (b1 ++ b2) (a1 ++ a2) := by
  obtain ⟨h1, h2, h3⟩ := h
  obtain ⟨g1, g2, g3⟩ := h'
  refine ⟨by simp [h1, g1], by simp [List.countP_append]; omega, ?_⟩
  rw [List.countP_append, hfull, List.drop_append_eq_append_drop, List.drop_append_eq_append_drop]
  simp [h1, g3, List.drop_eq_nil_of_le]

theorem any_isFatalStep_false_of (d : List Action) (P : Prop) (hP : ¬ P)
    (h : d.any Action.isFatalStep = true → P) : d.any Action.isFatalStep = false := by
  cases hd : d.any Action.isFatalStep with
  | false => rfl
  | true => exact absurd (h hd) hP

theorem executeItem_trace (r : Runner) (item : Step) (p : ProtoItem) (w : World) :
    ItemTrace p w (executeItem r item p w) := by
  refine @executeItem.induct r (fun item p w => ItemTrace p w (executeItem r item p w))
    (fun cs idx done cer rest w =>
      LoopTrace done rest w (executeConceptLoop r cs idx done cer rest w))
    ?_ ?_ ?_ ?_ ?_ ?_ ?_ ?_ ?_ ?_ item p w
  · -- concept
    intro item steps cer w ih
    obtain ⟨d, rest', hlog, hsteps, hstop, hfat, hhalt, hslots, hfull⟩ := ih
    simp only [executeItem]
    generalize executeConceptLoop r item.conceptSteps 0 [] cer steps
      (w.Notify EventKind.ConceptStart (some item.ptr)) = o at hlog hsteps hfat hhalt hfull
    rw [List.nil_append] at hsteps
    obtain ⟨s1, s2, s3⟩ := hslots
    refine ⟨[Action.event EventKind.ConceptStart (some item.ptr)] ++ (d ++
      [Action.event EventKind.ConceptEnd none]), ?_, ?_, ?_, ?_, ?_⟩
    · simp [World.Notify, hlog]
    · rw [stopsAtFatal_append, stopsAtFatal_append, hstop]
      simp [stopsAtFatal, Action.isFatalStep, Action.isVisit, Action.isStepExecution]
    · intro h
      have hd : d.any Action.isFatalStep = true := by
        simpa [Action.isFatalStep] using h
      have hex := hfat hd
      obtain ⟨f1, f2⟩ := hhalt hex
      simp [hex, f1, f2]
    · refine ⟨?_, ?_, ?_⟩
      · simp [resultSlots_concept, hsteps, s1]
      · simp [resultSlots_concept, List.countP_cons, List.countP_append, Action.isVisit,
          Action.isStepExecution]
        omega
      · simp [resultSlots_concept, List.countP_cons, List.countP_append, Action.isVisit,
          Action.isStepExecution, hsteps, Nat.add_comm, s3]
    · intro hp hnf
      have hne : o.exit ≠ Exit.panicked := by simpa using hp
      have hcomp : o.exit = Exit.completed := by
        cases hex : o.exit with
        | completed => rfl
        | halted =>
          obtain ⟨f1, f2⟩ := hhalt hex
          exact absurd ⟨f1, f2⟩ hnf
        | panicked => exact absurd hex hne
      simp [resultSlots_concept, List.countP_cons, List.countP_append, Action.isVisit,
        Action.isStepExecution, hfull hcomp]
  · -- step
    intro item res w
    simp only [executeItem]
    refine ⟨[Action.runnerCall (Message.ExecuteStep item.ptr item.value)
      (r w.log (Message.ExecuteStep item.ptr item.value))], rfl, ?_, ?_, ?_, ?_⟩
    · simp [stopsAtFatal]
    · intro h
      simpa [Action.isFatalStep, executeStep, ExecuteAndGetStatus,
        ProtoStepExecutionResult.GetFailed, ProtoStepExecutionResult.GetRecoverableError]
        using h
    · refine ⟨rfl, ?_, ?_⟩
      · simp [resultSlots_step, Action.isVisit, Action.isStepExecution]
      · simp [resultSlots_step, Action.isVisit, Action.isStepExecution]
    · intro _ _
      simp [resultSlots_step, Action.isVisit, Action.isStepExecution]
  · -- other
    intro item k w
    simp only [executeItem]
    exact ⟨[], by simp, rfl, by simp, SlotsTrace_refl _, fun _ _ => rfl⟩
  · -- loop: end of list
    intro cs idx done cer w
    simp only [executeConceptLoop]
    exact ⟨[], [], by simp, by simp, rfl, by simp, by simp, SlotsTrace_refl _, fun _ => rfl⟩
  · -- loop: index out of range
    intro cs idx done cer p rest w hx hnone
    simp only [executeConceptLoop, hx, hnone, if_true]
    exact ⟨[], p :: rest, by simp, rfl, rfl, by simp, by simp, SlotsTrace_refl _, by simp⟩
  · -- loop: the child panicked
    intro cs idx done cer p rest w hx step hsome out hp ih
    simp only [executeConceptLoop, hx, hsome, if_true]
    simp only [out] at hp ih
    simp only [hp, if_true]
    obtain ⟨d, hlog, hstop, hfat, hslots, hfull⟩ := ih
    refine ⟨d, (executeItem r step p w).protoItem :: rest, hlog, rfl, hstop, ?_, by simp, ?_,
      by simp⟩
    · intro h
      have := (hfat h).1
      rw [hp] at this
      exact absurd this (by simp)
    · rw [resultSlotsList_cons, resultSlotsList_cons]
      exact SlotsTrace_append_stop _ hslots
  · -- loop: recoverable failure, continue
    intro cs idx done cer p rest w hx step hsome out hp hf hr ih1 ih2
    simp only [executeConceptLoop, hx, hsome, if_true]
    simp only [out] at hp hf hr ih1 ih2
    simp only [hp, hf, hr, if_true, Bool.false_eq_true, if_false]
    obtain ⟨d, hlog, hstop, hfat, hslots, hfull⟩ := ih1
    obtain ⟨d2, rest2, hlog2, hsteps2, hstop2, hfat2, hhalt2, hslots2, hfull2⟩ := ih2
    have hnofatal : d.any Action.isFatalStep = false :=
      any_isFatalStep_false_of d _ (by simp [hr]) hfat
    have hcount := hfull (by simpa using hp) (by simp [hr])
    refine ⟨d ++ d2, (executeItem r step p w).protoItem :: rest2, ?_, ?_, ?_, ?_, hhalt2, ?_, ?_⟩
    · rw [hlog2]
      simp [World.SetFailure, hlog]
    · rw [hsteps2]
      simp
    · rw [stopsAtFatal_append, hstop, hstop2, hnofatal]
      rfl
    · intro h
      rw [List.any_append, hnofatal, Bool.false_or] at h
      exact hfat2 h
    · rw [resultSlotsList_cons, resultSlotsList_cons]
      exact SlotsTrace_append_full hslots hcount hslots2
    · intro hc
      rw [List.countP_append, hcount, hfull2 hc, resultSlotsList_cons, List.length_append]
  · -- loop: non-recoverable failure, return
    intro cs idx done cer p rest w hx step hsome out hp hf hr ih1
    simp only [executeConceptLoop, hx, hsome, if_true]
    simp only [out] at hp hf hr ih1
    simp only [hp, hf, hr, if_true, Bool.false_eq_true, if_false]
    obtain ⟨d, hlog, hstop, hfat, hslots, hfull⟩ := ih1
    obtain ⟨e, he1, he2, he3⟩ := executeItem_flags r step p w hf
    have hr' : (executeItem r step p w).recoverable = false := by simpa using hr
    rw [hr'] at he3
    refine ⟨d, (executeItem r step p w).protoItem :: rest, ?_, rfl, hstop, fun _ => rfl, ?_, ?_,
      by simp⟩
    · simp [World.SetFailure, hlog]
    · intro _
      exact UpdateConceptExecResult_fatal _ _ (by simp) e he1 he2 he3
    · rw [resultSlotsList_cons, resultSlotsList_cons]
      exact SlotsTrace_append_stop _ hslots
  · -- loop: the child passed, continue
    intro cs idx done cer p rest w hx step hsome out hp hf ih1 ih2
    simp only [executeConceptLoop, hx, hsome, if_true]
    simp only [out] at hp hf ih1 ih2
    simp only [hp, hf, if_true, Bool.false_eq_true, if_false]
    obtain ⟨d, hlog, hstop, hfat, hslots, hfull⟩ := ih1
    obtain ⟨d2, rest2, hlog2, hsteps2, hstop2, hfat2, hhalt2, hslots2, hfull2⟩ := ih2
    have hnofatal : d.any Action.isFatalStep = false :=
      any_isFatalStep_false_of d _ (by simp [hf]) hfat
    have hcount := hfull (by simpa using hp) (by simp [hf])
    refine ⟨d ++ d2, (executeItem r step p w).protoItem :: rest2, ?_, ?_, ?_, ?_, hhalt2, ?_, ?_⟩
    · rw [hlog2, hlog, List.append_assoc]
    · rw [hsteps2]
      simp
    · rw [stopsAtFatal_append, hstop, hstop2, hnofatal]
      rfl
    · intro h
      rw [List.any_append, hnofatal, Bool.false_or] at h
      exact hfat2 h
    · rw [resultSlotsList_cons, resultSlotsList_cons]
      exact SlotsTrace_append_full hslots hcount hslots2
    · intro hc
      rw [List.countP_append, hcount, hfull2 hc, resultSlotsList_cons, List.length_append]
  · -- loop: a node that is not executable
    intro cs idx done cer p rest w hx ih
    simp only [executeConceptLoop, hx, Bool.false_eq_true, if_false]
    obtain ⟨d2, rest2, hlog2, hsteps2, hstop2, hfat2, hhalt2, hslots2, hfull2⟩ := ih
    refine ⟨d2, p :: rest2, hlog2, ?_, hstop2, hfat2, hhalt2, ?_, ?_⟩
    · rw [hsteps2]
      simp
    · rw [resultSlotsList_cons, resultSlotsList_cons, resultSlots_of_not_executable p hx]
      exact hslots2
    · intro hc
      rw [hfull2 hc, resultSlotsList_cons, resultSlots_of_not_executable p hx, List.nil_append]

theorem executeManually_trace (item : Step) (p : ProtoItem) (w : World)
    (hx : p.isExecutable = true) :
    DispatchTrace p w (executeManually item p w) := by
  obtain ⟨a1, -⟩ := manualConsole_frame item w
  have hw := executeManually_world item p w
  refine ⟨[Action.console item.ptr (manualConsole item w).1], by rw [hw, a1], ?_, ?_, ?_, ?_⟩
  · simp [stopsAtFatal]
  · intro h
    cases p with
    | step res =>
      right
      simpa [Action.isFatalStep, executeManually] using h
    | concept steps cer => left; rfl
    | other k => left; rfl
  · cases p with
    | step res =>
      exact ⟨rfl, by simp [resultSlots_step, Action.isVisit, Action.isStepExecution], by
        simp [executeManually, resultSlots_step, Action.isVisit, Action.isStepExecution]⟩
    | concept steps cer =>
      exact ⟨rfl, by simp [resultSlots_concept, Action.isVisit, Action.isStepExecution], rfl⟩
    | other k => cases k <;> simp [ProtoItem.isExecutable, ProtoItem.GetItemType] at hx
  · intro hp _
    cases p with
    | step res => simp [resultSlots_step, Action.isVisit, Action.isStepExecution]
    | concept steps cer => simp [executeManually] at hp
    | other k => simp [executeManually] at hp

theorem dispatch_trace (r : Runner) (item : Step) (p : ProtoItem) (w : World)
    (hx : p.isExecutable = true) :
    DispatchTrace p w (if hasUnimplementedError w item = true then executeManually item p w
      else executeItem r item p w) := by
  split
  · exact executeManually_trace item p w hx
  · obtain ⟨d, h1, h2, h3, h4, h5⟩ := executeItem_trace r item p w
    exact ⟨d, h1, h2, fun h => Or.inr (h3 h).2, h4, h5⟩

/-- A run that is not eligible for manual override: `executeItems` walks the
whole list without touching any node or the world. -/
theorem executeItems_not_eligible (env : Env) (r : Runner) (items : List Step)
    (hm : canExecuteManually env = false) (ps : List ProtoItem) :
    ∀ (idx : Nat) (w : World), executeItems env r items idx ps w =
      { protoItems := ps, itemsIndex := idx, world := w, exit := Exit.completed } := by
  induction ps with
  | nil => intro idx w; rfl
  | cons p ps ih =>
    intro idx w
    by_cases hx : p.isExecutable = true
    · simp [executeItems, hx, hm, ih]
    · simp [executeItems, hx, ih]

theorem executeItems_trace (env : Env) (r : Runner) (items : List Step)
    (hm : canExecuteManually env = true) (idx : Nat) (ps : List ProtoItem) (w : World) :
    ItemsTrace ps w (executeItems env r items idx ps w) := by
  refine @executeItems.induct env r items
    (fun idx ps w => ItemsTrace ps w (executeItems env r items idx ps w))
    ?_ ?_ ?_ ?_ ?_ ?_ ?_ ?_ idx ps w
  · intro idx w
    simp only [executeItems]
    exact ⟨[], by simp, rfl, by simp, SlotsTrace_refl _⟩
  · intro idx p rest w hx _ hnone
    simp only [executeItems, hx, hm, hnone, if_true]
    exact ⟨[], by simp, rfl, by simp, SlotsTrace_refl _⟩
  · intro idx p rest w hx _ step hsome out hp
    have ih := dispatch_trace r step p w hx
    simp only [executeItems, hx, hm, hsome, if_true]
    simp only [out] at hp
    simp only [hp, if_true]
    obtain ⟨d, hlog, hstop, hfat, hslots, hfull⟩ := ih
    refine ⟨d, hlog, hstop, fun _ => by simp, ?_⟩
    rw [resultSlotsList_cons, resultSlotsList_cons]
    exact SlotsTrace_append_stop _ hslots
  · intro idx p rest w hx _ step hsome out hp hf hr
    have ih := dispatch_trace r step p w hx
    simp only [executeItems, hx, hm, hsome, if_true]
    simp only [out] at hp hf hr
    simp only [hp, hf, hr, if_true, Bool.false_eq_true, if_false]
    obtain ⟨d, hlog, hstop, hfat, hslots, hfull⟩ := ih
    refine ⟨d, by simp [World.SetFailure, hlog], hstop, fun _ => by simp, ?_⟩
    rw [resultSlotsList_cons, resultSlotsList_cons]
    exact SlotsTrace_append_stop _ hslots
  · intro idx p rest w hx _ step hsome out hp hf hr ih2
    have ih := dispatch_trace r step p w hx
    simp only [executeItems, hx, hm, hsome, if_true]
    simp only [out] at hp hf hr ih2
    simp only [hp, hf, hr, if_true, Bool.false_eq_true, if_false]
    obtain ⟨d, hlog, hstop, hfat, hslots, hfull⟩ := ih
    obtain ⟨d2, hlog2, hstop2, hfat2, hslots2⟩ := ih2
    have hr' : (if hasUnimplementedError w step = true then executeManually step p w
      else executeItem r step p w).recoverable = true := by simpa using hr
    have hnofatal : d.any Action.isFatalStep = false :=
      any_isFatalStep_false_of d _ (by simp [hp, hr']) hfat
    have hcount := hfull (by simpa using hp) (by simp [hr'])
    refine ⟨d ++ d2, ?_, ?_, ?_, ?_⟩
    · rw [hlog2]
      simp [World.SetFailure, hlog]
    · rw [stopsAtFatal_append, hstop, hstop2, hnofatal]
      rfl
    · intro h
      rw [List.any_append, hnofatal, Bool.false_or] at h
      exact hfat2 h
    · rw [resultSlotsList_cons, resultSlotsList_cons]
      exact SlotsTrace_append_full hslots hcount hslots2
  · intro idx p rest w hx _ step hsome out hp hf ih2
    have ih := dispatch_trace r step p w hx
    simp only [executeItems, hx, hm, hsome, if_true]
    simp only [out] at hp hf ih2
    simp only [hp, hf, if_true, Bool.false_eq_true, if_false]
    obtain ⟨d, hlog, hstop, hfat, hslots, hfull⟩ := ih
    obtain ⟨d2, hlog2, hstop2, hfat2, hslots2⟩ := ih2
    have hnofatal : d.any Action.isFatalStep = false :=
      any_isFatalStep_false_of d _ (by simp [hp, hf]) hfat
    have hcount := hfull (by simpa using hp) (by simp [hf])
    refine ⟨d ++ d2, ?_, ?_, ?_, ?_⟩
    · rw [hlog2, hlog, List.append_assoc]
    · rw [stopsAtFatal_append, hstop, hstop2, hnofatal]
      rfl
    · intro h
      rw [List.any_append, hnofatal, Bool.false_or] at h
      exact hfat2 h
    · rw [resultSlotsList_cons, resultSlotsList_cons]
      exact SlotsTrace_append_full hslots hcount hslots2
  · intro idx p rest w hx hm' _
    exact absurd hm hm'
  · intro idx p rest w hx ih2
    simp only [executeItems, hx, Bool.false_eq_true, if_false]
    obtain ⟨d2, hlog2, hstop2, hfat2, hslots2⟩ := ih2
    refine ⟨d2, hlog2, hstop2, hfat2, ?_⟩
    rw [resultSlotsList_cons, resultSlotsList_cons, resultSlots_of_not_executable p hx]
    exact hslots2

theorem isFatalStep_false_of_not_visit (a : Action) (h : a.isVisit = false) :
    a.isFatalStep = false := by
  cases a with
  | event k s => rfl
  | runnerCall m res =>
    cases m <;> first | rfl | simp [Action.isVisit, Action.isStepExecution] at h
  | console p res => simp [Action.isVisit, Action.isStepExecution] at h

theorem isStepExecution_false_of_not_visit (a : Action) (h : a.isVisit = false) :
    a.isStepExecution = false := by
  cases a with
  | event k s => rfl
  | runnerCall m res =>
    cases m <;> first | rfl | simp [Action.isVisit, Action.isStepExecution] at h
  | console p res => simp [Action.isVisit, Action.isStepExecution] at h

theorem any_isFatalStep_of_no_visit (x : List Action) (hx : ∀ a ∈ x, a.isVisit = false) :
    x.any Action.isFatalStep = false := by
  rw [List.any_eq_false]
  intro a ha
  simp [isFatalStep_false_of_not_visit a (hx a ha)]

theorem countP_isVisit_of_no_visit (x : List Action) (hx : ∀ a ∈ x, a.isVisit = false) :
    x.countP Action.isVisit = 0 := by
  rw [List.countP_eq_zero]
  intro a ha
  simp [hx a ha]

/-- Actions that visit no node may surround a trace without changing what it
says about fatal steps and result slots. -/
theorem trace_surround (x d y : List Action) (hx : ∀ a ∈ x, a.isVisit = false)
    (hy : ∀ a ∈ y, a.isVisit = false) (hd : stopsAtFatal d = true)
    (b a : List (Option ProtoStepExecutionResult)) (hs : SlotsTrace d b a) :
    stopsAtFatal (x ++ (d ++ y)) = true ∧ SlotsTrace (x ++ (d ++ y)) b a := by
  have hyall : y.all (fun b => !b.isVisit) = true := by
    rw [List.all_eq_true]
    intro a ha
    simp [hy a ha]
  constructor
  · rw [stopsAtFatal_append, stopsAtFatal_append, hd,
      stopsAtFatal_of_no_fatal x (any_isFatalStep_of_no_visit x hx),
      stopsAtFatal_of_no_fatal y (any_isFatalStep_of_no_visit y hy),
      any_isFatalStep_of_no_visit x hx, hyall]
    simp
  · unfold SlotsTrace at hs ⊢
    rw [List.countP_append, List.countP_append, countP_isVisit_of_no_visit x hx,
      countP_isVisit_of_no_visit y hy, Nat.zero_add, Nat.add_zero]
    exact hs

theorem storeItems_allItems (w : World) (l : List ProtoItem) :
    (w.storeItems l).scenarioResult.allItems = l := by
  simp only [World.storeItems, ScenarioResult.allItems]
  rw [← List.drop_drop, List.take_append_drop, List.take_append_drop]

theorem notifyAfterScenarioHook_allItems (r : Runner) (w : World) :
    (notifyAfterScenarioHook r w).scenarioResult.allItems = w.scenarioResult.allItems := by
  obtain ⟨-, -, -, -, a5, a6, a7, -⟩ := notifyAfterScenarioHook_spec r w
  simp only [ScenarioResult.allItems, a5, a6, a7]

theorem notifyBeforeScenarioHook_allItems (r : Runner) (w : World) :
    (notifyBeforeScenarioHook r w).scenarioResult.allItems = w.scenarioResult.allItems := by
  obtain ⟨-, -, -, -, -, a5, a6, a7, -⟩ := notifyBeforeScenarioHook_spec r w
  simp only [ScenarioResult.allItems, a5, a6, a7]

/-- The trace of `executeItems`, whether or not the run is eligible for manual
override. -/
theorem executeItems_trace_any (env : Env) (r : Runner) (items : List Step) (idx : Nat)
    (ps : List ProtoItem) (w : World) :
    ∃ d, (executeItems env r items idx ps w).world.log = w.log ++ d ∧ stopsAtFatal d = true ∧
      SlotsTrace d (resultSlotsList ps)
        (resultSlotsList (executeItems env r items idx ps w).protoItems) := by
  cases hm : canExecuteManually env with
  | true =>
    obtain ⟨d, h1, h2, -, h4⟩ := executeItems_trace env r items hm idx ps w
    exact ⟨d, h1, h2, h4⟩
  | false =>
    rw [executeItems_not_eligible env r items hm ps idx w]
    exact ⟨[], by simp, rfl, SlotsTrace_refl _⟩

theorem executeAfterBeforeHook_trace (env : Env) (r : Runner) (scenario : Scenario)
    (contexts teardowns : List Step) (w4 : World) :
    ∃ d, (executeAfterBeforeHook env r scenario contexts teardowns w4).1.log = w4.log ++ d ∧
      stopsAtFatal d = true ∧
      SlotsTrace d (resultSlotsList w4.scenarioResult.allItems)
        (resultSlotsList
          (executeAfterBeforeHook env r scenario contexts teardowns w4).1.scenarioResult.allItems)
      := by
  by_cases hf : w4.scenarioResult.failed = true
  · obtain ⟨a1, -⟩ := notifyAfterScenarioHook_spec r w4
    have ha := notifyAfterScenarioHook_allItems r w4
    obtain ⟨t1, t2⟩ := trace_surround [] []
      [Action.runnerCall Message.ScenarioExecutionEnding
        (r w4.log Message.ScenarioExecutionEnding),
       Action.event EventKind.ScenarioEnd (some scenario.ptr)]
      (by simp) (by intro a ha; simp at ha; rcases ha with rfl | rfl <;> rfl) rfl
      _ _ (SlotsTrace_refl (resultSlotsList w4.scenarioResult.allItems))
    refine ⟨_, ?_, t1, ?_⟩
    · simp [executeAfterBeforeHook, hf, World.Notify, a1]
    · have : (executeAfterBeforeHook env r scenario contexts teardowns w4).1.scenarioResult.allItems
          = w4.scenarioResult.allItems := by
        simp only [executeAfterBeforeHook, hf, Bool.not_true, Bool.false_eq_true, if_false]
        exact ha
      rw [this]
      exact t2
  · have hdef : executeAfterBeforeHook env r scenario contexts teardowns w4 =
        if (executeItems env r (contexts ++ (scenario.steps ++ teardowns)) 0
          w4.scenarioResult.allItems w4).exit = Exit.panicked then
          (((executeItems env r (contexts ++ (scenario.steps ++ teardowns)) 0
            w4.scenarioResult.allItems w4).world.storeItems
            (executeItems env r (contexts ++ (scenario.steps ++ teardowns)) 0
            w4.scenarioResult.allItems w4).protoItems).Notify EventKind.ScenarioEnd
              (some scenario.ptr), true)
        else
          ((notifyAfterScenarioHook r ((executeItems env r
            (contexts ++ (scenario.steps ++ teardowns)) 0
            w4.scenarioResult.allItems w4).world.storeItems
            (executeItems env r (contexts ++ (scenario.steps ++ teardowns)) 0
            w4.scenarioResult.allItems w4).protoItems)).Notify EventKind.ScenarioEnd
              (some scenario.ptr), false) := by
      simp [executeAfterBeforeHook, hf, ScenarioResult.allItems]
    have ht := executeItems_trace_any env r (contexts ++ (scenario.steps ++ teardowns)) 0
      w4.scenarioResult.allItems w4
    rw [hdef]
    generalize executeItems env r (contexts ++ (scenario.steps ++ teardowns)) 0
      w4.scenarioResult.allItems w4 = out at ht
    obtain ⟨d, h1, h2, h3⟩ := ht
    by_cases hp : out.exit = Exit.panicked
    · obtain ⟨t1, t2⟩ := trace_surround [] d
        [Action.event EventKind.ScenarioEnd (some scenario.ptr)]
        (by simp) (by intro a ha; simp at ha; rw [ha]; rfl) h2 _ _ h3
      refine ⟨_, ?_, t1, ?_⟩
      · simp [hp, World.Notify, World.storeItems, h1]
      · simp only [hp, if_true]
        have : ((out.world.storeItems out.protoItems).Notify EventKind.ScenarioEnd
            (some scenario.ptr)).scenarioResult.allItems = out.protoItems :=
          storeItems_allItems out.world out.protoItems
        rw [this]
        exact t2
    · obtain ⟨a1, -⟩ := notifyAfterScenarioHook_spec r (out.world.storeItems out.protoItems)
      have ha := notifyAfterScenarioHook_allItems r (out.world.storeItems out.protoItems)
      rw [storeItems_allItems] at ha
      obtain ⟨t1, t2⟩ := trace_surround [] d
        [Action.runnerCall Message.ScenarioExecutionEnding
          (r (out.world.storeItems out.protoItems).log Message.ScenarioExecutionEnding),
         Action.event EventKind.ScenarioEnd (some scenario.ptr)]
        (by simp) (by intro a ha; simp at ha; rcases ha with rfl | rfl <;> rfl) h2 _ _ h3
      refine ⟨_, ?_, t1, ?_⟩
      · simp only [hp, if_false, World.Notify, a1]
        have : (out.world.storeItems out.protoItems).log = out.world.log := rfl
        rw [this, h1]
        simp
      · simp only [hp, if_false]
        have : ((notifyAfterScenarioHook r (out.world.storeItems out.protoItems)).Notify
            EventKind.ScenarioEnd (some scenario.ptr)).scenarioResult.allItems
            = out.protoItems := ha
        rw [this]
        exact t2

/-- The trace of a call of `execute`: it never visits a node after a
non-recoverably failed step, and the result slots beyond the visited nodes are
as they were. -/
theorem execute_trace (env : Env) (r : Runner) (scenario : Scenario)
    (contexts teardowns : List Step) (w : World) :
    ∃ d, (execute env r scenario contexts teardowns w).1.log = w.log ++ d ∧
      stopsAtFatal d = true ∧
      SlotsTrace d (resultSlotsList w.scenarioResult.allItems)
        (resultSlotsList
          (execute env r scenario contexts teardowns w).1.scenarioResult.allItems) := by
  have hlog : (gateWorld scenario w).log = w.log := by
    unfold gateWorld
    split <;> rfl
  have hitems : (gateWorld scenario w).scenarioResult.allItems = w.scenarioResult.allItems := by
    unfold gateWorld
    split <;> rfl
  rw [execute_eq]
  by_cases hb : hasBlockingError (gateWorld scenario w) scenario = true
  · rw [if_pos hb]
    obtain ⟨t1, t2⟩ := trace_surround [] []
      [Action.event EventKind.ScenarioStart (some scenario.ptr),
       Action.event EventKind.ScenarioEnd (some scenario.ptr)]
      (by simp) (by intro a ha; simp at ha; rcases ha with rfl | rfl <;> rfl) rfl
      _ _ (SlotsTrace_refl (resultSlotsList w.scenarioResult.allItems))
    refine ⟨_, ?_, t1, ?_⟩
    · simp [setSkipInfoInResult, World.Notify, hlog]
    · have : (((setSkipInfoInResult scenario (gateWorld scenario w)).Notify
          EventKind.ScenarioStart (some scenario.ptr)).Notify EventKind.ScenarioEnd
          (some scenario.ptr), false).1.scenarioResult.allItems = w.scenarioResult.allItems :=
        hitems
      rw [this]
      exact t2
  · rw [if_neg hb]
    by_cases hi : (initScenarioDataStore r ((gateWorld scenario w).Notify EventKind.ScenarioStart
          (some scenario.ptr))).1.failed = true
    · rw [if_pos hi]
      obtain ⟨t1, t2⟩ := trace_surround [] []
        [Action.event EventKind.ScenarioStart (some scenario.ptr),
         Action.runnerCall Message.ScenarioDataStoreInit
          (r (w.log ++ [Action.event EventKind.ScenarioStart (some scenario.ptr)])
            Message.ScenarioDataStoreInit),
         Action.event EventKind.ScenarioEnd (some scenario.ptr)]
        (by simp) (by intro a ha; simp at ha; rcases ha with rfl | rfl | rfl <;> rfl) rfl
        _ _ (SlotsTrace_refl (resultSlotsList w.scenarioResult.allItems))
      refine ⟨_, ?_, t1, ?_⟩
      · simp [handleScenarioDataStoreFailure, setSkipInfoInResult, World.Notify,
          initScenarioDataStore, ExecuteAndGetStatus, hlog]
      · have : ((handleScenarioDataStoreFailure scenario
          ("Failed to initialize scenario datastore. Error: " ++
            (initScenarioDataStore r ((gateWorld scenario w).Notify EventKind.ScenarioStart
              (some scenario.ptr))).1.errorMessage)
          (initScenarioDataStore r ((gateWorld scenario w).Notify EventKind.ScenarioStart
              (some scenario.ptr))).2).Notify EventKind.ScenarioEnd (some scenario.ptr),
              false).1.scenarioResult.allItems = w.scenarioResult.allItems := hitems
        rw [this]
        exact t2
    · rw [if_neg hi]
      obtain ⟨b1, -⟩ := notifyBeforeScenarioHook_spec r (initScenarioDataStore r
        ((gateWorld scenario w).Notify EventKind.ScenarioStart (some scenario.ptr))).2
      have hb4 : (notifyBeforeScenarioHook r (initScenarioDataStore r
          ((gateWorld scenario w).Notify EventKind.ScenarioStart
            (some scenario.ptr))).2).scenarioResult.allItems = w.scenarioResult.allItems :=
        (notifyBeforeScenarioHook_allItems r _).trans hitems
      obtain ⟨d, h1, h2, h3⟩ := executeAfterBeforeHook_trace env r scenario contexts teardowns
        (notifyBeforeScenarioHook r (initScenarioDataStore r
          ((gateWorld scenario w).Notify EventKind.ScenarioStart (some scenario.ptr))).2)
      rw [hb4] at h3
      obtain ⟨t1, t2⟩ := trace_surround
        [Action.event EventKind.ScenarioStart (some scenario.ptr),
         Action.runnerCall Message.ScenarioDataStoreInit
          (r (w.log ++ [Action.event EventKind.ScenarioStart (some scenario.ptr)])
            Message.ScenarioDataStoreInit),
         Action.runnerCall Message.ScenarioExecutionStarting
          (r (initScenarioDataStore r ((gateWorld scenario w).Notify EventKind.ScenarioStart
            (some scenario.ptr))).2.log Message.ScenarioExecutionStarting)] d []
        (by intro a ha; simp at ha; rcases ha with rfl | rfl | rfl <;> rfl) (by simp) h2 _ _ h3
      rw [List.append_nil] at t1 t2
      refine ⟨_, ?_, t1, t2⟩
      rw [h1, b1]
      simp [initScenarioDataStore, ExecuteAndGetStatus, World.Notify, hlog]


/-! ### Claims about the dispatch gate -/

/-- Claim C1, checked on the code at a failing input: in an ordinary run (not
eligible for manual override) `executeItems` meets the executable step node of
step `A`, and leaves it without a result, sends nothing to the Runner and does
not advance `itemsIndex`; the claim says the step is sent to the Runner and the
result attached. -/
theorem executeItems_plain_run_executes_nothing :
    canExecuteManually exEnvPlain = false ∧
    (ProtoItem.step none).isExecutable = true ∧
    (executeItems exEnvPlain exRunnerRecoverable [exStepA] 0 [ProtoItem.step none]
      exWorld).protoItems.map ProtoItem.executionResult = [none] ∧
    (executeItems exEnvPlain exRunnerRecoverable [exStepA] 0 [ProtoItem.step none]
      exWorld).world.log = [] ∧
    (executeItems exEnvPlain exRunnerRecoverable [exStepA] 0 [ProtoItem.step none]
      exWorld).itemsIndex = 0 ∧
    (executeItems exEnvPlain exRunnerRecoverable [exStepA] 0 [ProtoItem.step none]
      exWorld).world.scenarioResult.failed = false := by
  decide

/-- Claim C2, checked on the code at a failing input: the scenario `[A, B]`
passes the gate, the data-store init and the before-hook, the Runner would
report `A` failed recoverably and `B` passed, and yet in an ordinary run
`execute` sends neither step to the Runner, leaves the scenario result not
failed and leaves the node of `B` without a result.  In the same run made
eligible for manual override both steps are executed, the result is failed and
the node of `B` carries a passing result. -/
theorem execute_plain_run_skips_recoverable_pair :
    canExecuteManually exEnvPlain = false ∧
    exRunnerRecoverable [] (Message.ExecuteStep exStepA.ptr exStepA.value) = exRecoverable ∧
    exRunnerRecoverable [] (Message.ExecuteStep exStepB.ptr exStepB.value) = exPassed ∧
    (execute exEnvPlain exRunnerRecoverable exScenario [] [] exWorld).1.log
      = [Action.event EventKind.ScenarioStart (some 10),
         Action.runnerCall Message.ScenarioDataStoreInit exPassed,
         Action.runnerCall Message.ScenarioExecutionStarting exPassed,
         Action.runnerCall Message.ScenarioExecutionEnding exPassed,
         Action.event EventKind.ScenarioEnd (some 10)] ∧
    (execute exEnvPlain exRunnerRecoverable exScenario [] [] exWorld).1.scenarioResult.failed
      = false ∧
    (execute exEnvPlain exRunnerRecoverable exScenario [] []
      exWorld).1.scenarioResult.scenarioItems.map ProtoItem.executionResult = [none, none] ∧
    canExecuteManually exEnvManual = true ∧
    (execute exEnvManual exRunnerRecoverable exScenario [] [] exWorld).1.log
      = [Action.event EventKind.ScenarioStart (some 10),
         Action.runnerCall Message.ScenarioDataStoreInit exPassed,
         Action.runnerCall Message.ScenarioExecutionStarting exPassed,
         Action.runnerCall (Message.ExecuteStep 1 "step A") exRecoverable,
         Action.runnerCall (Message.ExecuteStep 2 "step B") exPassed,
         Action.runnerCall Message.ScenarioExecutionEnding exPassed,
         Action.event EventKind.ScenarioEnd (some 10)] ∧
    (execute exEnvManual exRunnerRecoverable exScenario [] [] exWorld).1.scenarioResult.failed
      = true ∧
    (execute exEnvManual exRunnerRecoverable exScenario [] []
      exWorld).1.scenarioResult.scenarioItems.map ProtoItem.executionResult
      = [some exRecoverable, some exPassed] := by
  decide

/-! ### Claims about failure propagation -/

/-- Claim C3: in every call of `execute`, whatever follows a non-recoverably
failed step execution `a` in the trace (a step at any nesting depth, answered by
the Runner or at the manual console) executes no step and visits no result
node; and every result slot after the nodes visited up to `a`, in document
order of the flattened contexts, body and teardown items with their nested
concepts, is as it was before the call. -/
theorem execute_stops_after_fatal_step (env : Env) (r : Runner) (scenario : Scenario)
    (contexts teardowns : List Step) (w : World) (front back : List Action) (a : Action)
    (hlog : (execute env r scenario contexts teardowns w).1.log = w.log ++ (front ++ a :: back))
    (hfatal : a.isFatalStep = true) :
    (∀ b ∈ back, b.isStepExecution = false ∧ b.isVisit = false) ∧
    (resultSlotsList
        (execute env r scenario contexts teardowns w).1.scenarioResult.allItems).length
      = (resultSlotsList w.scenarioResult.allItems).length ∧
    (resultSlotsList
        (execute env r scenario contexts teardowns w).1.scenarioResult.allItems).drop
          ((front ++ [a]).countP Action.isVisit)
      = (resultSlotsList w.scenarioResult.allItems).drop
          ((front ++ [a]).countP Action.isVisit) := by
  obtain ⟨d, h1, h2, h3, h4, h5⟩ := execute_trace env r scenario contexts teardowns w
  have hd : d = front ++ a :: back := List.append_cancel_left (h1.symm.trans hlog)
  subst hd
  have hback : ∀ b ∈ back, b.isVisit = false := by
    rw [stopsAtFatal_append, stopsAtFatal_cons, hfatal] at h2
    simp only [Bool.and_eq_true, Bool.not_true, Bool.false_or, List.all_eq_true,
      Bool.not_eq_true'] at h2
    exact h2.1.2.1
  have hcount : (front ++ a :: back).countP Action.isVisit
      = (front ++ [a]).countP Action.isVisit := by
    have : front ++ a :: back = (front ++ [a]) ++ back := by simp
    rw [this, List.countP_append, countP_isVisit_of_no_visit back hback, Nat.add_zero]
  rw [hcount] at h5
  exact ⟨fun b hb => ⟨isStepExecution_false_of_not_visit b (hback b hb), hback b hb⟩, h3, h5⟩

/-- Witness of C3: the scenario `[concept AB, D]` in a run eligible for manual
override, where `A`, the first child of the concept, fails non-recoverably. -/
theorem execute_stops_after_fatal_step_witness :
    ((execute exEnvManual exRunnerFatal exScenarioNested [] [] exWorldNested).1.log
      = exWorldNested.log ++
        ([Action.event EventKind.ScenarioStart (some 12),
          Action.runnerCall Message.ScenarioDataStoreInit exPassed,
          Action.runnerCall Message.ScenarioExecutionStarting exPassed,
          Action.event EventKind.ConceptStart (some 5)] ++
         Action.runnerCall (Message.ExecuteStep 1 "step A") exFatal ::
         [Action.event EventKind.ConceptEnd none,
          Action.runnerCall Message.ScenarioExecutionEnding exPassed,
          Action.event EventKind.ScenarioEnd (some 12)])) ∧
    (Action.runnerCall (Message.ExecuteStep 1 "step A") exFatal).isFatalStep = true ∧
    ((∀ b ∈ [Action.event EventKind.ConceptEnd none,
          Action.runnerCall Message.ScenarioExecutionEnding exPassed,
          Action.event EventKind.ScenarioEnd (some 12)],
        b.isStepExecution = false ∧ b.isVisit = false) ∧
      (resultSlotsList (execute exEnvManual exRunnerFatal exScenarioNested [] []
          exWorldNested).1.scenarioResult.allItems).length
        = (resultSlotsList exWorldNested.scenarioResult.allItems).length ∧
      (resultSlotsList (execute exEnvManual exRunnerFatal exScenarioNested [] []
          exWorldNested).1.scenarioResult.allItems).drop
          (([Action.event EventKind.ScenarioStart (some 12),
            Action.runnerCall Message.ScenarioDataStoreInit exPassed,
            Action.runnerCall Message.ScenarioExecutionStarting exPassed,
            Action.event EventKind.ConceptStart (some 5)] ++
            [Action.runnerCall (Message.ExecuteStep 1 "step A") exFatal]).countP Action.isVisit)
        = (resultSlotsList exWorldNested.scenarioResult.allItems).drop
          (([Action.event EventKind.ScenarioStart (some 12),
            Action.runnerCall Message.ScenarioDataStoreInit exPassed,
            Action.runnerCall Message.ScenarioExecutionStarting exPassed,
            Action.event EventKind.ConceptStart (some 5)] ++
            [Action.runnerCall (Message.ExecuteStep 1 "step A") exFatal]).countP
              Action.isVisit)) :=
  ⟨by decide, by decide,
    execute_stops_after_fatal_step exEnvManual exRunnerFatal exScenarioNested [] []
      exWorldNested _ _ _ (by decide) (by decide)⟩

/-! ### Scenario events -/

/-- Claim C10: every call of `execute`, on every exit path (validation skip,
data-store-init failure, before-hook failure, non-recoverable step failure,
normal completion, and also a panic of the walk), publishes exactly one
scenario-start event and exactly one scenario-end event, the start before the
end: the trace of the call is scenario-start, then actions none of which is a
scenario event, then scenario-end. -/
theorem execute_scenario_event_pair (env : Env) (r : Runner) (scenario : Scenario)
    (contexts teardowns : List Step) (w : World) :
    ∃ d mid : List Action,
      (execute env r scenario contexts teardowns w).1.log = w.log ++ d ∧
      d = Action.event EventKind.ScenarioStart (some scenario.ptr) ::
            (mid ++ [Action.event EventKind.ScenarioEnd (some scenario.ptr)]) ∧
      (∀ a ∈ mid, a.isScenarioEvent = false) ∧
      d.countP Action.isScenarioStart = 1 ∧
      d.countP Action.isScenarioEnd = 1 := by
  obtain ⟨mid, h1, h2⟩ := execute_scenario_events_shape env r scenario contexts teardowns w
  have hs : mid.countP Action.isScenarioStart = 0 := by
    rw [List.countP_eq_zero]
    intro a ha
    have := h2 a ha
    cases a with
    | event k s => cases k <;> simp_all [Action.isScenarioEvent, Action.isScenarioStart]
    | runnerCall m res => simp [Action.isScenarioStart]
    | console p res => simp [Action.isScenarioStart]
  have he : mid.countP Action.isScenarioEnd = 0 := by
    rw [List.countP_eq_zero]
    intro a ha
    have := h2 a ha
    cases a with
    | event k s => cases k <;> simp_all [Action.isScenarioEvent, Action.isScenarioEnd]
    | runnerCall m res => simp [Action.isScenarioEnd]
    | console p res => simp [Action.isScenarioEnd]
  refine ⟨_, mid, h1, rfl, h2, ?_, ?_⟩
  · simp [List.countP_cons, List.countP_append, hs, Action.isScenarioStart]
  · simp [List.countP_cons, List.countP_append, he, Action.isScenarioEnd]

/-! ### Witnesses and counterexamples -/

/-- Witness of C4: the concept `[B, A, D]` (N = 3) whose second child `A` fails
non-recoverably (k = 2): the final `conceptStepIndex` is 2 and the node of `D`
is returned as it was. -/
theorem executeConcept_fatal_child_witness :
    (ProtoItem.step none).isExecutable = true ∧
    (executeConceptLoop exRunnerFatal exConceptBAD.conceptSteps 0 [] none [ProtoItem.step none]
      (exWorld.Notify EventKind.ConceptStart (some exConceptBAD.ptr))).exit = Exit.completed ∧
    ((executeConcept exRunnerFatal exConceptBAD
        ([ProtoItem.step none] ++ ProtoItem.step none :: [ProtoItem.step none]) none exWorld).steps
      = (executeConceptLoop exRunnerFatal exConceptBAD.conceptSteps 0 [] none [ProtoItem.step none]
          (exWorld.Notify EventKind.ConceptStart (some exConceptBAD.ptr))).steps ++
        (executeItem exRunnerFatal exStepA (ProtoItem.step none)
          (executeConceptLoop exRunnerFatal exConceptBAD.conceptSteps 0 [] none
            [ProtoItem.step none]
            (exWorld.Notify EventKind.ConceptStart (some exConceptBAD.ptr))).world).protoItem ::
          [ProtoItem.step none] ∧
    (executeConcept exRunnerFatal exConceptBAD
        ([ProtoItem.step none] ++ ProtoItem.step none :: [ProtoItem.step none]) none
        exWorld).conceptStepIndex
      = ([ProtoItem.step none].filter ProtoItem.isExecutable).length + 1 ∧
    (executeConcept exRunnerFatal exConceptBAD
        ([ProtoItem.step none] ++ ProtoItem.step none :: [ProtoItem.step none]) none exWorld).world
      = ((executeItem exRunnerFatal exStepA (ProtoItem.step none)
          (executeConceptLoop exRunnerFatal exConceptBAD.conceptSteps 0 [] none
            [ProtoItem.step none]
            (exWorld.Notify EventKind.ConceptStart
              (some exConceptBAD.ptr))).world).world.SetFailure).Notify
            EventKind.ConceptEnd none ∧
    (executeConcept exRunnerFatal exConceptBAD
        ([ProtoItem.step none] ++ ProtoItem.step none :: [ProtoItem.step none]) none exWorld).exit
      = Exit.halted ∧
    ConceptResultGetFailed
      (executeConcept exRunnerFatal exConceptBAD
        ([ProtoItem.step none] ++ ProtoItem.step none :: [ProtoItem.step none]) none
        exWorld).conceptExecutionResult = true) :=
  ⟨by decide, by decide,
    executeConcept_fatal_child exRunnerFatal exConceptBAD exStepA [ProtoItem.step none]
      (ProtoItem.step none) [ProtoItem.step none] none exWorld (by decide) (by decide) rfl
      (by decide) (by decide) (by decide)⟩

/-- Witness of C5: the scenario without body steps, with two validation errors
already recorded for it. -/
theorem execute_zero_steps_witness :
    exScenarioEmpty.steps = [] ∧
    ((execute exEnvManual exRunnerFatal exScenarioEmpty [exStepA] [exStepB]
        (exWorldErrs [exUnimplemented, exUnimplemented])).1.scenarioResult.skipped = true ∧
    (execute exEnvManual exRunnerFatal exScenarioEmpty [exStepA] [exStepB]
        (exWorldErrs [exUnimplemented, exUnimplemented])).1.scenarioResult.failed
      = (exWorldErrs [exUnimplemented, exUnimplemented]).scenarioResult.failed ∧
    (execute exEnvManual exRunnerFatal exScenarioEmpty [exStepA] [exStepB]
        (exWorldErrs [exUnimplemented, exUnimplemented])).1.currentExecutionInfo
      = (exWorldErrs [exUnimplemented, exUnimplemented]).currentExecutionInfo ∧
    (execute exEnvManual exRunnerFatal exScenarioEmpty [exStepA] [exStepB]
        (exWorldErrs [exUnimplemented, exUnimplemented])).1.log
      = (exWorldErrs [exUnimplemented, exUnimplemented]).log ++
        [Action.event EventKind.ScenarioStart (some exScenarioEmpty.ptr),
         Action.event EventKind.ScenarioEnd (some exScenarioEmpty.ptr)] ∧
    (execute exEnvManual exRunnerFatal exScenarioEmpty [exStepA] [exStepB]
        (exWorldErrs [exUnimplemented, exUnimplemented])).2 = false) :=
  ⟨rfl, execute_zero_steps exEnvManual exRunnerFatal exScenarioEmpty [exStepA] [exStepB]
    (exWorldErrs [exUnimplemented, exUnimplemented]) rfl⟩

/-- Claim C6 fails as stated: the scenario without body steps has two recorded
validation errors, one of them not an "unimplemented step" error, and `execute`
skips it with a skip-reason list of length one: the two recorded errors were
replaced by the single synthesized "No steps found" error. -/
theorem execute_zero_steps_replaces_recorded_errors :
    (exWorldErrs [exDuplicate, exUnimplemented]).errMap.scenarioErrs exScenarioEmpty.ptr
      = some [exDuplicate, exUnimplemented] ∧
    exDuplicate ∈ [exDuplicate, exUnimplemented] ∧
    exDuplicate.IsUnimplementedError = false ∧
    (execute exEnvPlain exRunnerFatal exScenarioEmpty [] []
      (exWorldErrs [exDuplicate, exUnimplemented])).1.scenarioResult.skipped = true ∧
    (execute exEnvPlain exRunnerFatal exScenarioEmpty [] []
      (exWorldErrs [exDuplicate, exUnimplemented])).1.scenarioResult.skipErrors
      = ["a.spec:7 No steps found in scenario"] ∧
    (execute exEnvPlain exRunnerFatal exScenarioEmpty [] []
      (exWorldErrs [exDuplicate, exUnimplemented])).1.scenarioResult.skipErrors.length
      ≠ [exDuplicate, exUnimplemented].length := by
  decide

/-- Witness of C6 as amended: the scenario `[A, B]` with two recorded validation
errors, the first of them a duplicate-implementation error. -/
theorem execute_blocking_witness :
    (exWorldErrs [exDuplicate, exUnimplemented]).errMap.scenarioErrs exScenario.ptr
      = some [exDuplicate, exUnimplemented] ∧
    exDuplicate ∈ [exDuplicate, exUnimplemented] ∧
    exDuplicate.IsUnimplementedError = false ∧
    ((execute exEnvManual exRunnerFatal exScenario [] []
        (exWorldErrs [exDuplicate, exUnimplemented])).1.scenarioResult.skipped = true ∧
    (execute exEnvManual exRunnerFatal exScenario [] []
        (exWorldErrs [exDuplicate, exUnimplemented])).1.scenarioResult.skipErrors
      = (((execute exEnvManual exRunnerFatal exScenario [] []
            (exWorldErrs [exDuplicate, exUnimplemented])).1.errMap.scenarioErrs
            exScenario.ptr).getD []).map StepValidationError.Error ∧
    (exScenario.steps ≠ [] →
      (execute exEnvManual exRunnerFatal exScenario [] []
          (exWorldErrs [exDuplicate, exUnimplemented])).1.errMap.scenarioErrs exScenario.ptr
          = some [exDuplicate, exUnimplemented] ∧
      (execute exEnvManual exRunnerFatal exScenario [] []
          (exWorldErrs [exDuplicate, exUnimplemented])).1.scenarioResult.skipErrors
          = [exDuplicate, exUnimplemented].map StepValidationError.Error ∧
      (execute exEnvManual exRunnerFatal exScenario [] []
          (exWorldErrs [exDuplicate, exUnimplemented])).1.scenarioResult.skipErrors.length
          = [exDuplicate, exUnimplemented].length) ∧
    (exScenario.steps = [] →
      (execute exEnvManual exRunnerFatal exScenario [] []
          (exWorldErrs [exDuplicate, exUnimplemented])).1.scenarioResult.skipErrors
          = [(exWorldErrs [exDuplicate, exUnimplemented]).currentExecutionInfo.specFileName
              ++ ":" ++ toString exScenario.heading.lineNo ++ " No steps found in scenario"]) ∧
    (execute exEnvManual exRunnerFatal exScenario [] []
        (exWorldErrs [exDuplicate, exUnimplemented])).1.log
      = (exWorldErrs [exDuplicate, exUnimplemented]).log ++
        [Action.event EventKind.ScenarioStart (some exScenario.ptr),
         Action.event EventKind.ScenarioEnd (some exScenario.ptr)] ∧
    (execute exEnvManual exRunnerFatal exScenario [] []
        (exWorldErrs [exDuplicate, exUnimplemented])).2 = false) :=
  ⟨rfl, by decide, rfl,
    execute_blocking exEnvManual exRunnerFatal exScenario [] []
      (exWorldErrs [exDuplicate, exUnimplemented]) [exDuplicate, exUnimplemented] rfl
      exDuplicate (by decide) rfl⟩

/-- Claim C7 fails as stated: the only validation error of the scenario `[A, B]`
is an "unimplemented step" error, the data-store init fails, and `execute`
marks the scenario skipped and never invokes the before-scenario hook. -/
theorem execute_unimplemented_only_skipped_on_init_failure :
    (exWorldErrs [exUnimplemented]).errMap.scenarioErrs exScenario.ptr
      = some [exUnimplemented] ∧
    (∀ e ∈ [exUnimplemented], e.IsUnimplementedError = true) ∧
    (execute exEnvManual exRunnerDiskFull exScenario [] []
      (exWorldErrs [exUnimplemented])).1.scenarioResult.skipped = true ∧
    (execute exEnvManual exRunnerDiskFull exScenario [] []
      (exWorldErrs [exUnimplemented])).1.log.any Action.isBeforeHook = false ∧
    (execute exEnvManual exRunnerDiskFull exScenario [] []
      (exWorldErrs [exUnimplemented])).1.log
      = [Action.event EventKind.ScenarioStart (some 10),
         Action.runnerCall Message.ScenarioDataStoreInit exDiskFull,
         Action.event EventKind.ScenarioEnd (some 10)] := by
  decide

/-- Witness of C7 as amended: the scenario `[A, B]` whose only validation error
is an "unimplemented step" error, with a Runner whose data-store init passes. -/
theorem execute_unimplemented_only_witness :
    exScenario.steps ≠ [] ∧
    (initResponse exRunnerFatal exScenario (exWorldErrs [exUnimplemented])).failed = false ∧
    ((execute exEnvManual exRunnerFatal exScenario [] []
        (exWorldErrs [exUnimplemented])).1.scenarioResult.skipped = false ∧
      ∃ later : List Action,
        (execute exEnvManual exRunnerFatal exScenario [] [] (exWorldErrs [exUnimplemented])).1.log
          = (exWorldErrs [exUnimplemented]).log ++
            [Action.event EventKind.ScenarioStart (some exScenario.ptr),
             Action.runnerCall Message.ScenarioDataStoreInit
              (initResponse exRunnerFatal exScenario (exWorldErrs [exUnimplemented])),
             Action.runnerCall Message.ScenarioExecutionStarting
              (beforeHookResponse exRunnerFatal exScenario (exWorldErrs [exUnimplemented]))]
            ++ later) :=
  ⟨List.cons_ne_nil _ _, rfl,
    execute_unimplemented_only exEnvManual exRunnerFatal exScenario [] []
      (exWorldErrs [exUnimplemented]) (List.cons_ne_nil _ _)
      (by
        intro errs herrs e he
        have h : errs = [exUnimplemented] := (Option.some.inj herrs).symm
        subst h
        simp only [List.mem_singleton] at he
        subst he
        rfl)
      rfl⟩

/-- Witness of C8: the init response fails with the message "disk full". -/
theorem execute_datastore_failure_witness :
    passesGate exWorld exScenario ∧
    (initResponse exRunnerDiskFull exScenario exWorld).failed = true ∧
    (initResponse exRunnerDiskFull exScenario exWorld).errorMessage = "disk full" ∧
    ((execute exEnvManual exRunnerDiskFull exScenario [] [] exWorld).1.scenarioResult.skipped
        = true ∧
      (execute exEnvManual exRunnerDiskFull exScenario [] [] exWorld).1.scenarioResult.skipErrors
        = ["Failed to initialize scenario datastore. Error: " ++ "disk full"] ∧
      (∃ reason ∈ (execute exEnvManual exRunnerDiskFull exScenario [] []
          exWorld).1.scenarioResult.skipErrors,
        ∃ front : String, reason = front ++ "disk full") ∧
      (execute exEnvManual exRunnerDiskFull exScenario [] [] exWorld).1.log
        = exWorld.log ++ [Action.event EventKind.ScenarioStart (some exScenario.ptr),
            Action.runnerCall Message.ScenarioDataStoreInit
              (initResponse exRunnerDiskFull exScenario exWorld),
            Action.event EventKind.ScenarioEnd (some exScenario.ptr)] ∧
      (execute exEnvManual exRunnerDiskFull exScenario [] [] exWorld).2 = false) :=
  ⟨⟨List.cons_ne_nil _ _, rfl⟩, rfl, rfl,
    execute_datastore_failure exEnvManual exRunnerDiskFull exScenario [] [] exWorld "disk full"
      ⟨List.cons_ne_nil _ _, rfl⟩ rfl rfl⟩

/-- Claim C9 fails as stated: in a run eligible for manual override the scenario
`[A, B]` comes with three step nodes.  The gate and the data-store init pass,
`A` and `B` are executed, and the third node indexes the Step list out of range:
the call panics, and the after-scenario hook is not invoked (only the deferred
scenario-end event is published), so it is not invoked "exactly once,
unconditionally". -/
theorem execute_panic_skips_after_hook :
    passesGate exWorldThreeNodes exScenario ∧
    (initResponse (fun _ _ => exPassed) exScenario exWorldThreeNodes).failed = false ∧
    (execute exEnvManual (fun _ _ => exPassed) exScenario [] [] exWorldThreeNodes).2 = true ∧
    (execute exEnvManual (fun _ _ => exPassed) exScenario [] [] exWorldThreeNodes).1.log
      = [Action.event EventKind.ScenarioStart (some 10),
         Action.runnerCall Message.ScenarioDataStoreInit exPassed,
         Action.runnerCall Message.ScenarioExecutionStarting exPassed,
         Action.runnerCall (Message.ExecuteStep 1 "step A") exPassed,
         Action.runnerCall (Message.ExecuteStep 2 "step B") exPassed,
         Action.event EventKind.ScenarioEnd (some 10)] ∧
    (execute exEnvManual (fun _ _ => exPassed) exScenario [] []
      exWorldThreeNodes).1.log.countP Action.isAfterHook = 0 :=
  ⟨⟨List.cons_ne_nil _ _, rfl⟩, rfl, by decide, by decide, by decide⟩

/-- Witness of C9: the before-scenario hook fails. -/
theorem execute_after_hook_once_witness :
    passesGate exWorld exScenario ∧
    (initResponse exRunnerHookFails exScenario exWorld).failed = false ∧
    (execute exEnvManual exRunnerHookFails exScenario [] [] exWorld).2 = false ∧
    (beforeHookResponse exRunnerHookFails exScenario exWorld).failed = true ∧
    (∃ d : List Action,
      (execute exEnvManual exRunnerHookFails exScenario [] [] exWorld).1.log = exWorld.log ++ d ∧
      d.countP Action.isAfterHook = 1 ∧
      ((beforeHookResponse exRunnerHookFails exScenario exWorld).failed = true →
        (execute exEnvManual exRunnerHookFails exScenario [] [] exWorld).1.scenarioResult.failed
          = true ∧
        (execute exEnvManual exRunnerHookFails exScenario [] []
          exWorld).1.currentExecutionInfo.scenarioIsFailed = true ∧
        (∀ a ∈ d, a.isItemAction = false) ∧
        (execute exEnvManual exRunnerHookFails exScenario [] [] exWorld).1.scenarioResult.contexts
          = exWorld.scenarioResult.contexts ∧
        (execute exEnvManual exRunnerHookFails exScenario [] []
          exWorld).1.scenarioResult.scenarioItems = exWorld.scenarioResult.scenarioItems ∧
        (execute exEnvManual exRunnerHookFails exScenario [] []
          exWorld).1.scenarioResult.tearDownSteps = exWorld.scenarioResult.tearDownSteps)) :=
  ⟨⟨List.cons_ne_nil _ _, rfl⟩, rfl, by decide, rfl,
    execute_after_hook_once exEnvManual exRunnerHookFails exScenario [] [] exWorld
      ⟨List.cons_ne_nil _ _, rfl⟩ rfl (by decide)⟩

/-! ### The manual console -/

/-- Claim C11, checked on the code at a failing input: in a run eligible for
manual override, step `A` of the scenario `[A, B]` is "unimplemented" and the
human types `F`, then `Y` at the prompt "Halt scenario execution? (Y/N)".  The
synthesized result has `recoverable = true` and the walk goes on to execute `B`;
the claim says `recoverable = false` and no later item executed. -/
theorem manualConsole_halt_answer_continues :
    canExecuteManually exEnvManual = true ∧
    hasUnimplementedError exWorldManual exStepA = true ∧
    exWorldManual.stdin = ["F", "Y", "done\x1d"] ∧
    (manualConsole exStepA exWorldManual).1.failed = true ∧
    (manualConsole exStepA exWorldManual).1.recoverableError = true ∧
    (execute exEnvManual exRunnerFatal exScenario [] [] exWorldManual).1.log
      = [Action.event EventKind.ScenarioStart (some 10),
         Action.runnerCall Message.ScenarioDataStoreInit exPassed,
         Action.runnerCall Message.ScenarioExecutionStarting exPassed,
         Action.console 1 { failed := true, recoverableError := true, errorMessage := "",
                            message := ["done\x1d"] },
         Action.runnerCall (Message.ExecuteStep 2 "step B") exPassed,
         Action.runnerCall Message.ScenarioExecutionEnding exPassed,
         Action.event EventKind.ScenarioEnd (some 10)] ∧
    (execute exEnvManual exRunnerFatal exScenario [] []
      exWorldManual).1.scenarioResult.scenarioItems.map ProtoItem.executionResult
      = [some { failed := true, recoverableError := true, errorMessage := "",
                message := ["done\x1d"] },
         some exPassed] := by
  decide

/-- Claim C12, checked on the code at a failing input: the one annotation line
is `done` followed by the terminator byte `0x1D`.  The message list of the
synthesized result is that line as read, terminator included; the claim says
the list is `["done"]`. -/
theorem manualConsole_message_keeps_terminator :
    ("done\x1d").data.getLast? = some (Char.ofNat 0x1D) ∧
    readMessages ["done\x1d"] = (["done\x1d"], []) ∧
    (manualConsole exStepA exWorldManual).1.message = ["done\x1d"] ∧
    (manualConsole exStepA exWorldManual).1.message ≠ ["done"] ∧
    (manualConsole exStepA exWorldManual).1.message.any
      (fun m => m.data.contains (Char.ofNat 0x1D)) = true := by
  decide

/-- Claim C13 fails as stated: the human enters `X`, which is not `P`, and the
step is marked passed; so it is for `p` and for `f`.  With `P` it is passed;
with `F`, with `F` followed by space of any kind (a blank, a form feed, a
no-break space) or by a second word, with an empty line and with no line at all
it is failed. -/
theorem manualConsole_other_input_passes :
    (manualConsole exStepA { exWorld with stdin := ["X"] }).1.failed = false ∧
    (manualConsole exStepA { exWorld with stdin := ["p"] }).1.failed = false ∧
    (manualConsole exStepA { exWorld with stdin := ["f"] }).1.failed = false ∧
    (manualConsole exStepA { exWorld with stdin := ["P"] }).1.failed = false ∧
    (manualConsole exStepA { exWorld with stdin := ["F"] }).1.failed = true ∧
    (manualConsole exStepA { exWorld with stdin := ["F "] }).1.failed = true ∧
    (manualConsole exStepA { exWorld with stdin := ["F\x0c"] }).1.failed = true ∧
    (manualConsole exStepA
      { exWorld with stdin := [String.mk ['F', Char.ofNat 0xA0]] }).1.failed = true ∧
    (manualConsole exStepA { exWorld with stdin := ["F x"] }).1.failed = true ∧
    (manualConsole exStepA { exWorld with stdin := [""] }).1.failed = true ∧
    (manualConsole exStepA { exWorld with stdin := [] }).1.failed = true := by
  decide

/-- Claim C13, as amended: in the manual console the step is marked failed if
and only if the verdict read is `F`: the human enters nothing at all (no line,
or a line without a word, the verdict then keeping its default `F`), or the
first word of the line entered is `F`.  It is marked passed if and only if the
human enters a line whose first word is not `F`.  A word is delimited as
`fmt.Scanln` delimits it. -/
theorem manualConsole_failed_iff (item : Step) (w : World) :
    ((manualConsole item w).1.failed = true ↔
      w.stdin = [] ∨
        ∃ line rest, w.stdin = line :: rest ∧ (firstField line = "" ∨ firstField line = "F")) ∧
    ((manualConsole item w).1.failed = false ↔
      ∃ line rest, w.stdin = line :: rest ∧ firstField line ≠ "" ∧ firstField line ≠ "F") := by
  have hf : (manualConsole item w).1.failed = ((Scanln "F" w).1 == "F") := rfl
  rw [hf]
  cases hs : w.stdin with
  | nil => simp [Scanln, hs]
  | cons line rest =>
    by_cases h1 : firstField line = ""
    · simp [Scanln, hs, h1]
    · simp [Scanln, hs, h1]

/-- Claim C16, checked on the code at a failing input: in a run eligible for
manual override, step `A` is the first child of the concept of the scenario
`[concept AB, D]` and has an "unimplemented step" validation error.  The code
sends `A` to the Runner and never opens the console (the trace has no console
session and the console input is left unread); the claim says `A` is delegated
to the console and the Runner is not invoked for it. -/
theorem executeConcept_child_bypasses_console :
    canExecuteManually exEnvManual = true ∧
    hasUnimplementedError exWorldManualNested exStepA = true ∧
    (execute exEnvManual exRunnerRecoverable exScenarioNested [] [] exWorldManualNested).1.log
      = [Action.event EventKind.ScenarioStart (some 12),
         Action.runnerCall Message.ScenarioDataStoreInit exPassed,
         Action.runnerCall Message.ScenarioExecutionStarting exPassed,
         Action.event EventKind.ConceptStart (some 5),
         Action.runnerCall (Message.ExecuteStep 1 "step A") exRecoverable,
         Action.runnerCall (Message.ExecuteStep 2 "step B") exPassed,
         Action.event EventKind.ConceptEnd none,
         Action.runnerCall (Message.ExecuteStep 3 "step D") exPassed,
         Action.runnerCall Message.ScenarioExecutionEnding exPassed,
         Action.event EventKind.ScenarioEnd (some 12)] ∧
    (execute exEnvManual exRunnerRecoverable exScenarioNested [] []
      exWorldManualNested).1.stdin = ["F", "Y", "done\x1d"] := by
  decide

/-- Claim C18 fails as stated: the step objects at addresses 1 and 7 have the
same identity text, an "unimplemented step" error is recorded for the first
only, and the lookup of dispatch finds it for the first and not for the second:
dispatched alone, the first opens the console and the second goes to the
Runner. -/
theorem hasUnimplementedError_differs_on_equal_text :
    exStepA.value = exStepATwin.value ∧
    exStepA.ptr ≠ exStepATwin.ptr ∧
    hasUnimplementedError exWorldManual exStepA = true ∧
    hasUnimplementedError exWorldManual exStepATwin = false ∧
    (executeItems exEnvManual exRunnerRecoverable [exStepA] 0 [ProtoItem.step none]
      exWorldManual).world.log
      = [Action.console 1 { failed := true, recoverableError := true, errorMessage := "",
                            message := ["done\x1d"] }] ∧
    (executeItems exEnvManual exRunnerRecoverable [exStepATwin] 0 [ProtoItem.step none]
      exWorldManual).world.log
      = [Action.runnerCall (Message.ExecuteStep 7 "step A") exPassed] := by
  decide

/-- Claim C18, as amended: the validation-error lookup of dispatch is keyed by
the identity of the Step object: for any two references to the same Step object
(the same address) it finds an "unimplemented step" error for one if and only if
it finds one for the other; the identity text plays no part. -/
theorem hasUnimplementedError_keyed_by_object (w : World) (s1 s2 : Step)
    (h : s1.ptr = s2.ptr) :
    hasUnimplementedError w s1 = hasUnimplementedError w s2 := by
  simp [hasUnimplementedError, h]

/-- Witness of C18 as amended: two references to the object at address 1 that
disagree on the identity text. -/
theorem hasUnimplementedError_keyed_by_object_witness :
    exStepA.ptr = (Step.mk 1 3 "* step A" "another text" []).ptr ∧
    hasUnimplementedError exWorldManual exStepA
      = hasUnimplementedError exWorldManual (Step.mk 1 3 "* step A" "another text" []) :=
  ⟨rfl, hasUnimplementedError_keyed_by_object exWorldManual exStepA
    (Step.mk 1 3 "* step A" "another text" []) rfl⟩

/-- The error maps when `execute` reaches the gate with a scenario that has no
body steps. -/
theorem gateWorld_errMap_nil (scenario : Scenario) (w : World) (h : scenario.steps = []) :
    (gateWorld scenario w).errMap =
      w.errMap.setScenarioErrs scenario.ptr
        [{ stepLineNo := scenario.heading.lineNo
           stepLineText := scenario.heading.value
           message := w.currentExecutionInfo.specFileName ++ ":" ++
             toString scenario.heading.lineNo ++ " No steps found in scenario"
           fileName := w.currentExecutionInfo.specFileName
           errorType := none }] := by
  simp [gateWorld, h, skipSceForError]

/-- The error maps after lines 84-93 of `execute` are those before. -/
theorem executeAfterBeforeHook_errMap (env : Env) (r : Runner) (scenario : Scenario)
    (contexts teardowns : List Step) (w4 : World) :
    (executeAfterBeforeHook env r scenario contexts teardowns w4).1.errMap = w4.errMap := by
  obtain ⟨d, hook, -, -, -, -, -, c6, -⟩ :=
    executeAfterBeforeHook_spec env r scenario contexts teardowns w4
  exact c6

/-- Claim C19: every call of `execute` leaves every step-error entry and the
entry of every other scenario as they were.  At the entry of the scenario being
executed: for a scenario without body steps, and for a scenario that passes the
gate and whose data-store init fails, the error list is replaced by a list of
exactly one synthesized error located at the heading's line, whatever was
recorded before; in every other case the entry is as it was. -/
theorem execute_errMap_frame (env : Env) (r : Runner) (scenario : Scenario)
    (contexts teardowns : List Step) (w : World) :
    (execute env r scenario contexts teardowns w).1.errMap.stepErrs = w.errMap.stepErrs ∧
    (∀ k, k ≠ scenario.ptr →
      (execute env r scenario contexts teardowns w).1.errMap.scenarioErrs k
        = w.errMap.scenarioErrs k) ∧
    (scenario.steps = [] →
      (execute env r scenario contexts teardowns w).1.errMap.scenarioErrs scenario.ptr
        = some [{ stepLineNo := scenario.heading.lineNo
                  stepLineText := scenario.heading.value
                  message := w.currentExecutionInfo.specFileName ++ ":" ++
                    toString scenario.heading.lineNo ++ " No steps found in scenario"
                  fileName := w.currentExecutionInfo.specFileName
                  errorType := none }]) ∧
    (passesGate w scenario → (initResponse r scenario w).failed = true →
      (execute env r scenario contexts teardowns w).1.errMap.scenarioErrs scenario.ptr
        = some [{ stepLineNo := scenario.heading.lineNo
                  stepLineText := scenario.heading.value
                  message := "Failed to initialize scenario datastore. Error: " ++
                    (initResponse r scenario w).errorMessage
                  fileName := w.currentExecutionInfo.specFileName
                  errorType := none }]) ∧
    (scenario.steps ≠ [] →
      ¬ (passesGate w scenario ∧ (initResponse r scenario w).failed = true) →
      (execute env r scenario contexts teardowns w).1.errMap.scenarioErrs scenario.ptr
        = w.errMap.scenarioErrs scenario.ptr) := by
  by_cases hs : scenario.steps = []
  · have hg := gateWorld_errMap_nil scenario w hs
    have hb : hasBlockingError (gateWorld scenario w) scenario = true := by
      rw [gateWorld_of_nil scenario w hs]
      exact hasBlockingError_skipSceForError scenario _
    have he : (execute env r scenario contexts teardowns w).1.errMap
        = (gateWorld scenario w).errMap := by
      rw [execute_eq, if_pos hb]
      rfl
    rw [he, hg]
    refine ⟨rfl, ?_, ?_, ?_, ?_⟩
    · intro k hk
      simp [ValidationErrMaps.setScenarioErrs, hk]
    · intro _
      simp [ValidationErrMaps.setScenarioErrs]
    · intro hp
      exact absurd hs hp.1
    · intro hne
      exact absurd hs hne
  · have hg := gateWorld_of_ne_nil scenario w hs
    by_cases hb : hasBlockingError w scenario = true
    · have hb' : hasBlockingError (gateWorld scenario w) scenario = true := by
        rw [hg]
        exact (hasBlockingError_congr w _ scenario rfl).trans hb
      have he : (execute env r scenario contexts teardowns w).1.errMap = w.errMap := by
        rw [execute_eq, if_pos hb', hg]
        rfl
      rw [he]
      refine ⟨rfl, fun _ _ => rfl, fun h => absurd h hs, ?_, fun _ _ => rfl⟩
      intro hp
      have := hp.2
      rw [hb] at this
      exact absurd this (by simp)
    · have hgate : passesGate w scenario := ⟨hs, by simpa using hb⟩
      rw [execute_of_passesGate env r scenario contexts teardowns w hgate]
      by_cases hi : (initResponse r scenario w).failed = true
      · rw [if_pos hi]
        refine ⟨rfl, ?_, fun h => absurd h hs, ?_, ?_⟩
        · intro k hk
          simp [handleScenarioDataStoreFailure, setSkipInfoInResult, World.Notify,
            ValidationErrMaps.setScenarioErrs, hk]
        · intro _ _
          simp [handleScenarioDataStoreFailure, setSkipInfoInResult, World.Notify,
            ValidationErrMaps.setScenarioErrs]
        · intro _ hn
          exact absurd ⟨hgate, hi⟩ hn
      · rw [if_neg hi]
        obtain ⟨-, b2, -⟩ := notifyBeforeScenarioHook_spec r
          { w with
              scenarioResult := { w.scenarioResult with skipped := false }
              log := w.log ++ [Action.event EventKind.ScenarioStart (some scenario.ptr),
                Action.runnerCall Message.ScenarioDataStoreInit (initResponse r scenario w)] }
        have he := (executeAfterBeforeHook_errMap env r scenario contexts teardowns _).trans b2
        rw [he]
        exact ⟨rfl, fun _ _ => rfl, fun h => absurd h hs, fun _ h => absurd h hi,
          fun _ _ => rfl⟩

theorem conceptDepth_append (a b : List Action) :
    ∀ n, conceptDepth (a ++ b) n = (conceptDepth a n).bind (conceptDepth b) := by
  induction a with
  | nil => intro n; rfl
  | cons x xs ih =>
    intro n
    cases x with
    | event k s =>
      cases k with
      | ScenarioStart => exact ih n
      | ScenarioEnd => exact ih n
      | ConceptStart => exact ih (n + 1)
      | ConceptEnd =>
        cases n with
        | zero => rfl
        | succ m => exact ih m
    | runnerCall m res => exact ih n
    | console p res => exact ih n

theorem Balanced_nil : Balanced [] := fun _ => rfl

theorem Balanced_append {a b : List Action} (ha : Balanced a) (hb : Balanced b) :
    Balanced (a ++ b) := by
  intro n
  rw [conceptDepth_append, ha n]
  exact hb n

theorem Balanced_concept {d : List Action} (s t : Option Nat) (hd : Balanced d) :
    Balanced (Action.event EventKind.ConceptStart s :: (d ++ [Action.event EventKind.ConceptEnd t]))
    := by
  intro n
  show conceptDepth (d ++ [Action.event EventKind.ConceptEnd t]) (n + 1) = some n
  rw [conceptDepth_append, hd (n + 1)]
  rfl

theorem Balanced_runnerCall (m : Message) (res : ProtoExecutionResult) :
    Balanced [Action.runnerCall m res] := fun _ => rfl

theorem Balanced_console (p : Nat) (res : ProtoExecutionResult) :
    Balanced [Action.console p res] := fun _ => rfl

theorem WalkInv_refl (w : World) (stop : Prop) : WalkInv w w stop :=
  ⟨[], by simp, Balanced_nil, id, by simp⟩

/-- Two walks in a row, the first of which was not left with its `stop`. -/
theorem WalkInv_trans {a b c : World} {stop1 stop2 : Prop} (h1 : WalkInv a b stop1)
    (hn : ¬ stop1) (h2 : WalkInv b c stop2) : WalkInv a c stop2 := by
  obtain ⟨d1, l1, b1, m1, f1⟩ := h1
  obtain ⟨d2, l2, b2, m2, f2⟩ := h2
  refine ⟨d1 ++ d2, by rw [l2, l1, List.append_assoc], Balanced_append b1 b2,
    fun h => m2 (m1 h), ?_⟩
  intro h
  rw [List.any_append, Bool.or_eq_true] at h
  rcases h with h | h
  · rcases f1 h with hs | hf
    · exact absurd hs hn
    · exact Or.inr (m2 hf)
  · exact f2 h

theorem WalkInv_weaken {a b : World} {stop1 stop2 : Prop} (h : WalkInv a b stop1)
    (hs : stop1 → stop2 ∨ b.scenarioResult.failed = true) : WalkInv a b stop2 := by
  obtain ⟨d, l, bb, m, f⟩ := h
  refine ⟨d, l, bb, m, ?_⟩
  intro hd
  rcases f hd with h1 | h1
  · exact hs h1
  · exact Or.inr h1

/-- A walk after which the failed flag is set. -/
theorem WalkInv_setFailure {a b : World} {stop1 : Prop} (stop2 : Prop)
    (h : WalkInv a b stop1) : WalkInv a b.SetFailure stop2 := by
  obtain ⟨d, l, bb, m, f⟩ := h
  exact ⟨d, l, bb, fun _ => rfl, fun _ => Or.inr rfl⟩

/-- A walk, the failed flag set, and a second walk. -/
theorem WalkInv_setFailure_trans {a b c : World} {stop1 stop2 : Prop} (stop3 : Prop)
    (h1 : WalkInv a b stop1) (h2 : WalkInv b.SetFailure c stop2) : WalkInv a c stop3 := by
  obtain ⟨d1, l1, b1, m1, f1⟩ := h1
  obtain ⟨d2, l2, b2, m2, f2⟩ := h2
  have hc : c.scenarioResult.failed = true := m2 rfl
  refine ⟨d1 ++ d2, ?_, Balanced_append b1 b2, fun _ => hc, fun _ => Or.inr hc⟩
  rw [l2]
  show b.log ++ d2 = a.log ++ (d1 ++ d2)
  rw [l1, List.append_assoc]

theorem walkInv_mutual (r : Runner) :
    (∀ (item : Step) (p : ProtoItem) (w : World),
      WalkInv w (executeItem r item p w).world
        ((executeItem r item p w).panicked = true ∨ (executeItem r item p w).failed = true)) ∧
    (∀ (cs : List Step) (idx : Nat) (done : List ProtoItem)
      (cer : Option ProtoStepExecutionResult) (rest : List ProtoItem) (w : World),
      WalkInv w (executeConceptLoop r cs idx done cer rest w).world
        ((executeConceptLoop r cs idx done cer rest w).exit = Exit.panicked)) := by
  refine @executeItem.mutual_induct r
    (fun item p w => WalkInv w (executeItem r item p w).world
        ((executeItem r item p w).panicked = true ∨ (executeItem r item p w).failed = true))
    (fun cs idx done cer rest w =>
      WalkInv w (executeConceptLoop r cs idx done cer rest w).world
        ((executeConceptLoop r cs idx done cer rest w).exit = Exit.panicked))
    ?_ ?_ ?_ ?_ ?_ ?_ ?_ ?_ ?_ ?_
  · -- concept
    intro item steps cer w ih
    simp only [executeItem]
    generalize executeConceptLoop r item.conceptSteps 0 [] cer steps
      (w.Notify EventKind.ConceptStart (some item.ptr)) = o at ih
    obtain ⟨d, l, b, m, f⟩ := ih
    refine ⟨Action.event EventKind.ConceptStart (some item.ptr) ::
      (d ++ [Action.event EventKind.ConceptEnd none]), ?_, Balanced_concept _ _ b, m, ?_⟩
    · simp [World.Notify, l]
    · intro h
      have hd : d.any Action.isFailedStep = true := by
        simpa [Action.isFailedStep] using h
      rcases f hd with h1 | h1
      · exact Or.inl (Or.inl (by simp [h1]))
      · exact Or.inr h1
  · -- step
    intro item res w
    simp only [executeItem]
    refine ⟨[Action.runnerCall (Message.ExecuteStep item.ptr item.value)
      (r w.log (Message.ExecuteStep item.ptr item.value))], rfl, Balanced_runnerCall _ _,
      id, ?_⟩
    intro h
    left
    right
    simpa [Action.isFailedStep, executeStep, ExecuteAndGetStatus,
      ProtoStepExecutionResult.GetFailed] using h
  · -- other
    intro item k w
    simp only [executeItem]
    exact WalkInv_refl w _
  · -- loop: end of list
    intro cs idx done cer w
    simp only [executeConceptLoop]
    exact WalkInv_refl w _
  · -- loop: index out of range
    intro cs idx done cer p rest w hx hnone
    simp only [executeConceptLoop, hx, hnone, if_true]
    exact WalkInv_refl w _
  · -- loop: the child panicked
    intro cs idx done cer p rest w hx step hsome out hp ih
    simp only [executeConceptLoop, hx, hsome, if_true]
    simp only [out] at hp ih
    simp only [hp, if_true]
    exact WalkInv_weaken ih (fun _ => Or.inl trivial)
  · -- loop: recoverable failure, continue
    intro cs idx done cer p rest w hx step hsome out hp hf hr ih1 ih2
    simp only [executeConceptLoop, hx, hsome, if_true]
    simp only [out] at hp hf hr ih1 ih2
    simp only [hp, hf, hr, if_true, Bool.false_eq_true, if_false]
    exact WalkInv_setFailure_trans _ ih1 ih2
  · -- loop: non-recoverable failure, return
    intro cs idx done cer p rest w hx step hsome out hp hf hr ih1
    simp only [executeConceptLoop, hx, hsome, if_true]
    simp only [out] at hp hf hr ih1
    simp only [hp, hf, hr, if_true, Bool.false_eq_true, if_false]
    exact WalkInv_setFailure _ ih1
  · -- loop: the child passed, continue
    intro cs idx done cer p rest w hx step hsome out hp hf ih1 ih2
    simp only [executeConceptLoop, hx, hsome, if_true]
    simp only [out] at hp hf ih1 ih2
    simp only [hp, hf, if_true, Bool.false_eq_true, if_false]
    exact WalkInv_trans ih1 (by simp [hp, hf]) ih2
  · -- loop: a node that is not executable
    intro cs idx done cer p rest w hx ih
    simp only [executeConceptLoop, hx, Bool.false_eq_true, if_false]
    exact ih

theorem executeManually_walkInv (item : Step) (p : ProtoItem) (w : World) :
    WalkInv w (executeManually item p w).world
      ((executeManually item p w).panicked = true ∨ (executeManually item p w).failed = true) := by
  obtain ⟨a1, -, -, a4⟩ := manualConsole_frame item w
  have hw := executeManually_world item p w
  refine ⟨[Action.console item.ptr (manualConsole item w).1], by rw [hw, a1],
    Balanced_console _ _, ?_, ?_⟩
  · rw [hw, a4]
    exact id
  · intro h
    left
    cases p with
    | step res =>
      right
      simpa [Action.isFailedStep, executeManually] using h
    | concept steps cer => left; rfl
    | other k => left; rfl

theorem executeItems_walkInv (env : Env) (r : Runner) (items : List Step) (idx : Nat)
    (ps : List ProtoItem) (w : World) :
    WalkInv w (executeItems env r items idx ps w).world
      ((executeItems env r items idx ps w).exit = Exit.panicked) := by
  have hd : ∀ (item : Step) (p : ProtoItem) (w : World), WalkInv w
      (if hasUnimplementedError w item = true then executeManually item p w
        else executeItem r item p w).world
      ((if hasUnimplementedError w item = true then executeManually item p w
        else executeItem r item p w).panicked = true ∨
       (if hasUnimplementedError w item = true then executeManually item p w
        else executeItem r item p w).failed = true) := by
    intro item p w
    split
    · exact executeManually_walkInv item p w
    · exact (walkInv_mutual r).1 item p w
  refine @executeItems.induct env r items
    (fun idx ps w => WalkInv w (executeItems env r items idx ps w).world
      ((executeItems env r items idx ps w).exit = Exit.panicked))
    ?_ ?_ ?_ ?_ ?_ ?_ ?_ ?_ idx ps w
  · intro idx w
    simp only [executeItems]
    exact WalkInv_refl w _
  · intro idx p rest w hx hm hnone
    simp only [executeItems, hx, hm, hnone, if_true]
    exact WalkInv_refl w _
  · intro idx p rest w hx hm step hsome out hp
    simp only [executeItems, hx, hm, hsome, if_true]
    simp only [out] at hp
    simp only [hp, if_true]
    exact WalkInv_weaken (hd step p w) (fun _ => Or.inl trivial)
  · intro idx p rest w hx hm step hsome out hp hf hr
    simp only [executeItems, hx, hm, hsome, if_true]
    simp only [out] at hp hf hr
    simp only [hp, hf, hr, if_true, Bool.false_eq_true, if_false]
    exact WalkInv_setFailure _ (hd step p w)
  · intro idx p rest w hx hm step hsome out hp hf hr ih
    simp only [executeItems, hx, hm, hsome, if_true]
    simp only [out] at hp hf hr ih
    simp only [hp, hf, hr, if_true, Bool.false_eq_true, if_false]
    exact WalkInv_setFailure_trans _ (hd step p w) ih
  · intro idx p rest w hx hm step hsome out hp hf ih
    simp only [executeItems, hx, hm, hsome, if_true]
    simp only [out] at hp hf ih
    simp only [hp, hf, if_true, Bool.false_eq_true, if_false]
    exact WalkInv_trans (hd step p w) (by simp [hp, hf]) ih
  · intro idx p rest w hx hm ih
    simp only [executeItems, hx, hm, if_true, Bool.false_eq_true, if_false]
    exact ih
  · intro idx p rest w hx ih
    simp only [executeItems, hx, Bool.false_eq_true, if_false]
    exact ih

/-- Depth accounting: the depth after a trace is the depth before, plus the
concept-starts, minus the concept-ends. -/
theorem conceptDepth_count (d : List Action) :
    ∀ n m, conceptDepth d n = some m →
      n + d.countP Action.isConceptStart = m + d.countP Action.isConceptEnd := by
  induction d with
  | nil =>
    intro n m h
    simp only [conceptDepth, Option.some.injEq] at h
    simp [h]
  | cons x xs ih =>
    intro n m h
    cases x with
    | event k s =>
      cases k with
      | ScenarioStart =>
        have := ih n m h
        simpa [List.countP_cons, Action.isConceptStart, Action.isConceptEnd] using this
      | ScenarioEnd =>
        have := ih n m h
        simpa [List.countP_cons, Action.isConceptStart, Action.isConceptEnd] using this
      | ConceptStart =>
        have := ih (n + 1) m h
        simp only [List.countP_cons, Action.isConceptStart, Action.isConceptEnd, if_true]
        simp only [Bool.false_eq_true, if_false]
        omega
      | ConceptEnd =>
        cases n with
        | zero => simp [conceptDepth] at h
        | succ k =>
          have := ih k m h
          simp only [List.countP_cons, Action.isConceptStart, Action.isConceptEnd, if_true]
          simp only [Bool.false_eq_true, if_false]
          omega
    | runnerCall msg res =>
      have := ih n m h
      simpa [List.countP_cons, Action.isConceptStart, Action.isConceptEnd] using this
    | console p res =>
      have := ih n m h
      simpa [List.countP_cons, Action.isConceptStart, Action.isConceptEnd] using this

/-- In a well-nested trace no prefix has more concept-ends than concept-starts,
and the whole trace has as many of the one as of the other. -/
theorem Balanced_counts {d : List Action} (h : Balanced d) :
    (∀ front back, d = front ++ back →
      front.countP Action.isConceptEnd ≤ front.countP Action.isConceptStart) ∧
    d.countP Action.isConceptStart = d.countP Action.isConceptEnd := by
  constructor
  · intro front back hd
    have h0 := h 0
    rw [hd, conceptDepth_append] at h0
    cases hf : conceptDepth front 0 with
    | none => simp [hf] at h0
    | some m =>
      have := conceptDepth_count front 0 m hf
      omega
  · have := conceptDepth_count d 0 0 (h 0)
    omega

/-- Lines 84-93 of `execute`, for nesting and failure marking. -/
theorem executeAfterBeforeHook_inv (env : Env) (r : Runner) (scenario : Scenario)
    (contexts teardowns : List Step) (w4 : World) :
    ∃ d : List Action,
      (executeAfterBeforeHook env r scenario contexts teardowns w4).1.log
        = w4.log ++ (d ++ [Action.event EventKind.ScenarioEnd (some scenario.ptr)]) ∧
      Balanced d ∧
      ((executeAfterBeforeHook env r scenario contexts teardowns w4).2 = false →
        d.any Action.isFailedStep = true →
        (executeAfterBeforeHook env r scenario contexts teardowns w4).1.scenarioResult.failed
          = true) := by
  by_cases hf : w4.scenarioResult.failed = true
  · obtain ⟨a1, -, -, -, -, -, -, a8, -⟩ := notifyAfterScenarioHook_spec r w4
    refine ⟨[Action.runnerCall Message.ScenarioExecutionEnding
      (r w4.log Message.ScenarioExecutionEnding)], ?_, Balanced_runnerCall _ _, ?_⟩
    · simp [executeAfterBeforeHook, hf, World.Notify, a1]
    · intro _ _
      simp only [executeAfterBeforeHook, hf, Bool.not_true, Bool.false_eq_true, if_false]
      exact a8 hf
  · have hdef : executeAfterBeforeHook env r scenario contexts teardowns w4 =
        if (executeItems env r (contexts ++ (scenario.steps ++ teardowns)) 0
          w4.scenarioResult.allItems w4).exit = Exit.panicked then
          (((executeItems env r (contexts ++ (scenario.steps ++ teardowns)) 0
            w4.scenarioResult.allItems w4).world.storeItems
            (executeItems env r (contexts ++ (scenario.steps ++ teardowns)) 0
            w4.scenarioResult.allItems w4).protoItems).Notify EventKind.ScenarioEnd
              (some scenario.ptr), true)
        else
          ((notifyAfterScenarioHook r ((executeItems env r
            (contexts ++ (scenario.steps ++ teardowns)) 0
            w4.scenarioResult.allItems w4).world.storeItems
            (executeItems env r (contexts ++ (scenario.steps ++ teardowns)) 0
            w4.scenarioResult.allItems w4).protoItems)).Notify EventKind.ScenarioEnd
              (some scenario.ptr), false) := by
      simp [executeAfterBeforeHook, hf, ScenarioResult.allItems]
    have ht := executeItems_walkInv env r (contexts ++ (scenario.steps ++ teardowns)) 0
      w4.scenarioResult.allItems w4
    rw [hdef]
    generalize executeItems env r (contexts ++ (scenario.steps ++ teardowns)) 0
      w4.scenarioResult.allItems w4 = out at ht
    obtain ⟨d, h1, h2, h3, h4⟩ := ht
    by_cases hp : out.exit = Exit.panicked
    · refine ⟨d, ?_, h2, ?_⟩
      · simp [hp, World.Notify, World.storeItems, h1]
      · intro hret
        simp [hp] at hret
    · obtain ⟨a1, -, -, -, -, -, -, a8, -⟩ :=
        notifyAfterScenarioHook_spec r (out.world.storeItems out.protoItems)
      refine ⟨d ++ [Action.runnerCall Message.ScenarioExecutionEnding
          (r (out.world.storeItems out.protoItems).log Message.ScenarioExecutionEnding)], ?_,
        Balanced_append h2 (Balanced_runnerCall _ _), ?_⟩
      · simp only [hp, if_false, World.Notify, a1]
        have : (out.world.storeItems out.protoItems).log = out.world.log := rfl
        rw [this, h1]
        simp
      · intro _ hd
        simp only [hp, if_false]
        have hd' : d.any Action.isFailedStep = true := by
          simpa [Action.isFailedStep] using hd
        rcases h4 hd' with h | h
        · exact absurd h hp
        · exact a8 h

/-- Every call of `execute`, for nesting and failure marking: between the two
scenario events the trace is well nested, and when the call returns after a
failed step the scenario result is failed. -/
theorem execute_inv (env : Env) (r : Runner) (scenario : Scenario)
    (contexts teardowns : List Step) (w : World) :
    ∃ mid : List Action,
      (execute env r scenario contexts teardowns w).1.log
        = w.log ++ (Action.event EventKind.ScenarioStart (some scenario.ptr) ::
            (mid ++ [Action.event EventKind.ScenarioEnd (some scenario.ptr)])) ∧
      Balanced mid ∧
      ((execute env r scenario contexts teardowns w).2 = false →
        mid.any Action.isFailedStep = true →
        (execute env r scenario contexts teardowns w).1.scenarioResult.failed = true) := by
  have hlog : (gateWorld scenario w).log = w.log := by
    unfold gateWorld
    split <;> rfl
  rw [execute_eq]
  by_cases hb : hasBlockingError (gateWorld scenario w) scenario = true
  · rw [if_pos hb]
    exact ⟨[], by simp [setSkipInfoInResult, World.Notify, hlog], Balanced_nil, by simp⟩
  · rw [if_neg hb]
    by_cases hi : (initScenarioDataStore r ((gateWorld scenario w).Notify EventKind.ScenarioStart
          (some scenario.ptr))).1.failed = true
    · rw [if_pos hi]
      refine ⟨[Action.runnerCall Message.ScenarioDataStoreInit
        (r (w.log ++ [Action.event EventKind.ScenarioStart (some scenario.ptr)])
          Message.ScenarioDataStoreInit)], ?_, Balanced_runnerCall _ _, ?_⟩
      · simp [handleScenarioDataStoreFailure, setSkipInfoInResult, World.Notify,
          initScenarioDataStore, ExecuteAndGetStatus, hlog]
      · simp [Action.isFailedStep]
    · rw [if_neg hi]
      obtain ⟨b1, -⟩ := notifyBeforeScenarioHook_spec r (initScenarioDataStore r
        ((gateWorld scenario w).Notify EventKind.ScenarioStart (some scenario.ptr))).2
      obtain ⟨d, c1, c2, c3⟩ :=
        executeAfterBeforeHook_inv env r scenario contexts teardowns
          (notifyBeforeScenarioHook r (initScenarioDataStore r
            ((gateWorld scenario w).Notify EventKind.ScenarioStart (some scenario.ptr))).2)
      refine ⟨[Action.runnerCall Message.ScenarioDataStoreInit
        (r (w.log ++ [Action.event EventKind.ScenarioStart (some scenario.ptr)])
          Message.ScenarioDataStoreInit),
        Action.runnerCall Message.ScenarioExecutionStarting
          (r (initScenarioDataStore r ((gateWorld scenario w).Notify EventKind.ScenarioStart
            (some scenario.ptr))).2.log Message.ScenarioExecutionStarting)] ++ d, ?_, ?_, ?_⟩
      · rw [c1, b1]
        simp [initScenarioDataStore, ExecuteAndGetStatus, World.Notify, hlog]
      · exact Balanced_append
          (Balanced_append (Balanced_runnerCall _ _) (Balanced_runnerCall _ _)) c2
      · intro hret hd
        refine c3 hret ?_
        simpa [Action.isFailedStep] using hd

/-! ### Claims about failure marking and event nesting -/

/-- Claim C14: for every call of `execute` that returns, if its trace holds the
execution of a step that reported a failure (by the Runner or at the manual
console, directly in the flattened list or at any depth inside concepts,
recoverable or not), then the scenario result is marked failed when `execute`
returns. -/
theorem execute_failed_step_marks_scenario (env : Env) (r : Runner) (scenario : Scenario)
    (contexts teardowns : List Step) (w : World) (d : List Action) (a : Action)
    (hlog : (execute env r scenario contexts teardowns w).1.log = w.log ++ d)
    (ha : a ∈ d) (hfailed : a.isFailedStep = true)
    (hret : (execute env r scenario contexts teardowns w).2 = false) :
    (execute env r scenario contexts teardowns w).1.scenarioResult.failed = true := by
  obtain ⟨mid, h1, -, h3⟩ := execute_inv env r scenario contexts teardowns w
  have hd : d = Action.event EventKind.ScenarioStart (some scenario.ptr) ::
      (mid ++ [Action.event EventKind.ScenarioEnd (some scenario.ptr)]) :=
    List.append_cancel_left (hlog.symm.trans h1)
  refine h3 hret ?_
  rw [List.any_eq_true]
  refine ⟨a, ?_, hfailed⟩
  rw [hd] at ha
  simp only [List.mem_cons, List.mem_append, List.mem_singleton, List.not_mem_nil,
    or_false] at ha
  rcases ha with rfl | ha | rfl
  · simp [Action.isFailedStep] at hfailed
  · exact ha
  · simp [Action.isFailedStep] at hfailed

/-- Claim C17: the trace of every call of `execute` is well nested.  It is
scenario-start, then a segment `mid` without scenario events, then scenario-end;
the concept events of `mid` are well nested (every concept-end closes the
concept-start opened last and none stays open, also when a concept is cut short
by a failure or a panic): no prefix of `mid` has more concept-ends than
concept-starts, and `mid` has as many concept-ends as concept-starts. -/
theorem execute_events_well_nested (env : Env) (r : Runner) (scenario : Scenario)
    (contexts teardowns : List Step) (w : World) :
    ∃ mid : List Action,
      (execute env r scenario contexts teardowns w).1.log
        = w.log ++ (Action.event EventKind.ScenarioStart (some scenario.ptr) ::
            (mid ++ [Action.event EventKind.ScenarioEnd (some scenario.ptr)])) ∧
      (∀ a ∈ mid, a.isScenarioEvent = false) ∧
      Balanced mid ∧
      (∀ front back, mid = front ++ back →
        front.countP Action.isConceptEnd ≤ front.countP Action.isConceptStart) ∧
      mid.countP Action.isConceptStart = mid.countP Action.isConceptEnd := by
  obtain ⟨mid, h1, h2, -⟩ := execute_inv env r scenario contexts teardowns w
  obtain ⟨mid', g1, g2⟩ := execute_scenario_events_shape env r scenario contexts teardowns w
  have hm : mid' = mid := by
    have h := List.append_cancel_left (g1.symm.trans h1)
    simp only [List.cons.injEq, true_and] at h
    exact List.append_cancel_right h
  subst hm
  exact ⟨mid', h1, g2, h2, (Balanced_counts h2).1, (Balanced_counts h2).2⟩

/-- Witness of C14: the scenario `[concept AB, D]` in a run eligible for manual
override, where `A`, inside the concept, fails recoverably and everything else
passes. -/
theorem execute_failed_step_marks_scenario_witness :
    (execute exEnvManual exRunnerRecoverable exScenarioNested [] [] exWorldNested).1.log
      = exWorldNested.log ++
        [Action.event EventKind.ScenarioStart (some 12),
         Action.runnerCall Message.ScenarioDataStoreInit exPassed,
         Action.runnerCall Message.ScenarioExecutionStarting exPassed,
         Action.event EventKind.ConceptStart (some 5),
         Action.runnerCall (Message.ExecuteStep 1 "step A") exRecoverable,
         Action.runnerCall (Message.ExecuteStep 2 "step B") exPassed,
         Action.event EventKind.ConceptEnd none,
         Action.runnerCall (Message.ExecuteStep 3 "step D") exPassed,
         Action.runnerCall Message.ScenarioExecutionEnding exPassed,
         Action.event EventKind.ScenarioEnd (some 12)] ∧
    (Action.runnerCall (Message.ExecuteStep 1 "step A") exRecoverable).isFailedStep = true ∧
    (execute exEnvManual exRunnerRecoverable exScenarioNested [] [] exWorldNested).2 = false ∧
    (execute exEnvManual exRunnerRecoverable exScenarioNested [] []
      exWorldNested).1.scenarioResult.failed = true :=
  ⟨by decide, by decide, by decide,
    execute_failed_step_marks_scenario exEnvManual exRunnerRecoverable exScenarioNested [] []
      exWorldNested
      [Action.event EventKind.ScenarioStart (some 12),
       Action.runnerCall Message.ScenarioDataStoreInit exPassed,
       Action.runnerCall Message.ScenarioExecutionStarting exPassed,
       Action.event EventKind.ConceptStart (some 5),
       Action.runnerCall (Message.ExecuteStep 1 "step A") exRecoverable,
       Action.runnerCall (Message.ExecuteStep 2 "step B") exPassed,
       Action.event EventKind.ConceptEnd none,
       Action.runnerCall (Message.ExecuteStep 3 "step D") exPassed,
       Action.runnerCall Message.ScenarioExecutionEnding exPassed,
       Action.event EventKind.ScenarioEnd (some 12)]
      (Action.runnerCall (Message.ExecuteStep 1 "step A") exRecoverable)
      (by decide) (by decide) (by decide) (by decide)⟩

/-! ### Lockstep of nodes and Steps -/

theorem execCount_append (a b : List ProtoItem) :
    execCount (a ++ b) = execCount a + execCount b := by
  simp [execCount]

theorem execCount_cons_of_executable (p : ProtoItem) (ps : List ProtoItem)
    (h : p.isExecutable = true) : execCount (p :: ps) = execCount ps + 1 := by
  simp [execCount, h]

/-- Walking `front ++ rest` at scenario level when the walk of `front` alone
runs to its end: the loop reaches `rest` with the index and the world that the
walk of `front` left. -/
theorem executeItems_append (env : Env) (r : Runner) (items : List Step)
    (front rest : List ProtoItem) :
    ∀ (idx : Nat) (w : World),
      (executeItems env r items idx front w).exit = Exit.completed →
      executeItems env r items idx (front ++ rest) w =
        { executeItems env r items (executeItems env r items idx front w).itemsIndex rest
            (executeItems env r items idx front w).world with
          protoItems := (executeItems env r items idx front w).protoItems ++
            (executeItems env r items (executeItems env r items idx front w).itemsIndex rest
              (executeItems env r items idx front w).world).protoItems } := by
  induction front with
  | nil =>
    intro idx w _
    simp [executeItems]
  | cons p ps ih =>
    intro idx w h
    by_cases hx : p.isExecutable = true
    · by_cases hm : canExecuteManually env = true
      · cases hs : items[idx]? with
        | none => simp [executeItems, hx, hm, hs] at h
        | some item =>
          simp only [executeItems, hx, hm, hs, if_true, List.cons_append] at h ⊢
          by_cases hp : (if hasUnimplementedError w item = true then executeManually item p w
              else executeItem r item p w).panicked = true
          · simp [hp] at h
          · simp only [hp, Bool.false_eq_true, if_false] at h ⊢
            by_cases hf : (if hasUnimplementedError w item = true then executeManually item p w
                else executeItem r item p w).failed = true
            · simp only [hf, if_true] at h ⊢
              by_cases hr : (if hasUnimplementedError w item = true then executeManually item p w
                  else executeItem r item p w).recoverable = true
              · simp only [hr, Bool.not_true, Bool.false_eq_true, if_false] at h ⊢
                simp only [List.append_eq, ih _ _ h, List.cons_append]
              · simp [hr] at h
            · simp only [hf, Bool.false_eq_true, if_false] at h ⊢
              simp only [List.append_eq, ih _ _ h, List.cons_append]
      · simp only [executeItems, hx, hm, if_true, Bool.false_eq_true, if_false,
          List.cons_append] at h ⊢
        simp only [List.append_eq, ih _ _ h, List.cons_append]
    · simp only [executeItems, hx, Bool.false_eq_true, if_false, List.cons_append] at h ⊢
      simp only [List.append_eq, ih _ _ h, List.cons_append]

/-- A walk at scenario level that runs to its end in an eligible run has
advanced `itemsIndex` once per executable node. -/
theorem executeItems_completed_index (env : Env) (r : Runner) (items : List Step)
    (hm : canExecuteManually env = true) (front : List ProtoItem) :
    ∀ (idx : Nat) (w : World),
      (executeItems env r items idx front w).exit = Exit.completed →
      (executeItems env r items idx front w).itemsIndex = idx + execCount front := by
  induction front with
  | nil =>
    intro idx w _
    simp [executeItems, execCount]
  | cons p ps ih =>
    intro idx w h
    by_cases hx : p.isExecutable = true
    · cases hs : items[idx]? with
      | none => simp [executeItems, hx, hm, hs] at h
      | some item =>
        rw [execCount_cons_of_executable p ps hx]
        simp only [executeItems, hx, hm, hs, if_true] at h ⊢
        by_cases hp : (if hasUnimplementedError w item = true then executeManually item p w
            else executeItem r item p w).panicked = true
        · simp [hp] at h
        · simp only [hp, Bool.false_eq_true, if_false] at h ⊢
          by_cases hf : (if hasUnimplementedError w item = true then executeManually item p w
              else executeItem r item p w).failed = true
          · simp only [hf, if_true] at h ⊢
            by_cases hr : (if hasUnimplementedError w item = true then executeManually item p w
                else executeItem r item p w).recoverable = true
            · simp only [hr, Bool.not_true, Bool.false_eq_true, if_false] at h ⊢
              rw [ih _ _ h]
              omega
            · simp [hr] at h
          · simp only [hf, Bool.false_eq_true, if_false] at h ⊢
            rw [ih _ _ h]
            omega
    · simp only [executeItems, hx, Bool.false_eq_true, if_false] at h ⊢
      rw [ih _ _ h]
      simp [execCount, hx]

/-- The concept loop returns the nodes already walked in front of the rest. -/
theorem executeConceptLoop_steps_prefix (r : Runner) (cs : List Step) (rest : List ProtoItem) :
    ∀ (idx : Nat) (done : List ProtoItem) (cer : Option ProtoStepExecutionResult) (w : World),
      ∃ tail, (executeConceptLoop r cs idx done cer rest w).steps = done ++ tail := by
  induction rest with
  | nil =>
    intro idx done cer w
    exact ⟨[], by simp [executeConceptLoop]⟩
  | cons p ps ih =>
    intro idx done cer w
    by_cases hx : p.isExecutable = true
    · cases hs : cs[idx]? with
      | none => exact ⟨p :: ps, by simp [executeConceptLoop, hx, hs]⟩
      | some st =>
        simp only [executeConceptLoop, hx, hs, if_true]
        by_cases hp : (executeItem r st p w).panicked = true
        · simp only [hp, if_true]
          exact ⟨_, rfl⟩
        · simp only [hp, Bool.false_eq_true, if_false]
          by_cases hf : (executeItem r st p w).failed = true
          · simp only [hf, if_true]
            by_cases hr : (executeItem r st p w).recoverable = true
            · simp only [hr, if_true]
              obtain ⟨t, ht⟩ := ih (idx + 1) (done ++ [(executeItem r st p w).protoItem])
                (UpdateConceptExecResult (done ++ (executeItem r st p w).protoItem :: ps))
                (executeItem r st p w).world.SetFailure
              exact ⟨(executeItem r st p w).protoItem :: t, by rw [ht]; simp⟩
            · simp only [hr, Bool.false_eq_true, if_false]
              exact ⟨_, rfl⟩
          · simp only [hf, Bool.false_eq_true, if_false]
            obtain ⟨t, ht⟩ := ih (idx + 1) (done ++ [(executeItem r st p w).protoItem]) cer
              (executeItem r st p w).world
            exact ⟨(executeItem r st p w).protoItem :: t, by rw [ht]; simp⟩
    · simp only [executeConceptLoop, hx, Bool.false_eq_true, if_false]
      obtain ⟨t, ht⟩ := ih idx (done ++ [p]) cer w
      exact ⟨p :: t, by rw [ht]; simp⟩

/-- The concept loop only walks: it extends the trace and keeps the frame. -/
theorem executeConceptLoop_walked (r : Runner) (cs : List Step) (rest : List ProtoItem) :
    ∀ (idx : Nat) (done : List ProtoItem) (cer : Option ProtoStepExecutionResult) (w : World),
      Walked w (executeConceptLoop r cs idx done cer rest w).world := by
  induction rest with
  | nil =>
    intro idx done cer w
    simp only [executeConceptLoop]
    exact Walked_refl w
  | cons p ps ih =>
    intro idx done cer w
    by_cases hx : p.isExecutable = true
    · cases hs : cs[idx]? with
      | none =>
        simp only [executeConceptLoop, hx, hs, if_true]
        exact Walked_refl w
      | some st =>
        simp only [executeConceptLoop, hx, hs, if_true]
        by_cases hp : (executeItem r st p w).panicked = true
        · simp only [hp, if_true]
          exact executeItem_walked r st p w
        · simp only [hp, Bool.false_eq_true, if_false]
          by_cases hf : (executeItem r st p w).failed = true
          · simp only [hf, if_true]
            by_cases hr : (executeItem r st p w).recoverable = true
            · simp only [hr, if_true]
              exact Walked_trans (Walked_trans (executeItem_walked r st p w)
                (Walked_setFailure _)) (ih _ _ _ _)
            · simp only [hr, Bool.false_eq_true, if_false]
              exact Walked_trans (executeItem_walked r st p w) (Walked_setFailure _)
          · simp only [hf, Bool.false_eq_true, if_false]
            exact Walked_trans (executeItem_walked r st p w) (ih _ _ _ _)
    · simp only [executeConceptLoop, hx, Bool.false_eq_true, if_false]
      exact ih _ _ _ _

/-- One turn of the concept loop on an executable node whose Step exists: the
node returned in its place is the one `executeItem` left, and the trace
continues the trace of that call. -/
theorem executeConceptLoop_cons_dispatch (r : Runner) (cs : List Step) (idx : Nat)
    (done : List ProtoItem) (cer : Option ProtoStepExecutionResult) (p : ProtoItem)
    (rest : List ProtoItem) (w : World) (st : Step)
    (hx : p.isExecutable = true) (hs : cs[idx]? = some st) :
    ∃ tail more,
      (executeConceptLoop r cs idx done cer (p :: rest) w).steps
        = done ++ (executeItem r st p w).protoItem :: tail ∧
      (executeConceptLoop r cs idx done cer (p :: rest) w).world.log
        = (executeItem r st p w).world.log ++ more := by
  simp only [executeConceptLoop, hx, hs, if_true]
  by_cases hp : (executeItem r st p w).panicked = true
  · simp only [hp, if_true]
    exact ⟨rest, [], rfl, by simp⟩
  · simp only [hp, Bool.false_eq_true, if_false]
    by_cases hf : (executeItem r st p w).failed = true
    · simp only [hf, if_true]
      by_cases hr : (executeItem r st p w).recoverable = true
      · simp only [hr, if_true]
        obtain ⟨t, ht⟩ := executeConceptLoop_steps_prefix r cs rest (idx + 1)
          (done ++ [(executeItem r st p w).protoItem])
          (UpdateConceptExecResult (done ++ (executeItem r st p w).protoItem :: rest))
          (executeItem r st p w).world.SetFailure
        obtain ⟨⟨d, hd, _⟩, _⟩ := executeConceptLoop_walked r cs rest (idx + 1)
          (done ++ [(executeItem r st p w).protoItem])
          (UpdateConceptExecResult (done ++ (executeItem r st p w).protoItem :: rest))
          (executeItem r st p w).world.SetFailure
        exact ⟨t, d, by rw [ht]; simp, by rw [hd]; rfl⟩
      · simp only [hr, Bool.false_eq_true, if_false]
        exact ⟨rest, [], rfl, by simp [World.SetFailure]⟩
    · simp only [hf, Bool.false_eq_true, if_false]
      obtain ⟨t, ht⟩ := executeConceptLoop_steps_prefix r cs rest (idx + 1)
        (done ++ [(executeItem r st p w).protoItem]) cer (executeItem r st p w).world
      obtain ⟨⟨d, hd, _⟩, _⟩ := executeConceptLoop_walked r cs rest (idx + 1)
        (done ++ [(executeItem r st p w).protoItem]) cer (executeItem r st p w).world
      exact ⟨t, d, by rw [ht]; simp, hd⟩

/-- One turn of `executeItems` on an executable node of an eligible run whose
Step exists: the node returned in its place is the one the dispatch left, and
the trace continues the trace of the dispatch. -/
theorem executeItems_cons_dispatch (env : Env) (r : Runner) (items : List Step) (idx : Nat)
    (p : ProtoItem) (rest : List ProtoItem) (w : World) (item : Step)
    (hm : canExecuteManually env = true)
    (hx : p.isExecutable = true) (hs : items[idx]? = some item) :
    ∃ tail more,
      (executeItems env r items idx (p :: rest) w).protoItems
        = (dispatchItem r item p w).protoItem :: tail ∧
      (executeItems env r items idx (p :: rest) w).world.log
        = (dispatchItem r item p w).world.log ++ more := by
  simp only [executeItems, hx, hm, hs, if_true, dispatchItem]
  generalize (if hasUnimplementedError w item = true then executeManually item p w
    else executeItem r item p w) = out
  by_cases hp : out.panicked = true
  · simp only [hp, if_true]
    exact ⟨rest, [], rfl, by simp⟩
  · simp only [hp, Bool.false_eq_true, if_false]
    by_cases hf : out.failed = true
    · simp only [hf, if_true]
      by_cases hr : out.recoverable = true
      · simp only [hr, Bool.not_true, Bool.false_eq_true, if_false]
        obtain ⟨⟨d, hd, _⟩, _⟩ := executeItems_walked env r items (idx + 1) rest
          out.world.SetFailure
        exact ⟨_, d, rfl, by rw [hd]; rfl⟩
      · simp only [hr, Bool.not_false, if_true]
        exact ⟨rest, [], rfl, by simp [World.SetFailure]⟩
    · simp only [hf, Bool.false_eq_true, if_false]
      obtain ⟨⟨d, hd, _⟩, _⟩ := executeItems_walked env r items (idx + 1) rest out.world
      exact ⟨_, d, rfl, hd⟩

/-- Claim C15: the two trees are walked in lockstep.  Let `steps` be the Steps of
a level (all Steps of the scenario for `executeItems`, the child Steps of a
concept for the loop of `executeConcept`) and `front ++ child :: back` its
nodes, with at most as many executable nodes as Steps, and let the walk of
`front` run to its end.  Then the index the walk has reached is the number of
executable nodes of `front`; if `child` is executable the Step at that index
exists and `child` is dispatched with it (the node returned in its place and the
trace are those of that dispatch); if `child` is of another kind it is returned
as it was, and index and world are those reached after `front`. -/
theorem walk_pairs_nodes_with_steps (env : Env) (r : Runner) (steps : List Step)
    (front : List ProtoItem) (child : ProtoItem) (back : List ProtoItem)
    (cer : Option ProtoStepExecutionResult) (w : World)
    (hcount : execCount (front ++ child :: back) ≤ steps.length) :
    (canExecuteManually env = true →
      (executeItems env r steps 0 front w).exit = Exit.completed →
      (executeItems env r steps 0 front w).itemsIndex = execCount front ∧
      (child.isExecutable = true →
        ∃ item, steps[execCount front]? = some item ∧ ∃ tail more,
          (executeItems env r steps 0 (front ++ child :: back) w).protoItems
            = (executeItems env r steps 0 front w).protoItems ++
              (dispatchItem r item child (executeItems env r steps 0 front w).world).protoItem
                :: tail ∧
          (executeItems env r steps 0 (front ++ child :: back) w).world.log
            = (dispatchItem r item child (executeItems env r steps 0 front w).world).world.log
              ++ more) ∧
      (child.isExecutable = false →
        (executeItems env r steps 0 (front ++ [child]) w).protoItems
          = (executeItems env r steps 0 front w).protoItems ++ [child] ∧
        (executeItems env r steps 0 (front ++ [child]) w).itemsIndex = execCount front ∧
        (executeItems env r steps 0 (front ++ [child]) w).world
          = (executeItems env r steps 0 front w).world ∧
        (executeItems env r steps 0 (front ++ [child]) w).exit = Exit.completed)) ∧
    ((executeConceptLoop r steps 0 [] cer front w).exit = Exit.completed →
      (executeConceptLoop r steps 0 [] cer front w).conceptStepIndex = execCount front ∧
      (child.isExecutable = true →
        ∃ st, steps[execCount front]? = some st ∧ ∃ tail more,
          (executeConceptLoop r steps 0 [] cer (front ++ child :: back) w).steps
            = (executeConceptLoop r steps 0 [] cer front w).steps ++
              (executeItem r st child (executeConceptLoop r steps 0 [] cer front w).world).protoItem
                :: tail ∧
          (executeConceptLoop r steps 0 [] cer (front ++ child :: back) w).world.log
            = (executeItem r st child (executeConceptLoop r steps 0 [] cer front w).world).world.log
              ++ more) ∧
      (child.isExecutable = false →
        (executeConceptLoop r steps 0 [] cer (front ++ [child]) w).steps
          = (executeConceptLoop r steps 0 [] cer front w).steps ++ [child] ∧
        (executeConceptLoop r steps 0 [] cer (front ++ [child]) w).conceptStepIndex
          = execCount front ∧
        (executeConceptLoop r steps 0 [] cer (front ++ [child]) w).world
          = (executeConceptLoop r steps 0 [] cer front w).world ∧
        (executeConceptLoop r steps 0 [] cer (front ++ [child]) w).exit = Exit.completed)) := by
  have hrange : child.isExecutable = true → ∃ item, steps[execCount front]? = some item := by
    intro hx
    rw [execCount_append, execCount_cons_of_executable child back hx] at hcount
    cases hs : steps[execCount front]? with
    | some item => exact ⟨item, rfl⟩
    | none =>
      rw [List.getElem?_eq_none_iff] at hs
      omega
  constructor
  · intro hm hfront
    have hidx := executeItems_completed_index env r steps hm front 0 w hfront
    rw [Nat.zero_add] at hidx
    refine ⟨hidx, ?_, ?_⟩
    · intro hx
      obtain ⟨item, hs⟩ := hrange hx
      refine ⟨item, hs, ?_⟩
      obtain ⟨tail, more, h1, h2⟩ := executeItems_cons_dispatch env r steps (execCount front)
        child back (executeItems env r steps 0 front w).world item hm hx hs
      rw [executeItems_append env r steps front (child :: back) 0 w hfront, hidx]
      exact ⟨tail, more, by simp only [h1], h2⟩
    · intro hx
      rw [executeItems_append env r steps front [child] 0 w hfront, hidx]
      simp [executeItems, hx]
  · intro hfront
    have hidx : (executeConceptLoop r steps 0 [] cer front w).conceptStepIndex
        = execCount front := by
      have h := executeConceptLoop_completed_index r steps front 0 [] cer w hfront
      rw [Nat.zero_add] at h
      exact h
    refine ⟨hidx, ?_, ?_⟩
    · intro hx
      obtain ⟨st, hs⟩ := hrange hx
      refine ⟨st, hs, ?_⟩
      obtain ⟨cer', happ⟩ := executeConceptLoop_append r steps front (child :: back) 0 [] cer cer
        w hfront
      rw [happ, hidx]
      exact executeConceptLoop_cons_dispatch r steps (execCount front) _ cer' child back _ st
        hx hs
    · intro hx
      obtain ⟨cer', happ⟩ := executeConceptLoop_append r steps front [child] 0 [] cer cer
        w hfront
      rw [happ, hidx]
      simp [executeConceptLoop, hx]

/-- Witness of C15: the Steps `[A, B]` against the nodes
`[comment, step, step]` in a run eligible for manual override: after the comment
and the first step node the index is 1, and the second step node is dispatched
with `B`. -/
theorem walk_pairs_nodes_with_steps_witness :
    execCount ([ProtoItem.other OtherKind.Comment, ProtoItem.step none] ++
      ProtoItem.step none :: []) ≤ [exStepA, exStepB].length ∧
    (executeItems exEnvManual exRunnerRecoverable [exStepA, exStepB] 0
      [ProtoItem.other OtherKind.Comment, ProtoItem.step none] exWorld).itemsIndex
      = execCount [ProtoItem.other OtherKind.Comment, ProtoItem.step none] ∧
    [exStepA, exStepB][execCount [ProtoItem.other OtherKind.Comment, ProtoItem.step none]]?
      = some exStepB :=
  ⟨by decide,
    ((walk_pairs_nodes_with_steps exEnvManual exRunnerRecoverable [exStepA, exStepB]
      [ProtoItem.other OtherKind.Comment, ProtoItem.step none] (ProtoItem.step none) [] none
      exWorld (by decide)).1 (by decide) (by decide)).1,
    rfl⟩

/-! ### The step-frequency graph -/

theorem node_setNodes_nodes (n : node) : n.setNodes n.nodes = n := by
  cases n; rfl

theorem list_set_getElem_self {α : Type} (l : List α) (i : Nat) (a : α)
    (h : l[i]? = some a) : l.set i a = l := by
  induction l generalizing i with
  | nil => rfl
  | cons x xs ih =>
    cases i with
    | zero =>
      simp at h
      simp [h]
    | succ j =>
      simp at h
      simp [ih j h]

theorem list_set_append_last {α : Type} (l : List α) (a b : α) :
    (l ++ [a]).set l.length b = l ++ [b] := by
  induction l with
  | nil => rfl
  | cons x xs ih => simp [ih]

/-- How `indexOf` and the replacement of the first node with a key agree. -/
theorem upsert_indexOfFrom (f : Option node → node) (key : String) (ch : List node) :
    ∀ i : Nat,
      (indexOfFrom i ch key < 0 ∧ upsert f key ch = ch ++ [f none]) ∨
      (∃ (j : Nat) (c : node), indexOfFrom i ch key = ((i + j : Nat) : Int) ∧ ch[j]? = some c ∧
        upsert f key ch = ch.set j (f (some c))) := by
  induction ch with
  | nil =>
    intro i
    left
    simp [indexOfFrom, upsert]
  | cons n rest ih =>
    intro i
    by_cases hk : n.parsedStepText = key
    · right
      exact ⟨0, n, by simp [indexOfFrom, hk], by simp, by simp [upsert, hk]⟩
    · rcases ih (i + 1) with ⟨h1, h2⟩ | ⟨j, c, h1, h2, h3⟩
      · left
        simp [indexOfFrom, upsert, hk, h1, h2]
      · right
        refine ⟨j + 1, c, ?_, by simpa using h2, by simp [upsert, hk, h3]⟩
        simp only [indexOfFrom, hk, if_false, h1]
        congr 1
        omega

theorem upsert_indexOf (f : Option node → node) (key : String) (ch : List node) :
    (indexOf ch key < 0 ∧ upsert f key ch = ch ++ [f none]) ∨
    (∃ (j : Nat) (c : node), indexOf ch key = (j : Int) ∧ ch[j]? = some c ∧
      upsert f key ch = ch.set j (f (some c))) := by
  rcases upsert_indexOfFrom f key ch 0 with h | ⟨j, c, h1, h2, h3⟩
  · exact Or.inl h
  · exact Or.inr ⟨j, c, by simpa [indexOf] using h1, h2, h3⟩

theorem insertPath_nil (nodes : List node) : insertPath nodes [] = nodes := by
  cases nodes <;> rfl

theorem insertPath_cons (nodes : List node) (step : Step) (rest : List Step) :
    insertPath nodes (step :: rest) =
      upsert (fun o =>
        match o with
        | none => node.mk step.lineText step.value (insertPath [] rest) 1
        | some n => node.mk n.stepText n.parsedStepText (insertPath n.nodes rest)
            (incrInt n.duplicates)) step.value nodes := by
  cases nodes <;> rfl

/-- What `createGraphFor` does to the forest it is given: the remaining Steps
are inserted below the node at `nodeIndex`. -/
theorem createGraphForRest_eq (rest : List Step) :
    ∀ (nodeIndex : Nat) (nodes : List node) (parent : node),
      nodes[nodeIndex]? = some parent →
      createGraphForRest rest nodeIndex nodes =
        some (nodes.set nodeIndex (parent.setNodes (insertPath parent.nodes rest))) := by
  induction rest with
  | nil =>
    intro i nodes p h
    rw [insertPath_nil, node_setNodes_nodes, list_set_getElem_self nodes i p h]
    rfl
  | cons s tl ih =>
    intro i nodes p h
    rw [insertPath_cons]
    rcases upsert_indexOf (fun o =>
        match o with
        | none => node.mk s.lineText s.value (insertPath [] tl) 1
        | some n => node.mk n.stepText n.parsedStepText (insertPath n.nodes tl)
            (incrInt n.duplicates)) s.value p.nodes with ⟨hlt, hup⟩ | ⟨j, c, hj, hc, hup⟩
    · rw [hup]
      cases tl with
      | nil =>
        simp only [createGraphForRest, h, hlt, if_true, insertPath_nil]
      | cons t tl1 =>
        have hnew : (p.nodes ++ [node.mk s.lineText s.value [] 1])[
            (p.nodes ++ [node.mk s.lineText s.value [] 1]).length - 1]?
            = some (node.mk s.lineText s.value [] 1) := by simp
        have hrec := ih _ _ _ hnew
        simp only [createGraphForRest, h, hlt, if_true] at hrec ⊢
        rw [hrec]
        simp only [List.length_append, List.length_singleton, Nat.add_sub_cancel,
          list_set_append_last]
        rfl
    · have hnot : ¬ indexOf p.nodes s.value < 0 := by rw [hj]; omega
      have hnat : (indexOf p.nodes s.value).toNat = j := by rw [hj]; rfl
      rw [hup]
      cases tl with
      | nil =>
        simp only [createGraphForRest, h, hnot, if_false, hnat, hc, insertPath_nil]
        rfl
      | cons t tl1 =>
        have hchild : (p.nodes.set j c.incDuplicates)[j]? = some c.incDuplicates := by
          have hlen : j < p.nodes.length := by
            rcases Nat.lt_or_ge j p.nodes.length with hl | hl
            · exact hl
            · rw [List.getElem?_eq_none hl] at hc
              cases hc
          simp [hlen]
        have hrec := ih _ _ _ hchild
        simp only [createGraphForRest, h, hnot, if_false, hnat, hc] at hrec ⊢
        rw [hrec]
        simp only [List.set_set]
        rfl

/-- On a non-empty Step list `start` returns, and what it returns is the forest
with the path of the Steps inserted. -/
theorem start_eq (nodes : List node) (s : Step) (tl : List Step) :
    start nodes (s :: tl) = some (insertPath nodes (s :: tl)) := by
  rw [insertPath_cons]
  rcases upsert_indexOf (fun o =>
      match o with
      | none => node.mk s.lineText s.value (insertPath [] tl) 1
      | some n => node.mk n.stepText n.parsedStepText (insertPath n.nodes tl)
          (incrInt n.duplicates)) s.value nodes with ⟨hlt, hup⟩ | ⟨j, c, hj, hc, hup⟩
  · rw [hup]
    have hnew : (nodes ++ [node.mk s.lineText s.value [] 1])[
        (nodes ++ [node.mk s.lineText s.value [] 1]).length - 1]?
        = some (node.mk s.lineText s.value [] 1) := by simp
    have hrec := createGraphForRest_eq tl _ _ _ hnew
    simp only [start, hlt, if_true, createGraphFor, List.drop_succ_cons, List.drop_zero]
    rw [hrec]
    simp only [List.length_append, List.length_singleton, Nat.add_sub_cancel,
      list_set_append_last]
    rfl
  · have hnot : ¬ indexOf nodes s.value < 0 := by rw [hj]; omega
    have hnat : (indexOf nodes s.value).toNat = j := by rw [hj]; rfl
    rw [hup]
    have hchild : (nodes.set j c.incDuplicates)[j]? = some c.incDuplicates := by
      have hlen : j < nodes.length := by
        rcases Nat.lt_or_ge j nodes.length with hl | hl
        · exact hl
        · rw [List.getElem?_eq_none hl] at hc
          cases hc
      simp [hlen]
    have hrec := createGraphForRest_eq tl _ _ _ hchild
    simp only [start, hnot, if_false, hnat, hc, createGraphFor, List.drop_succ_cons,
      List.drop_zero]
    rw [hrec]
    simp only [List.set_set]
    rfl

/-! ### Properties of the inserted path -/

theorem findNode_upsert_same (f : Option node → node) (key : String)
    (hf0 : (f none).parsedStepText = key)
    (hf1 : ∀ n, n.parsedStepText = key → (f (some n)).parsedStepText = key) (ch : List node) :
    findNode (upsert f key ch) key = some (f (findNode ch key)) := by
  induction ch with
  | nil => simp [upsert, findNode, hf0]
  | cons n rest ih =>
    by_cases hk : n.parsedStepText = key
    · simp [upsert, findNode, hk, hf1 n hk]
    · simp [upsert, findNode, hk, ih]

theorem findNode_upsert_other (f : Option node → node) (key other : String)
    (hf0 : (f none).parsedStepText = key)
    (hf1 : ∀ n, n.parsedStepText = key → (f (some n)).parsedStepText = key)
    (hne : other ≠ key) (ch : List node) :
    findNode (upsert f key ch) other = findNode ch other := by
  have hne2 : ¬ key = other := fun h => hne h.symm
  induction ch with
  | nil => simp [upsert, findNode, hf0, hne2]
  | cons n rest ih =>
    by_cases hk : n.parsedStepText = key
    · have hno : ¬ n.parsedStepText = other := by rw [hk]; exact hne2
      simp [upsert, findNode, hk, hf1 n hk, hne2]
    · by_cases ho : n.parsedStepText = other
      · subst ho
        simp only [upsert, hk, if_false, findNode, if_true]
      · simp only [upsert, hk, if_false, findNode, ho, ih]

theorem findNode_key (ch : List node) (key : String) (n : node)
    (h : findNode ch key = some n) : n.parsedStepText = key := by
  induction ch with
  | nil => simp [findNode] at h
  | cons m rest ih =>
    by_cases hk : m.parsedStepText = key
    · simp [findNode, hk] at h
      rw [← h]; exact hk
    · simp [findNode, hk] at h
      exact ih h

theorem distinctKeysList_nil : distinctKeysList [] = True := rfl

theorem distinctKeysList_cons (n : node) (rest : List node) :
    distinctKeysList (n :: rest) =
      ((∀ m ∈ rest, m.parsedStepText ≠ n.parsedStepText) ∧ n.distinctKeys ∧
        distinctKeysList rest) := rfl

theorem distinctKeys_mk (t k : String) (ch : List node) (d : Int) :
    (node.mk t k ch d).distinctKeys = distinctKeysList ch := rfl

theorem distinctKeys_nodes (n : node) : distinctKeysList n.nodes = n.distinctKeys := by
  cases n; rfl

/-- Replacing or appending the node of a key keeps sibling keys distinct, when
the node put in has that key and distinct keys below it. -/
theorem distinctKeysList_upsert (f : Option node → node) (key : String)
    (hf0 : (f none).parsedStepText = key)
    (hf1 : ∀ n, n.parsedStepText = key → (f (some n)).parsedStepText = key)
    (hnone : (f none).distinctKeys)
    (hsome : ∀ n, n.distinctKeys → (f (some n)).distinctKeys)
    (ch : List node) (h : distinctKeysList ch) :
    distinctKeysList (upsert f key ch) ∧
      ∀ m ∈ upsert f key ch, m.parsedStepText = key ∨ m ∈ ch := by
  induction ch with
  | nil =>
    simp only [upsert]
    rw [distinctKeysList_cons]
    refine ⟨⟨by simp, hnone, trivial⟩, ?_⟩
    intro m hm
    simp at hm
    left; rw [hm]; exact hf0
  | cons n rest ih =>
    rw [distinctKeysList_cons] at h
    obtain ⟨h1, h2, h3⟩ := h
    by_cases hk : n.parsedStepText = key
    · simp only [upsert, hk, if_true]
      rw [distinctKeysList_cons]
      refine ⟨⟨?_, hsome n h2, h3⟩, ?_⟩
      · intro m hm
        rw [hf1 n hk]
        rw [← hk]
        exact h1 m hm
      · intro m hm
        simp at hm
        rcases hm with hm | hm
        · left; rw [hm]; exact hf1 n hk
        · right; simp [hm]
    · simp only [upsert, hk, if_false]
      rw [distinctKeysList_cons]
      obtain ⟨ih1, ih2⟩ := ih h3
      refine ⟨⟨?_, h2, ih1⟩, ?_⟩
      · intro m hm
        rcases ih2 m hm with hm1 | hm1
        · rw [hm1]; exact fun e => hk e.symm
        · exact h1 m hm1
      · intro m hm
        simp at hm
        rcases hm with hm | hm
        · right; simp [hm]
        · rcases ih2 m hm with hm1 | hm1
          · left; exact hm1
          · right; simp [hm1]

theorem distinctKeysList_insertPath (steps : List Step) :
    ∀ nodes : List node, distinctKeysList nodes → distinctKeysList (insertPath nodes steps) := by
  induction steps with
  | nil =>
    intro nodes h
    rw [insertPath_nil]; exact h
  | cons s tl ih =>
    intro nodes h
    rw [insertPath_cons]
    refine (distinctKeysList_upsert _ s.value ?_ ?_ ?_ ?_ nodes h).1
    · rfl
    · intro n hn
      exact hn
    · exact ih [] trivial
    · intro n hn
      exact ih n.nodes (by rw [distinctKeys_nodes]; exact hn)

theorem nodeAt_nil_path (nodes : List node) : nodeAt nodes [] = none := by
  cases nodes <;> rfl

theorem nodeAt_single (nodes : List node) (key : String) :
    nodeAt nodes [key] = findNode nodes key := by
  simp only [nodeAt]
  cases findNode nodes key <;> rfl

theorem nodeAt_cons_cons (nodes : List node) (key key2 : String) (keys : List String) :
    nodeAt nodes (key :: key2 :: keys) =
      match findNode nodes key with
      | none => none
      | some n => nodeAt n.nodes (key2 :: keys) := by
  simp only [nodeAt]

theorem nodeAt_empty_forest (keys : List String) : nodeAt [] keys = none := by
  cases keys with
  | nil => rfl
  | cons k ks => simp [nodeAt, findNode]

/-- The nodes on the inserted path: each exists afterwards, with count one when
it is new, and with its text kept and its count incremented when it was there. -/
theorem nodeAt_insertPath_on (steps : List Step) :
    ∀ (nodes : List node) (p : List String), p ≠ [] →
      List.IsPrefix p (steps.map Step.value) →
      ∃ n, nodeAt (insertPath nodes steps) p = some n ∧
        (nodeAt nodes p = none → n.duplicates = 1) ∧
        (∀ m, nodeAt nodes p = some m →
          n.stepText = m.stepText ∧ n.duplicates = incrInt m.duplicates) := by
  induction steps with
  | nil =>
    intro nodes p hp hpre
    simp at hpre
    exact absurd hpre hp
  | cons s tl ih =>
    intro nodes p hp hpre
    cases p with
    | nil => exact absurd rfl hp
    | cons k p1 =>
      simp only [List.map_cons, List.cons_prefix_cons] at hpre
      obtain ⟨hk, hpre1⟩ := hpre
      subst hk
      rw [insertPath_cons]
      have hfind := findNode_upsert_same (fun o =>
          match o with
          | none => node.mk s.lineText s.value (insertPath [] tl) 1
          | some n => node.mk n.stepText n.parsedStepText (insertPath n.nodes tl)
              (incrInt n.duplicates)) s.value rfl (fun n hn => hn) nodes
      cases p1 with
      | nil =>
        rw [nodeAt_single, nodeAt_single, hfind]
        cases findNode nodes s.value with
        | none =>
          refine ⟨_, rfl, fun _ => rfl, ?_⟩
          intro m hm
          cases hm
        | some c =>
          refine ⟨_, rfl, ?_, ?_⟩
          · intro h; cases h
          · intro m hm
            cases hm
            exact ⟨rfl, rfl⟩
      | cons k2 ks =>
        rw [nodeAt_cons_cons, nodeAt_cons_cons, hfind]
        cases findNode nodes s.value with
        | none =>
          obtain ⟨n, h1, h2, h3⟩ := ih [] (k2 :: ks) (List.cons_ne_nil _ _) hpre1
          refine ⟨n, h1, ?_, ?_⟩
          · intro _
            exact h2 (nodeAt_empty_forest _)
          · intro m hm
            cases hm
        | some c =>
          obtain ⟨n, h1, h2, h3⟩ := ih c.nodes (k2 :: ks) (List.cons_ne_nil _ _) hpre1
          exact ⟨n, h1, h2, h3⟩

/-- The nodes off the inserted path: the subtree at every key path that is not
a prefix of the inserted one is what it was. -/
theorem nodeAt_insertPath_off (steps : List Step) :
    ∀ (nodes : List node) (q : List String),
      ¬ List.IsPrefix q (steps.map Step.value) →
      nodeAt (insertPath nodes steps) q = nodeAt nodes q := by
  induction steps with
  | nil =>
    intro nodes q _
    rw [insertPath_nil]
  | cons s tl ih =>
    intro nodes q hq
    cases q with
    | nil => exact absurd List.nil_prefix hq
    | cons x q1 =>
      rw [insertPath_cons]
      by_cases hx : x = s.value
      · subst hx
        have hq1 : ¬ List.IsPrefix q1 (tl.map Step.value) := by
          intro h
          apply hq
          simp only [List.map_cons, List.cons_prefix_cons]
          exact ⟨trivial, h⟩
        have hfind := findNode_upsert_same (fun o =>
            match o with
            | none => node.mk s.lineText s.value (insertPath [] tl) 1
            | some n => node.mk n.stepText n.parsedStepText (insertPath n.nodes tl)
                (incrInt n.duplicates)) s.value rfl (fun n hn => hn) nodes
        cases q1 with
        | nil => exact absurd List.nil_prefix hq1
        | cons k2 ks =>
          rw [nodeAt_cons_cons, nodeAt_cons_cons, hfind]
          cases findNode nodes s.value with
          | none =>
            show nodeAt (insertPath [] tl) (k2 :: ks) = none
            rw [ih [] _ hq1, nodeAt_empty_forest]
          | some c =>
            show nodeAt (insertPath c.nodes tl) (k2 :: ks) = nodeAt c.nodes (k2 :: ks)
            exact ih c.nodes _ hq1
      · have hfind := findNode_upsert_other (fun o =>
            match o with
            | none => node.mk s.lineText s.value (insertPath [] tl) 1
            | some n => node.mk n.stepText n.parsedStepText (insertPath n.nodes tl)
                (incrInt n.duplicates)) s.value x rfl (fun n hn => hn) hx nodes
        cases q1 with
        | nil => rw [nodeAt_single, nodeAt_single, hfind]
        | cons k2 ks => rw [nodeAt_cons_cons, nodeAt_cons_cons, hfind]

theorem incrInt_of_lt (d : Int) (h1 : minInt ≤ d) (h2 : d < maxInt) : incrInt d = d + 1 := by
  simp only [incrInt, minInt, maxInt] at *
  omega

/-- Claim C20, the claim as stated fails: on the forest of one node `A` whose
count is the largest `int`, inserting the Step list `[A]` leaves the count of
`A` at the smallest `int`, not at one more than before. -/
theorem start_count_wraps_at_largest_int :
    distinctKeysList exForestFull ∧ [exStepA] ≠ [] ∧
    nodeAt exForestFull ["step A"] = some (node.mk "* step A" "step A" [] maxInt) ∧
    ∃ out n, start exForestFull [exStepA] = some out ∧
      nodeAt out ["step A"] = some n ∧
      n.duplicates = minInt ∧ n.duplicates ≠ maxInt + 1 :=
  ⟨⟨by simp, trivial, trivial⟩, List.cons_ne_nil _ _, rfl,
    ⟨[node.mk "* step A" "step A" [] minInt], node.mk "* step A" "step A" [] minInt,
      rfl, rfl, rfl, by decide⟩⟩

/-- Claim C20 (amended): for every forest with pairwise-distinct sibling keys at
every level and every non-empty Step list, `start` returns a forest that again
has pairwise-distinct sibling keys at every level; every non-empty prefix of the
key path `steps[0].Value, ..., steps[n-1].Value` leads to a node in it, whose
count is 1 when the path led to no node before, and otherwise is the count
before incremented as Go increments an `int` (one more than before whenever the
count was below the largest `int`), with the node's text kept; and the subtree
at every key path that is not a prefix of the inserted one is unchanged. -/
theorem start_inserts_path (nodes : List node) (steps : List Step)
    (hdistinct : distinctKeysList nodes) (hne : steps ≠ []) :
    ∃ out, start nodes steps = some out ∧
      distinctKeysList out ∧
      (∀ p, p ≠ [] → List.IsPrefix p (steps.map Step.value) →
        ∃ n, nodeAt out p = some n ∧
          (nodeAt nodes p = none → n.duplicates = 1) ∧
          (∀ m, nodeAt nodes p = some m →
            n.stepText = m.stepText ∧ n.duplicates = incrInt m.duplicates ∧
            (minInt ≤ m.duplicates → m.duplicates < maxInt →
              n.duplicates = m.duplicates + 1))) ∧
      (∀ q, ¬ List.IsPrefix q (steps.map Step.value) → nodeAt out q = nodeAt nodes q) := by
  cases steps with
  | nil => exact absurd rfl hne
  | cons s tl =>
    refine ⟨insertPath nodes (s :: tl), start_eq nodes s tl,
      distinctKeysList_insertPath _ nodes hdistinct, ?_, nodeAt_insertPath_off _ nodes⟩
    intro p hp hpre
    obtain ⟨n, h1, h2, h3⟩ := nodeAt_insertPath_on (s :: tl) nodes p hp hpre
    refine ⟨n, h1, h2, ?_⟩
    intro m hm
    obtain ⟨h4, h5⟩ := h3 m hm
    exact ⟨h4, h5, fun hlo hhi => by rw [h5, incrInt_of_lt _ hlo hhi]⟩

theorem exForest_distinctKeys : distinctKeysList exForest :=
  ⟨by decide, ⟨by decide, trivial, trivial⟩, by decide, trivial, trivial⟩

/-- Witness of C20: inserting the Steps `[A, D]` into the forest with the paths
`A`, `A, B` and `D`: the node `A` is counted a fourth time, and a node `D` with
count one appears below it next to `B`. -/
theorem start_inserts_path_witness :
    distinctKeysList exForest ∧ [exStepA, exStepD] ≠ [] ∧
    start exForest [exStepA, exStepD] = some
      [node.mk "* step A" "step A"
        [node.mk "* step B" "step B" [] 2, node.mk "* step D" "step D" [] 1] 4,
       node.mk "* step D" "step D" [] 1] ∧
    ∃ out, start exForest [exStepA, exStepD] = some out ∧ distinctKeysList out :=
  ⟨exForest_distinctKeys, List.cons_ne_nil _ _, rfl,
    (start_inserts_path exForest [exStepA, exStepD] exForest_distinctKeys
      (List.cons_ne_nil _ _)).imp (fun _ h => ⟨h.1, h.2.1⟩)⟩

end Gauge
